import Mathlib

/-!
# Mobipocket reader (`src/mobipocket.cpp`)

A shallow embedding of the Mobipocket document decoder: the PDB container
reader (`PDBPrivate::init`, `PDB::getRecord`), the MOBI/EXTH header parser
(`DocumentPrivate::init`, `parseEXTH`, `readEXTHRecord`), the markup fallback
(`parseHtmlHead`), the text assembler (`Document::text`) and the image locator
(`findFirstImage`, `getImage`, `thumbnail`), followed by theorems about them.

Conventions of the embedding.

* A byte sequence (`QByteArray`, and the content of the `QIODevice`) is a list
  of `UInt8`. A null and an empty `QByteArray` are both the empty list: every
  byte array the program tests with `isNull()` comes out of `PDB::getRecord`,
  where Qt yields a null array exactly when no byte was read.
* Machine integers are natural numbers or integers with the wrap-around written
  out (`% 2 ^ 32`, `% 2 ^ 16`); `toInt` is the conversion `quint32 → int`.
* The stream position of the device is not part of the state: every read of
  the program is preceded by a `seek`, so `seek(p); read(n)` is a function of
  the content. A seek past the end is accepted and a later read then delivers
  nothing (a file device).
* An operation whose C++ behaviour is undefined (indexing a `QList` or a const
  `QByteArray` out of range, calling through a null `Decompressor*`, signed
  overflow) yields `none`.
* Variables the C++ code leaves uninitialised are inputs of the model
  (`Uninit`).
* Collaborators that live outside `mobipocket.cpp` (text codecs, the
  decompression strategies, `QRegExp`, the image reader) are the fields of
  `Env`.
-/

namespace Mobipocket

/-! ## Qt value types -/

/-- Byte sequences: the model of `QByteArray` and of the content of a device. -/
abbrev QByteArray := List UInt8

/-- Decoded text: the model of `QString`; `QString::null` is the empty string. -/
abbrev QString := String

/-- The largest `int`, which is also the largest size of a `QByteArray`. -/
def INT_MAX : Nat := 2147483647

/-- Conversion of an unsigned 32-bit value to `int` (two's complement). -/
def toInt (x : Nat) : Int :=
  if x % 2 ^ 32 < 2 ^ 31 then ((x % 2 ^ 32 : Nat) : Int) else ((x % 2 ^ 32 : Nat) : Int) - 2 ^ 32

/-- Big-endian value of a byte sequence (`qFromBigEndian` on the bytes of a word). -/
def beValue (bs : QByteArray) : Nat :=
  bs.foldl (fun acc b => acc * 256 + b.toNat) 0

/-- Embedding of `QByteArray::operator[]` on a non-const array, read as a value
(`QByteRef::operator char`): a byte outside the array reads as 0. -/
def byteRef (a : QByteArray) (i : Nat) : UInt8 :=
  a.getD i 0

/-- Embedding of `QList::operator[]`: defined only for `0 <= i < size()`. -/
def qlistIndex {α : Type} (l : List α) (i : Int) : Option α :=
  if i < 0 then none else l[i.toNat]?

/-- Embedding of `QByteArray::mid(pos, len)` of Qt 4. The C++ body, with `size = d->size`:
`if (null || empty || pos >= size) return QByteArray(); if (len < 0) len = size - pos;
if (pos < 0) { len += pos; pos = 0; } if (len + pos > size) len = size - pos;
return QByteArray(data + pos, len);` where a `len <= 0` gives the empty array.
The differences and sums are `int` arithmetic: when `size - pos` or `len + pos`
exceeds `INT_MAX` the result is `none`. -/
def mid (a : QByteArray) (pos len : Int) : Option QByteArray :=
  let size : Int := a.length
  if a.isEmpty || pos ≥ size then some []
  else
    let len1 := if len < 0 then size - pos else len
    if len1 > (INT_MAX : Int) then none else
    let len2 := if pos < 0 then len1 + pos else len1
    let pos2 := if pos < 0 then 0 else pos
    if len2 + pos2 > (INT_MAX : Int) then none
    else
      let len3 := if len2 + pos2 > size then size - pos2 else len2
      some ((a.drop pos2.toNat).take len3.toNat)

/-! ## The device -/

/-- Embedding of `device->seek(pos); device->read(maxSize)`: the bytes from `pos`, at most
`maxSize` of them and at most `INT_MAX` (Qt clamps a larger request to the size
limit of the returned `QByteArray`). -/
def deviceRead (dev : QByteArray) (pos maxSize : Nat) : QByteArray :=
  (dev.drop pos).take (min maxSize INT_MAX)

/-- Embedding of `device->read((char*)&buf, n)` with the device at `pos`: the bytes delivered
overwrite the start of the buffer, the rest of the buffer keeps its old content.
Returns the buffer and the new position. -/
def deviceReadInto (dev : QByteArray) (pos : Nat) (buf : QByteArray) (n : Nat) :
    QByteArray × Nat :=
  let got := (dev.drop pos).take n
  (got ++ buf.drop got.length, pos + got.length)

/-! ## Container (PDB) -/

/-- Embedding of `struct PDBPrivate`. `device` is the content of the stream. -/
structure PDBPrivate where
  recordOffsets : List Nat
  device : QByteArray
  fileType : QString
  name : QString
  nrecords : Nat
  valid : Bool

/-- Keys of the metadata map.
Modelled from the spec: the enumeration `Document::MetaKey` is declared in
`mobipocket.h`, which is not among the sources; the spec lists its keys. -/
inductive MetaKey where
  | Title
  | Author
  | Copyright
  | Subject
  | Description
  deriving DecidableEq, Repr

/-- The five static `QRegExp` objects of `parseHtmlHead`, by their variable names. -/
inductive HeadRegExp where
  | title
  | author
  | copyright
  | subject
  | description
  deriving DecidableEq, Repr

/-- The collaborators of the reader that are not part of `mobipocket.cpp`.
`σ` is the state of a decompression strategy object, `Img` the type of decoded
images.

* `fromUtf8`, `fromLatin1`: `QString::fromUtf8`, `QString::fromLatin1`;
* `create`: `Decompressor::create(type, pdb)`, `none` for the null pointer;
* `decompress`, `isValid`: the virtual `Decompressor::decompress` (which may
  change the object) and `Decompressor::isValid`;
* `indexIn r s`: `some c` when `r.indexIn(s) != -1`, with `c` the text
  `r.capturedTexts()[1]`;
* `canRead`: `QImageReader::canRead` on a buffer holding the bytes;
* `fromData`: `QImage::fromData`. -/
structure Env (σ Img : Type) where
  fromUtf8 : QByteArray → QString
  fromLatin1 : QByteArray → QString
  create : UInt8 → PDBPrivate → Option σ
  decompress : σ → QByteArray → QByteArray × σ
  isValid : σ → Bool
  indexIn : HeadRegExp → QString → Option QString
  canRead : QByteArray → Bool
  fromData : QByteArray → Img

/-- The variables the C++ code declares without initialising them: the locals
`word` and `dword` of `PDBPrivate::init` (as the bytes they occupy) and the
member `ntextrecords` of `DocumentPrivate`. -/
structure Uninit where
  word : QByteArray
  dword : QByteArray
  ntextrecords : Nat

/-- The loop of `PDBPrivate::init`, `n` iterations left, device at `pos`:
`read(&dword,4); recordOffsets.append(qFromBigEndian(dword)); read(&dword,4);`. -/
def readOffsets (dev : QByteArray) : Nat → Nat → QByteArray → List Nat → List Nat
  | 0, _, _, acc => acc
  | n + 1, pos, dword, acc =>
    let r1 := deviceReadInto dev pos dword 4
    let acc1 := acc ++ [beValue (r1.1.take 4)]
    let r2 := deviceReadInto dev r1.2 r1.1 4
    readOffsets dev n r2.2 r2.1 acc1

/-- Embedding of `PDBPrivate::init` on a fresh `PDBPrivate` whose `device` is `dev`. -/
def PDBPrivate.init {σ Img : Type} (E : Env σ Img) (dev : QByteArray) (u : Uninit) :
    PDBPrivate :=
  let name := E.fromLatin1 (deviceRead dev 0 32)
  let fileType := E.fromLatin1 (deviceRead dev 0x3c 8)
  let w := deviceReadInto dev 0x4c u.word 2
  let nrecords := beValue (w.1.take 2)
  { recordOffsets := readOffsets dev nrecords w.2 u.dword []
    device := dev
    fileType := fileType
    name := name
    nrecords := nrecords
    valid := true }

/-- Embedding of `PDB::PDB(QIODevice* dev)`. -/
def PDB.ctor {σ Img : Type} (E : Env σ Img) (dev : QByteArray) (u : Uninit) : PDBPrivate :=
  PDBPrivate.init E dev u

/-- Embedding of `PDB::getRecord(int i)`. -/
def PDB.getRecord (d : PDBPrivate) (i : Int) : Option QByteArray :=
  if i ≥ (d.nrecords : Int) then some []
  else
    match qlistIndex d.recordOffsets i with
    | none => none
    | some offset =>
      let last : Bool := i == (d.nrecords : Int) - 1
      if last then
        let size := ((((d.device.length : Int) - (offset : Int)) % 2 ^ 32).toNat)
        some (deviceRead d.device offset size)
      else
        match qlistIndex d.recordOffsets (i + 1) with
        | none => none
        | some next =>
          let size := ((((next : Int) - (offset : Int)) % 2 ^ 32).toNat)
          some (deviceRead d.device offset size)

/-- Embedding of `PDB::name()`. -/
def PDB.name (d : PDBPrivate) : QString := d.name

/-- Embedding of `PDB::isValid()`. -/
def PDB.isValid (d : PDBPrivate) : Bool := d.valid

/-- Embedding of `PDB::recordCount()`. -/
def PDB.recordCount (d : PDBPrivate) : Int := d.nrecords

/-! ## Document -/

/-- The metadata map, `QMap<Document::MetaKey, QString>`: the value of each key
that is present. -/
abbrev MetaMap := MetaKey → Option QString

/-- The empty map. -/
def MetaMap.empty : MetaMap := fun _ => none

/-- Embedding of `map[k] = v`. -/
def MetaMap.insert (m : MetaMap) (k : MetaKey) (v : QString) : MetaMap :=
  fun j => if j = k then some v else m j

/-- Embedding of `map.contains(k)`. -/
def MetaMap.contains (m : MetaMap) (k : MetaKey) : Bool := (m k).isSome

/-- Embedding of `map.size()`: the number of keys present. -/
def MetaMap.size (m : MetaMap) : Nat :=
  ([MetaKey.Title, MetaKey.Author, MetaKey.Copyright, MetaKey.Subject,
    MetaKey.Description].filter (fun k => (m k).isSome)).length

/-- Embedding of `struct DocumentPrivate`. `dec` is the strategy object behind the pointer
`Decompressor* dec`, `none` for the null pointer. -/
structure DocumentPrivate (σ : Type) where
  pdb : PDBPrivate
  dec : Option σ
  ntextrecords : Nat
  valid : Bool
  firstImageRecord : Nat
  metadata : MetaMap
  isUtf : Bool
  drm : Bool
  thumbnailIndex : Int

section Document

variable {σ Img : Type}

/-- The constructor `DocumentPrivate(QIODevice* d)`: `pdb(d), valid(true),
firstImageRecord(0), isUtf(false), drm(false), thumbnailIndex(0)`; `ntextrecords`
is not initialised, and `dec` is not either (it is assigned before any use, the
model starts it as the null pointer). -/
def DocumentPrivate.ctor (E : Env σ Img) (dev : QByteArray) (u : Uninit) : DocumentPrivate σ :=
  { pdb := PDB.ctor E dev u
    dec := none
    ntextrecords := u.ntextrecords % 2 ^ 16
    valid := true
    firstImageRecord := 0
    metadata := MetaMap.empty
    isUtf := false
    drm := false
    thumbnailIndex := 0 }

/-- Embedding of `DocumentPrivate::decodeString`. -/
def DocumentPrivate.decodeString (E : Env σ Img) (d : DocumentPrivate σ) (data : QByteArray) :
    QString :=
  if d.isUtf then E.fromUtf8 data else E.fromLatin1 data

/-- One line of `parseHtmlHead`: `if (r.indexIn(data)!=-1) metadata[k]=r.capturedTexts()[1];`. -/
def applyRegExp (E : Env σ Img) (r : HeadRegExp) (k : MetaKey) (data : QString) (m : MetaMap) :
    MetaMap :=
  match E.indexIn r data with
  | some c => MetaMap.insert m k c
  | none => m

/-- Embedding of `DocumentPrivate::parseHtmlHead`. -/
def DocumentPrivate.parseHtmlHead (E : Env σ Img) (d : DocumentPrivate σ) (data : QString) :
    DocumentPrivate σ :=
  let m1 := if !MetaMap.contains d.metadata MetaKey.Title
    then applyRegExp E HeadRegExp.title MetaKey.Title data d.metadata else d.metadata
  let m2 := applyRegExp E HeadRegExp.author MetaKey.Author data m1
  let m3 := applyRegExp E HeadRegExp.copyright MetaKey.Copyright data m2
  let m4 := applyRegExp E HeadRegExp.subject MetaKey.Subject data m3
  let m5 := applyRegExp E HeadRegExp.description MetaKey.Description data m4
  { d with metadata := m5 }

/-- Big-endian unsigned 32-bit read at `offset` (`readBELong(data, offset)`,
`offset` an `int`).
Modelled from the spec: `readBELong` is declared in `decompressor.h`, which is
not among the sources; the spec calls it `readBE32`, the big-endian 32-bit
integer at the offset. It indexes the const array, so a read that is not
within the array is undefined: `none`. -/
def readBELong (data : QByteArray) (offset : Int) : Option Nat :=
  if offset < 0 ∨ offset + 4 > (data.length : Int) then none
  else some (beValue ((data.drop offset.toNat).take 4))

/-- Embedding of `DocumentPrivate::readEXTHRecord(data, offset)`: the decoded string and the
new value of the reference parameter `offset`. -/
def DocumentPrivate.readEXTHRecord (E : Env σ Img) (d : DocumentPrivate σ) (data : QByteArray)
    (offset : Nat) : Option (QString × Nat) :=
  match readBELong data (toInt offset) with
  | none => none
  | some len0 =>
    let offset1 := (offset + 4) % 2 ^ 32
    let len := (len0 + 2 ^ 32 - 8) % 2 ^ 32
    match mid data (toInt offset1) (toInt len) with
    | none => none
    | some bytes =>
      let ret := d.decodeString E bytes
      some (ret, (offset1 + len) % 2 ^ 32)

/-- A `case` of the switch in `parseEXTH` that stores a string:
`metadata[k]=readEXTHRecord(data,offset)`. -/
def exthStore (E : Env σ Img) (d : DocumentPrivate σ) (data : QByteArray) (offset : Nat)
    (k : MetaKey) : Option (DocumentPrivate σ × Nat) :=
  match d.readEXTHRecord E data offset with
  | none => none
  | some r => some ({ d with metadata := MetaMap.insert d.metadata k r.1 }, r.2)

/-- The body of the loop of `parseEXTH` (lines 212-221), `offset` being the
cursor: the state and the cursor after one record. -/
def exthStep (E : Env σ Img) (d : DocumentPrivate σ) (data : QByteArray) (offset : Nat) :
    Option (DocumentPrivate σ × Nat) :=
  match readBELong data (toInt offset) with
  | none => none
  | some type =>
    let offset1 := (offset + 4) % 2 ^ 32
    if type = 100 then exthStore E d data offset1 MetaKey.Author
    else if type = 103 then exthStore E d data offset1 MetaKey.Description
    else if type = 105 then exthStore E d data offset1 MetaKey.Subject
    else if type = 109 then exthStore E d data offset1 MetaKey.Copyright
    else if type = 202 then
      match readBELong data (toInt offset1) with
      | none => none
      | some v => some ({ d with thumbnailIndex := toInt v }, (offset1 + 4) % 2 ^ 32)
    else
      match d.readEXTHRecord E data offset1 with
      | none => none
      | some r => some (d, r.2)

/-- The loop of `parseEXTH`, `for (unsigned int i=0;i<records;i++)`, with `n`
iterations left: the state and the cursor at the end. -/
def exthLoop (E : Env σ Img) (data : QByteArray) :
    Nat → DocumentPrivate σ → Nat → Option (DocumentPrivate σ × Nat)
  | 0, d, offset => some (d, offset)
  | n + 1, d, offset =>
    match exthStep E d data offset with
    | none => none
    | some r => exthLoop E data n r.1 r.2

/-- The first block of `parseEXTH` (lines 198-204): the full-name field. The
comparison `(nameoffset + namelen) < data.size()` is unsigned, on 32 bits. -/
def parseFullName (E : Env σ Img) (d : DocumentPrivate σ) (data : QByteArray) :
    Option (DocumentPrivate σ) :=
  if data.length ≥ 92 then
    match readBELong data 84, readBELong data 88 with
    | some nameoffset, some namelen =>
      if (nameoffset + namelen) % 2 ^ 32 < data.length % 2 ^ 32 then
        match mid data (toInt nameoffset) (toInt namelen) with
        | none => none
        | some bytes =>
          some { d with metadata := MetaMap.insert d.metadata MetaKey.Title (d.decodeString E bytes) }
      else some d
    | _, _ => none
  else some d

/-- The literal tag `"EXTH"`. -/
def exthTag : QByteArray := [0x45, 0x58, 0x54, 0x48]

/-- The second block of `parseEXTH` (lines 206-222): the EXTH records. Returns
the state and, when the loop ran, the final cursor. -/
def parseEXTHRecords (E : Env σ Img) (d : DocumentPrivate σ) (data : QByteArray) :
    Option (DocumentPrivate σ × Option Nat) :=
  match readBELong data 20 with
  | none => none
  | some v =>
    let exthoffs := (v + 16) % 2 ^ 32
    match mid data (toInt exthoffs) 4 with
    | none => none
    | some tag =>
      if tag ≠ exthTag then some (d, none)
      else
        match readBELong data (toInt ((exthoffs + 8) % 2 ^ 32)) with
        | none => none
        | some records =>
          match exthLoop E data records d ((exthoffs + 12) % 2 ^ 32) with
          | none => none
          | some r => some (r.1, some r.2)

/-- Embedding of `DocumentPrivate::parseEXTH`. -/
def DocumentPrivate.parseEXTH (E : Env σ Img) (d : DocumentPrivate σ) (data : QByteArray) :
    Option (DocumentPrivate σ) :=
  match parseFullName E d data with
  | none => none
  | some d1 =>
    match parseEXTHRecords E d1 data with
    | none => none
    | some r => some r.1

/-- Lines 153-157 of `DocumentPrivate::init`: the text record count, shifted and
added to in a 16-bit variable, and the encoding. -/
def initEncoding (d : DocumentPrivate σ) (mhead : QByteArray) : Option (DocumentPrivate σ) :=
  let n0 := (byteRef mhead 8).toNat
  let n1 := (n0 * 256) % 2 ^ 16
  let n2 := (n1 + (byteRef mhead 9).toNat) % 2 ^ 16
  let d1 := { d with ntextrecords := n2 }
  match readBELong mhead 28 with
  | none => none
  | some encoding => some (if encoding = 65001 then { d1 with isUtf := true } else d1)

/-- Lines 153-158 of `DocumentPrivate::init`: text record count, encoding, and
`if (mhead.size()>176) parseEXTH(mhead);`. -/
def initParse (E : Env σ Img) (d : DocumentPrivate σ) (mhead : QByteArray) :
    Option (DocumentPrivate σ) :=
  match initEncoding d mhead with
  | none => none
  | some d2 => if mhead.length > 176 then d2.parseEXTH E mhead else some d2

/-- Line 161 of `DocumentPrivate::init`, `s` being the strategy object `*dec`:
`if (metadata.size()<2 && !drm) parseHtmlHead(decodeString(dec->decompress(pdb.getRecord(1))));`. -/
def initFallback (E : Env σ Img) (s : σ) (d : DocumentPrivate σ) : Option (DocumentPrivate σ) :=
  if MetaMap.size d.metadata < 2 && !d.drm then
    match PDB.getRecord d.pdb 1 with
    | none => none
    | some rec =>
      let r := E.decompress s rec
      let d1 := { d with dec := some r.2 }
      some (d1.parseHtmlHead E (d1.decodeString E r.1))
  else some d

/-- Lines 147-148 of `DocumentPrivate::init`: the strategy lookup and the DRM flag,
`dec = Decompressor::create(mhead[1], pdb);
if ((int)mhead[12]!=0 || (int)mhead[13]!=0) drm=true;`. -/
def initFlags (E : Env σ Img) (d : DocumentPrivate σ) (mhead : QByteArray) : DocumentPrivate σ :=
  let d1 := { d with dec := E.create (byteRef mhead 1) d.pdb }
  if byteRef mhead 12 ≠ 0 || byteRef mhead 13 ≠ 0 then { d1 with drm := true } else d1

/-- Embedding of `DocumentPrivate::init`. -/
def DocumentPrivate.init (E : Env σ Img) (d : DocumentPrivate σ) : Option (DocumentPrivate σ) :=
  let d0 := { d with valid := PDB.isValid d.pdb }
  if !d0.valid then some d0
  else
    match PDB.getRecord d0.pdb 0 with
    | none => none
    | some mhead =>
      let d2 := initFlags E d0 mhead
      match d2.dec with
      | none => some { d2 with valid := false }
      | some s =>
        match initParse E d2 mhead with
        | none => none
        | some d3 => initFallback E s d3

/-- Embedding of `Document::Document(QIODevice* dev)`. -/
def Document.ctor (E : Env σ Img) (dev : QByteArray) (u : Uninit) : Option (DocumentPrivate σ) :=
  (DocumentPrivate.ctor E dev u).init E

/-- The loop of `Document::text`, `for (int i=1;i<d->ntextrecords+1;i++)`, with
`n` iterations left at index `i`; `dec` is the strategy object. The result is
`some whole` at the end of the loop and `none` for the early `return`, together
with the strategy object. -/
def textLoop (E : Env σ Img) (pdb : PDBPrivate) :
    Nat → Int → QByteArray → Option σ → Option (Option QByteArray × Option σ)
  | 0, _, whole, dec => some (some whole, dec)
  | n + 1, i, whole, dec =>
    match PDB.getRecord pdb i with
    | none => none
    | some rec =>
      match dec with
      | none => none
      | some s =>
        let r := E.decompress s rec
        let whole1 := whole ++ r.1
        if !E.isValid r.2 then some (none, some r.2)
        else textLoop E pdb n (i + 1) whole1 (some r.2)

/-- Embedding of `Document::text()`: the text and the document afterwards. -/
def Document.text (E : Env σ Img) (d : DocumentPrivate σ) : Option (QString × DocumentPrivate σ) :=
  match textLoop E d.pdb d.ntextrecords 1 [] d.dec with
  | none => none
  | some (none, dec) => some ("", { d with dec := dec, valid := false })
  | some (some whole, dec) => some (d.decodeString E whole, { d with dec := dec })

/-- Embedding of `Document::imageCount()`. -/
def Document.imageCount (d : DocumentPrivate σ) : Int :=
  PDB.recordCount d.pdb - (d.ntextrecords : Int)

/-- Embedding of `Document::isValid()`. -/
def Document.isValid (d : DocumentPrivate σ) : Bool := d.valid

/-- Embedding of `Document::metadata()`. -/
def Document.metadata (d : DocumentPrivate σ) : MetaMap := d.metadata

/-- Embedding of `Document::hasDRM()`. -/
def Document.hasDRM (d : DocumentPrivate σ) : Bool := d.drm

/-- The loop of `findFirstImage` with `fuel` iterations allowed and
`firstImageRecord = fir`: the final `firstImageRecord`, `none` when the fuel
runs out before the loop ends. -/
def findFirstImageLoop (E : Env σ Img) (pdb : PDBPrivate) : Nat → Nat → Option Nat
  | 0, _ => none
  | fuel + 1, fir =>
    if (fir : Int) < PDB.recordCount pdb then
      match PDB.getRecord pdb fir with
      | none => none
      | some rec =>
        if rec.isEmpty then some fir
        else if E.canRead rec then some fir
        else findFirstImageLoop E pdb fuel ((fir + 1) % 2 ^ 16)
    else some fir

/-- Embedding of `DocumentPrivate::findFirstImage`. The loop gets `nrecords + 1` iterations. -/
def DocumentPrivate.findFirstImage (E : Env σ Img) (d : DocumentPrivate σ) :
    Option (DocumentPrivate σ) :=
  match findFirstImageLoop E d.pdb (d.pdb.nrecords + 1) ((d.ntextrecords + 1) % 2 ^ 16) with
  | none => none
  | some fir => some { d with firstImageRecord := fir }

/-- Addition of two `int` values; overflow is undefined. -/
def intAdd (a b : Int) : Option Int :=
  if a + b > (INT_MAX : Int) ∨ a + b < -(INT_MAX : Int) - 1 then none else some (a + b)

/-- Embedding of `DocumentPrivate::getImageFromRecord`. -/
def DocumentPrivate.getImageFromRecord (E : Env σ Img) (d : DocumentPrivate σ) (i : Int) :
    Option Img :=
  match PDB.getRecord d.pdb i with
  | none => none
  | some rec =>
    match PDB.getRecord d.pdb (i - 2) with
    | none => none
    | some _ => some (E.fromData rec)

/-- The common first line of `getImage` and `thumbnail`:
`if (!d->firstImageRecord) d->findFirstImage();`. -/
def resolveFirstImage (E : Env σ Img) (d : DocumentPrivate σ) : Option (DocumentPrivate σ) :=
  if d.firstImageRecord = 0 then d.findFirstImage E else some d

/-- Embedding of `Document::getImage(int i)`: the image and the document afterwards. -/
def Document.getImage (E : Env σ Img) (d : DocumentPrivate σ) (i : Int) :
    Option (Img × DocumentPrivate σ) :=
  match resolveFirstImage E d with
  | none => none
  | some d1 =>
    match intAdd (d1.firstImageRecord : Int) i with
    | none => none
    | some k =>
      match d1.getImageFromRecord E k with
      | none => none
      | some img => some (img, d1)

/-- Embedding of `Document::thumbnail()`: the image and the document afterwards. -/
def Document.thumbnail (E : Env σ Img) (d : DocumentPrivate σ) :
    Option (Img × DocumentPrivate σ) :=
  match resolveFirstImage E d with
  | none => none
  | some d1 =>
    match intAdd d1.thumbnailIndex (d1.firstImageRecord : Int) with
    | none => none
    | some k =>
      match d1.getImageFromRecord E k with
      | none => none
      | some img => some (img, d1)

end Document

/-! ## Descriptions used in the statements

Byte-level descriptions that follow the words of the specification, and a
concrete environment with sample streams on which the model is evaluated. -/

/-- The four bytes of the big-endian unsigned 32-bit encoding of `n`. -/
def be32 (n : Nat) : QByteArray :=
  [UInt8.ofNat (n / 2 ^ 24 % 256), UInt8.ofNat (n / 2 ^ 16 % 256), UInt8.ofNat (n / 2 ^ 8 % 256),
    UInt8.ofNat (n % 256)]

/-- The two bytes of the big-endian unsigned 16-bit encoding of `n`. -/
def be16 (n : Nat) : QByteArray :=
  [UInt8.ofNat (n / 2 ^ 8 % 256), UInt8.ofNat (n % 256)]

/-- The bytes of an ASCII text. -/
def ascii (s : String) : QByteArray := s.data.map (fun c => UInt8.ofNat c.toNat)

/-- A well-formed container, in the words of the specification: the record table
is fully present, the record offsets are strictly increasing, and the last
offset is not beyond the stream size. -/
def PDB.WellFormed (d : PDBPrivate) : Prop :=
  0x4E + 8 * d.nrecords ≤ d.device.length ∧
  d.recordOffsets.Pairwise (fun a b => a < b) ∧
  ∀ o ∈ d.recordOffsets.getLast?, o ≤ d.device.length

instance (d : PDBPrivate) : Decidable (PDB.WellFormed d) := by
  unfold PDB.WellFormed
  infer_instance

/-- The text records of a document in index order: `getRecord(i)` for
`i = 1..n` (an undefined access counts as empty; none occurs in a constructed
container). -/
def textRecords (pdb : PDBPrivate) (n : Nat) : List QByteArray :=
  (List.range' 1 n).map (fun (i : Nat) => (PDB.getRecord pdb (i : Int)).getD [])

/-- The strategy driven over a list of records in order: for each record the
decompressed bytes and the strategy object after that call. -/
def decompressSeq {σ Img : Type} (E : Env σ Img) : σ → List QByteArray → List (QByteArray × σ)
  | _, [] => []
  | s, r :: rs => E.decompress s r :: decompressSeq E (E.decompress s r).2 rs

/-- A tagged record of an EXTH block: type code and payload. -/
structure ExthRecord where
  type : Nat
  payload : QByteArray

/-- The bytes of an EXTH record: type, total length (payload plus the 8-byte
header), payload. -/
def ExthRecord.encode (r : ExthRecord) : QByteArray :=
  be32 r.type ++ be32 (r.payload.length + 8) ++ r.payload

/-- The bytes of the records of an EXTH block, one after the other. -/
def encodeRecords : List ExthRecord → QByteArray
  | [] => []
  | r :: rs => r.encode ++ encodeRecords rs

/-- The bytes of an EXTH block: the tag, four bytes `hl` (the block length
field, which the reader skips), the record count, the records. -/
def exthBlock (hl : QByteArray) (rs : List ExthRecord) : QByteArray :=
  exthTag ++ hl ++ be32 rs.length ++ encodeRecords rs

/-- The payload of the last record of type `t`, if there is one. -/
def lastPayload (t : Nat) : List ExthRecord → Option QByteArray
  | [] => none
  | r :: rs =>
    match lastPayload t rs with
    | some p => some p
    | none => if r.type = t then some r.payload else none

/-- The EXTH type code that feeds a metadata key (the table of the
specification): 100 author, 103 description, 105 subject, 109 copyright. -/
def exthTypeOf : MetaKey → Option Nat
  | MetaKey.Author => some 100
  | MetaKey.Description => some 103
  | MetaKey.Subject => some 105
  | MetaKey.Copyright => some 109
  | MetaKey.Title => none

/-- An environment instrumented to count the calls of `decompress`: a strategy
object carries, next to its own state, the number of calls made on it so far. -/
def Env.counting {σ Img : Type} (E : Env σ Img) : Env (σ × Nat) Img where
  fromUtf8 := E.fromUtf8
  fromLatin1 := E.fromLatin1
  create := fun t pdb => (E.create t pdb).map (fun s => (s, 0))
  decompress := fun s rec => ((E.decompress s.1 rec).1, ((E.decompress s.1 rec).2, s.2 + 1))
  isValid := fun s => E.isValid s.1
  indexIn := E.indexIn
  canRead := E.canRead
  fromData := E.fromData

/-- The effect of one EXTH record on a document, in the words of the table of
the specification: a record of type 100, 103, 105 or 109 sets its key to the
decoded payload, any other record (type 202 apart) changes nothing. -/
def storeRecord {σ Img : Type} (E : Env σ Img) (d : DocumentPrivate σ) (r : ExthRecord) :
    DocumentPrivate σ :=
  if r.type = 100 then
    { d with metadata := MetaMap.insert d.metadata MetaKey.Author (d.decodeString E r.payload) }
  else if r.type = 103 then
    { d with metadata := MetaMap.insert d.metadata MetaKey.Description (d.decodeString E r.payload) }
  else if r.type = 105 then
    { d with metadata := MetaMap.insert d.metadata MetaKey.Subject (d.decodeString E r.payload) }
  else if r.type = 109 then
    { d with metadata := MetaMap.insert d.metadata MetaKey.Copyright (d.decodeString E r.payload) }
  else d

/-- The records of a block applied in order. -/
def storeRecords {σ Img : Type} (E : Env σ Img) :
    DocumentPrivate σ → List ExthRecord → DocumentPrivate σ
  | d, [] => d
  | d, r :: rs => storeRecords E (storeRecord E d r) rs

/-- The fields of a document that the EXTH records never touch (they touch the
metadata other than Title, and the thumbnail index). -/
def SameCore {σ : Type} (d d2 : DocumentPrivate σ) : Prop :=
  d2.pdb = d.pdb ∧ d2.dec = d.dec ∧ d2.valid = d.valid ∧ d2.drm = d.drm ∧
  d2.isUtf = d.isUtf ∧ d2.firstImageRecord = d.firstImageRecord ∧
  d2.ntextrecords = d.ntextrecords ∧ d2.metadata MetaKey.Title = d.metadata MetaKey.Title

/-- The fields of a document that no part of header parsing touches. -/
def SameBase {σ : Type} (d d2 : DocumentPrivate σ) : Prop :=
  d2.pdb = d.pdb ∧ d2.dec = d.dec ∧ d2.valid = d.valid ∧ d2.drm = d.drm ∧
  d2.firstImageRecord = d.firstImageRecord

/-- State of the sample decompression strategies: `fragile` tells the kind,
`ok` is the validity flag, `calls` counts the calls of `decompress`. -/
structure SampleDec where
  fragile : Bool
  ok : Bool
  calls : Nat
  deriving DecidableEq, Repr

/-- Text after the first occurrence of `pat` in `s`. -/
def afterFirst (pat : List Char) : List Char → Option (List Char)
  | [] => if pat = [] then some [] else none
  | c :: cs => if (c :: cs).take pat.length = pat then some ((c :: cs).drop pat.length)
    else afterFirst pat cs

/-- Text before the first occurrence of `pat` in `s`. -/
def beforeFirst (pat : List Char) : List Char → Option (List Char)
  | [] => if pat = [] then some [] else none
  | c :: cs => if (c :: cs).take pat.length = pat then some []
    else (beforeFirst pat cs).map (fun r => c :: r)

/-- The element name a sample pattern looks for. -/
def HeadRegExp.element : HeadRegExp → String
  | HeadRegExp.title => "dc:title"
  | HeadRegExp.author => "dc:creator"
  | HeadRegExp.copyright => "dc:rights"
  | HeadRegExp.subject => "dc:subject"
  | HeadRegExp.description => "dc:description"

/-- A sample environment for evaluating the model.

* Text: both codecs map each byte up to the first NUL to the character of the
  same code (correct for latin-1, and for UTF-8 on ASCII bytes).
* Strategies: code 1 is the no-op strategy (returns the record), code 2 a
  strategy that returns the record but fails, for good, on a record that starts
  with byte 255; no other code has a strategy. Every call is counted.
* Patterns: the shortest text between the first plain opening tag and the next
  closing tag of the element.
* Images: a record is an image when it starts with the PNG signature bytes
  `89 50 4E 47`; a decoded image is `some` of its bytes. -/
def sampleEnv : Env SampleDec (Option QByteArray) where
  fromUtf8 := fun bs => String.mk ((bs.takeWhile (fun b => b != 0)).map (fun b => Char.ofNat b.toNat))
  fromLatin1 := fun bs => String.mk ((bs.takeWhile (fun b => b != 0)).map (fun b => Char.ofNat b.toNat))
  create := fun t _ =>
    if t = 1 then some { fragile := false, ok := true, calls := 0 }
    else if t = 2 then some { fragile := true, ok := true, calls := 0 }
    else none
  decompress := fun s rec =>
    if s.fragile && rec.head? == some 255 then ([], { s with ok := false, calls := s.calls + 1 })
    else (rec, { s with calls := s.calls + 1 })
  isValid := fun s => s.ok
  indexIn := fun r s =>
    match afterFirst (("<" ++ r.element ++ ">").data) s.data with
    | none => none
    | some rest => (beforeFirst (("</" ++ r.element ++ ">").data) rest).map String.mk
  canRead := fun bs => bs.take 4 == [0x89, 0x50, 0x4E, 0x47]
  fromData := fun bs => if bs.take 4 == [0x89, 0x50, 0x4E, 0x47] then some bs else none

/-- The record table of a stream holding the given records one after the other,
the first at stream offset `off`: per record its offset and four attribute
bytes (zero). -/
def sampleTable : Nat → List QByteArray → QByteArray
  | _, [] => []
  | off, r :: rs => be32 off ++ [0, 0, 0, 0] ++ sampleTable (off + r.length) rs

/-- A PDB stream holding the given records: 76 zero bytes, the record count,
the record table, the records. -/
def sampleStream (records : List QByteArray) : QByteArray :=
  List.replicate 0x4C 0 ++ be16 records.length ++
    sampleTable (0x4E + 8 * records.length) records ++ records.flatten

/-- A MOBI header record without EXTH region: 32 bytes, compression code
`comp`, `ntext` text records, DRM bytes `drm0` and `drm1`, encoding 0. -/
def sampleHead (comp : UInt8) (ntext : Nat) (drm0 drm1 : UInt8) : QByteArray :=
  [0, comp, 0, 0, 0, 0, 0, 0] ++ be16 ntext ++ [0, 0, drm0, drm1] ++ List.replicate 18 0

/-- The first 180 bytes of a MOBI header record with an EXTH region: as
`sampleHead`, with the EXTH pointer base 164 at offset 20 (so the block starts
at 180), encoding 0, and the full-name offset and length at 84 and 88. -/
def exthHeadFixed (comp : UInt8) (ntext : Nat) (drm0 drm1 : UInt8) (nameoffset namelen : Nat) :
    QByteArray :=
  [0, comp, 0, 0, 0, 0, 0, 0] ++ be16 ntext ++ [0, 0, drm0, drm1] ++ List.replicate 6 0 ++
    be32 164 ++ List.replicate 4 0 ++ be32 0 ++ List.replicate 52 0 ++
    be32 nameoffset ++ be32 namelen ++ List.replicate 88 0

/-- A MOBI header record carrying an EXTH block with the given records. -/
def exthHead (comp : UInt8) (ntext : Nat) (drm0 drm1 : UInt8) (nameoffset namelen : Nat)
    (rs : List ExthRecord) : QByteArray :=
  exthHeadFixed comp ntext drm0 drm1 nameoffset namelen ++
    exthBlock (be32 (12 + (encodeRecords rs).length)) rs

/-- Uninitialised variables that happen to hold zeros. -/
def zeroUninit : Uninit := { word := [0, 0], dword := [0, 0, 0, 0], ntextrecords := 0 }

/-- A PNG signature followed by one byte: a record the sample image reader accepts. -/
def samplePng : QByteArray := [0x89, 0x50, 0x4E, 0x47, 0]

/-- The document constructed from a stream, for streams on which the
construction is defined. -/
def Document.ctorD {σ Img : Type} (E : Env σ Img) (dev : QByteArray) (u : Uninit) :
    DocumentPrivate σ :=
  (Document.ctor E dev u).getD (DocumentPrivate.ctor E dev u)

/-- The concrete scenario of the specification: three records, a header
declaring the no-op compression and one text record, the text `Hello`, an image. -/
def helloStream : QByteArray :=
  sampleStream [sampleHead 1 1 0 0, ascii "Hello", samplePng]

/-- Uninitialised variables where `ntextrecords` happens to hold 1. -/
def oneUninit : Uninit := { word := [0, 0], dword := [0, 0, 0, 0], ntextrecords := 1 }

/-- The first 86 bytes of `bigStream`: 76 zero bytes, record count 1, and the
table entry of the one record, which starts at offset 86. -/
def bigHead : QByteArray :=
  List.replicate 0x4C 0 ++ be16 1 ++ be32 86 ++ [0, 0, 0, 0]

/-- The content of the one record of `bigStream`: `2 ^ 32` zero bytes. -/
def bigTail : QByteArray := List.replicate (2 ^ 32) 0

/-- A well-formed stream of `2 ^ 32 + 86` bytes with a single record. -/
def bigStream : QByteArray := bigHead ++ bigTail

/-- A stream whose header declares compression code 0, for which the sample
environment has no strategy, followed by one record. -/
def unknownCodeStream : QByteArray :=
  sampleStream [sampleHead 0 1 0 0, ascii "Hello"]

/-- A stream whose header declares the failing sample strategy and two text
records, the second of which makes the strategy fail. -/
def fragileStream : QByteArray :=
  sampleStream [sampleHead 2 2 0 0, ascii "Hello", [255, 1, 2]]

/-- A header record with one EXTH record of type 100 and payload `Jane Doe`. -/
def janeHead : QByteArray :=
  exthHead 1 1 0 0 0 0 [{ type := 100, payload := ascii "Jane Doe" }]

/-- A header record with one EXTH record of type 202, total length 12, whose
payload is the 32-bit value 1. -/
def thumbHead : QByteArray :=
  exthHead 1 1 0 0 0 0 [{ type := 202, payload := be32 1 }]

/-- A second record the sample image reader accepts. -/
def samplePng2 : QByteArray := [0x89, 0x50, 0x4E, 0x47, 1]

/-- A stream with the header `thumbHead`, one text record and two images. -/
def thumbStream : QByteArray :=
  sampleStream [thumbHead, ascii "Hello", samplePng, samplePng2]

/-- A header record without usable full-name field (the range lies outside the
record) and with an EXTH block holding an author and a description. -/
def titleHead : QByteArray :=
  exthHead 1 1 0 0 0xFFFFFF 0
    [{ type := 100, payload := ascii "A" }, { type := 103, payload := ascii "D" }]

/-- A DRM-free stream with the header `titleHead` whose first text record holds
a `dc:title` element. -/
def titleStream : QByteArray :=
  sampleStream [titleHead, ascii "<dc:title>T</dc:title>"]

/-- A DRM-free stream without EXTH region whose first text record holds a
`dc:title` element. -/
def markupStream : QByteArray :=
  sampleStream [sampleHead 1 1 0 0, ascii "<dc:title>T</dc:title>"]

/-- A stream with both DRM bytes set, no EXTH region, and a first text record
that holds a `dc:title` element. -/
def drmStream : QByteArray :=
  sampleStream [sampleHead 1 1 1 1, ascii "<dc:title>T</dc:title>"]

/-! ## Descriptions and samples for the image locator and the header checks -/

/-- The loop of `findFirstImage` once more, as `findFirstImageLoop`, which also
records, in order, the indices of the records it hands to the image reader
(`canRead`). -/
def findFirstImageScan {σ Img : Type} (E : Env σ Img) (pdb : PDBPrivate) :
    Nat → Nat → Option (Nat × List Nat)
  | 0, _ => none
  | fuel + 1, fir =>
    if (fir : Int) < PDB.recordCount pdb then
      match PDB.getRecord pdb fir with
      | none => none
      | some rec =>
        if rec.isEmpty then some (fir, [])
        else if E.canRead rec then some (fir, [fir])
        else (findFirstImageScan E pdb fuel ((fir + 1) % 2 ^ 16)).map
          (fun r => (r.1, fir :: r.2))
    else some (fir, [])

/-- A call of one of the two image accessors. -/
inductive ImageCall where
  | getImage (i : Int)
  | thumbnail

/-- The accessor call carried out on a document: the image and the document
afterwards. -/
def ImageCall.run {σ Img : Type} (E : Env σ Img) (d : DocumentPrivate σ) :
    ImageCall → Option (Img × DocumentPrivate σ)
  | ImageCall.getImage i => Document.getImage E d i
  | ImageCall.thumbnail => Document.thumbnail E d

/-- The number of times an accessor call on `d` runs `findFirstImage`: once when
`firstImageRecord` is 0 (the first line of `getImage` and `thumbnail`), else not
at all. -/
def scansOf {σ : Type} (d : DocumentPrivate σ) : Nat :=
  if d.firstImageRecord = 0 then 1 else 0

/-- A sequence of accessor calls carried out in order on a document: the
document at the end and the number of times `findFirstImage` was run. -/
def runCalls {σ Img : Type} (E : Env σ Img) :
    DocumentPrivate σ → List ImageCall → Option (DocumentPrivate σ × Nat)
  | d, [] => some (d, 0)
  | d, c :: cs =>
    match c.run E d with
    | none => none
    | some r => (runCalls E r.2 cs).map (fun q => (q.1, scansOf d + q.2))

/-- The sample environment with an image reader that accepts every record. -/
def greedyEnv : Env SampleDec (Option QByteArray) :=
  { sampleEnv with canRead := fun _ => true }

/-- A stream whose header has only the first DRM byte set. -/
def halfDrmStream : QByteArray :=
  sampleStream [sampleHead 1 1 1 0, ascii "Hello"]

/-- A stream whose header declares 65535 text records, followed by one image. -/
def wrapStream : QByteArray :=
  sampleStream [sampleHead 1 65535 0 0, samplePng]

/-- A stream whose header declares no text record, followed by one image. -/
def noTextStream : QByteArray :=
  sampleStream [sampleHead 1 0 0 0, samplePng]

/-- A header record of 100 bytes whose full-name field (offset 92, length 4)
points at the bytes `Name` inside the record. -/
def nameHead : QByteArray :=
  (exthHeadFixed 1 1 0 0 92 4).take 92 ++ ascii "Name" ++ [0, 0, 0, 0]

/-- A stream with the header `nameHead` and one text record. -/
def shortNameStream : QByteArray :=
  sampleStream [nameHead, ascii "Hello"]

/-- A header record of 192 bytes with the same full-name field as `nameHead`
and an EXTH block without records. -/
def fullNameHead : QByteArray :=
  (exthHeadFixed 1 1 0 0 92 4).take 92 ++ ascii "Name" ++ List.replicate 84 0 ++
    exthBlock (be32 12) []

/-- A stream with the header `fullNameHead` and one text record. -/
def fullNameStream : QByteArray :=
  sampleStream [fullNameHead, ascii "Hello"]

/-- A header record of 184 bytes whose full-name field (offset 180, length 4)
points at its last four bytes, `Name`. -/
def edgeNameHead : QByteArray :=
  exthHeadFixed 1 1 0 0 180 4 ++ ascii "Name"

/-- A stream with the header `edgeNameHead` and one text record. -/
def edgeNameStream : QByteArray :=
  sampleStream [edgeNameHead, ascii "Hello"]

/-- A stream that declares 100 records but holds a single table entry (offset
86), directly followed by a header record and the text `Hello`: 123 bytes,
shorter than the record table it declares. -/
def truncatedStream : QByteArray :=
  List.replicate 0x4C 0 ++ be16 100 ++ be32 86 ++ [0, 0, 0, 0] ++ sampleHead 1 1 0 0 ++
    ascii "Hello"

/-- A header record whose EXTH block holds a record of type 202 (payload 1)
followed by a record of type 100 with payload `Jane`. -/
def driftHead : QByteArray :=
  exthHead 1 1 0 0 0 0
    [{ type := 202, payload := be32 1 }, { type := 100, payload := ascii "Jane" }]

/-! ## Descriptions and samples for the strategy check, the full-name range and
the record tiling -/

/-- A stream whose header declares compression code 0, for which the sample
environment has no strategy, and whose first DRM byte (offset 12) is 1. -/
def lockedUnknownStream : QByteArray :=
  sampleStream [sampleHead 0 1 1 0, ascii "Hello"]

/-- A header record of 192 bytes that starts with the byte `M`, whose full-name
field declares the offset `0xFFFFFFFF` and the length 2 (their sum over
unbounded integers is `2 ^ 32 + 1`), with an EXTH block without records. -/
def wrapNameHead : QByteArray :=
  [0x4D] ++ (exthHeadFixed 1 1 0 0 0xFFFFFFFF 2).drop 1 ++ exthBlock (be32 12) []

/-- A stream with the header `wrapNameHead` and one text record. -/
def wrapNameStream : QByteArray :=
  sampleStream [wrapNameHead, ascii "Hello"]

/-- The length of record `i` in the words of the specification:
`recordOffsets[i+1] - recordOffsets[i]`, except for the last record, whose
length is `streamSize - recordOffsets[last]`. -/
def specRecordLength (pdb : PDBPrivate) (i : Nat) : Nat :=
  if i + 1 < pdb.nrecords then pdb.recordOffsets.getD (i + 1) 0 - pdb.recordOffsets.getD i 0
  else pdb.device.length - pdb.recordOffsets.getD i 0

/-- The concatenation of `getRecord(i)`, `getRecord(i+1)`, ... for `n`
consecutive indices, in index order; `none` when one of the accesses is
undefined. -/
def recordsFrom (pdb : PDBPrivate) : Nat → Nat → Option QByteArray
  | _, 0 => some []
  | i, n + 1 =>
    match PDB.getRecord pdb (i : Int), recordsFrom pdb (i + 1) n with
    | some r, some rest => some (r ++ rest)
    | _, _ => none

/-- The concatenation of `getRecord(0)`, ..., `getRecord(recordCount-1)` in
index order. -/
def allRecords (pdb : PDBPrivate) : Option QByteArray :=
  recordsFrom pdb 0 pdb.nrecords

/-! ## Samples for the EXTH records of a constructed document and for the
container check -/

/-- A stream with the header `janeHead` and one text record. -/
def janeStream : QByteArray :=
  sampleStream [janeHead, ascii "Hello"]

/-- Uninitialised variables where the local `word` of `PDBPrivate::init` happens
to hold the bytes of the big-endian value 3. -/
def staleUninit : Uninit := { word := [0, 3], dword := [0, 0, 0, 0], ntextrecords := 0 }

/-! ## Theorems -/

set_option maxRecDepth 100000

theorem length_take_drop (dev : QByteArray) (pos n : Nat) (h : pos + n ≤ dev.length) :
    ((dev.drop pos).take n).length = n := by
  simp only [List.length_take, List.length_drop]
  omega

theorem deviceReadInto_full (dev : QByteArray) (pos : Nat) (buf : QByteArray) (n : Nat)
    (h : pos + n ≤ dev.length) :
    deviceReadInto dev pos buf n = ((dev.drop pos).take n ++ buf.drop n, pos + n) := by
  simp only [deviceReadInto, length_take_drop dev pos n h]

theorem take_append_drop_self (a b : QByteArray) (n : Nat) (h : a.length = n) :
    (a ++ b).take n = a := by
  subst h
  simp

theorem readOffsets_length (dev : QByteArray) (n : Nat) :
    ∀ (pos : Nat) (dword : QByteArray) (acc : List Nat),
      (readOffsets dev n pos dword acc).length = acc.length + n := by
  induction n with
  | zero => intro pos dword acc; simp [readOffsets]
  | succ n ih =>
    intro pos dword acc
    simp only [readOffsets, ih, List.length_append, List.length_singleton]
    omega

theorem readOffsets_eq (dev : QByteArray) (n : Nat) :
    ∀ (pos : Nat) (dword : QByteArray) (acc : List Nat), pos + 8 * n ≤ dev.length →
      readOffsets dev n pos dword acc =
        acc ++ (List.range n).map (fun k => beValue ((dev.drop (pos + 8 * k)).take 4)) := by
  induction n with
  | zero => intro pos dword acc _; simp [readOffsets]
  | succ n ih =>
    intro pos dword acc h
    have h1 : pos + 4 ≤ dev.length := by omega
    have h2 : pos + 4 + 4 ≤ dev.length := by omega
    simp only [readOffsets]
    rw [deviceReadInto_full dev pos dword 4 h1]
    simp only []
    rw [deviceReadInto_full dev (pos + 4) _ 4 h2]
    simp only []
    rw [ih _ _ _ (by omega)]
    rw [take_append_drop_self _ _ 4 (length_take_drop dev pos 4 h1)]
    rw [List.range_succ_eq_map, List.map_cons, List.map_map, List.append_assoc]
    simp only [List.singleton_append, Nat.mul_zero, Nat.add_zero]
    congr 2
    apply List.map_congr_left
    intro k _
    simp only [Function.comp]
    congr 3
    omega

theorem ctor_nrecords {σ Img : Type} (E : Env σ Img) (dev : QByteArray) (u : Uninit)
    (h : 0x4E ≤ dev.length) :
    (PDB.ctor E dev u).nrecords = beValue ((dev.drop 0x4C).take 2) := by
  simp only [PDB.ctor, PDBPrivate.init]
  rw [deviceReadInto_full dev 0x4c u.word 2 (by omega)]
  simp only []
  rw [take_append_drop_self _ _ 2 (length_take_drop dev 0x4c 2 (by omega))]

theorem ctor_offsets_length {σ Img : Type} (E : Env σ Img) (dev : QByteArray) (u : Uninit) :
    (PDB.ctor E dev u).recordOffsets.length = (PDB.ctor E dev u).nrecords := by
  simp [PDB.ctor, PDBPrivate.init, readOffsets_length]

theorem ctor_device {σ Img : Type} (E : Env σ Img) (dev : QByteArray) (u : Uninit) :
    (PDB.ctor E dev u).device = dev := rfl

theorem ctor_valid {σ Img : Type} (E : Env σ Img) (dev : QByteArray) (u : Uninit) :
    (PDB.ctor E dev u).valid = true := rfl

theorem ctor_offsets_eq {σ Img : Type} (E : Env σ Img) (dev : QByteArray) (u : Uninit)
    (h : 0x4E + 8 * beValue ((dev.drop 0x4C).take 2) ≤ dev.length) :
    (PDB.ctor E dev u).recordOffsets =
      (List.range (beValue ((dev.drop 0x4C).take 2))).map
        (fun k => beValue ((dev.drop (0x4E + 8 * k)).take 4)) := by
  have hn := ctor_nrecords E dev u (by omega)
  simp only [PDB.ctor, PDBPrivate.init] at hn ⊢
  rw [hn]
  rw [deviceReadInto_full dev 0x4c u.word 2 (by omega)]
  simp only []
  rw [readOffsets_eq dev _ _ _ _ (by omega)]
  simp

/-- Two streams that agree outside a set of positions yield the same four bytes
at every position whose four bytes avoid the set. -/
theorem take_drop_congr (dev dev2 : QByteArray) (p n : Nat)
    (h : ∀ j, p ≤ j → j < p + n → dev[j]? = dev2[j]?) :
    (dev.drop p).take n = (dev2.drop p).take n := by
  apply List.ext_getElem?
  intro j
  by_cases hj : j < n
  · rw [List.getElem?_take_of_lt hj, List.getElem?_take_of_lt hj, List.getElem?_drop, List.getElem?_drop]
    exact h _ (by omega) (by omega)
  · rw [List.getElem?_take_eq_none (by omega), List.getElem?_take_eq_none (by omega)]

/-- C4. For every stream that contains the whole record table
(`length >= 0x4E + 8*n`, with `n` the big-endian 16-bit value at offset 0x4C),
the constructed container has `recordCount() = n` and exactly `n` record
offsets, the `k`-th being the big-endian 32-bit value at stream offset
`0x4E + 8*k`; and a stream of the same length that differs only in the four
bytes of attributes after each offset yields the same count and the same
offsets, also with other values in the uninitialised variables. -/
theorem C4_record_table {σ Img : Type} (E : Env σ Img) (dev : QByteArray) (u : Uninit)
    (h : 0x4E + 8 * beValue ((dev.drop 0x4C).take 2) ≤ dev.length) :
    PDB.recordCount (PDB.ctor E dev u) = (beValue ((dev.drop 0x4C).take 2) : Int) ∧
    (PDB.ctor E dev u).recordOffsets.length = beValue ((dev.drop 0x4C).take 2) ∧
    (∀ k, k < beValue ((dev.drop 0x4C).take 2) →
      (PDB.ctor E dev u).recordOffsets[k]? =
        some (beValue ((dev.drop (0x4E + 8 * k)).take 4))) ∧
    (∀ (dev2 : QByteArray) (u2 : Uninit), dev2.length = dev.length →
      (∀ j, (∀ k, k < beValue ((dev.drop 0x4C).take 2) →
          ¬ (0x4E + 8 * k + 4 ≤ j ∧ j < 0x4E + 8 * k + 8)) → dev2[j]? = dev[j]?) →
      (PDB.ctor E dev2 u2).nrecords = (PDB.ctor E dev u).nrecords ∧
      (PDB.ctor E dev2 u2).recordOffsets = (PDB.ctor E dev u).recordOffsets) := by
  have hn := ctor_nrecords E dev u (by omega)
  have ho := ctor_offsets_eq E dev u h
  refine ⟨?_, ?_, ?_, ?_⟩
  · simp [PDB.recordCount, hn]
  · rw [ho]; simp
  · intro k hk
    rw [ho, List.getElem?_map, List.getElem?_range hk]
    rfl
  · intro dev2 u2 hlen hagree
    have hcount : (dev2.drop 0x4C).take 2 = (dev.drop 0x4C).take 2 := by
      apply take_drop_congr
      intro j h1 h2
      apply hagree
      intro k _
      omega
    have hn2 := ctor_nrecords E dev2 u2 (by omega)
    have ho2 := ctor_offsets_eq E dev2 u2 (by rw [hcount, hlen]; exact h)
    rw [hn2, hn, ho2, ho, hcount]
    refine ⟨rfl, ?_⟩
    apply List.map_congr_left
    intro k hk
    have hk2 : k < beValue ((dev.drop 0x4C).take 2) := List.mem_range.mp hk
    have : (dev2.drop (0x4E + 8 * k)).take 4 = (dev.drop (0x4E + 8 * k)).take 4 := by
      apply take_drop_congr
      intro j h1 h2
      apply hagree
      intro k2 _
      omega
    rw [this]

/-- C3. For every container and every index `i >= recordCount`, `getRecord(i)`
returns the empty byte sequence, whatever the offset table and the stream are:
they are replaced by arbitrary ones here, so neither is read. -/
theorem C3_getRecord_beyond (d : PDBPrivate) (table : List Nat) (stream : QByteArray) (i : Int)
    (h : i ≥ PDB.recordCount d) :
    PDB.getRecord { d with recordOffsets := table, device := stream } i = some [] := by
  simp only [PDB.recordCount] at h
  simp [PDB.getRecord, h]

theorem getRecord_lt (d : PDBPrivate) (hlen : d.recordOffsets.length = d.nrecords) (i : Nat)
    (hi : i < d.nrecords) :
    ∃ off, d.recordOffsets[i]? = some off ∧
      (i + 1 = d.nrecords → PDB.getRecord d i =
        some (deviceRead d.device off ((((d.device.length : Int) - (off : Int)) % 2 ^ 32).toNat))) ∧
      (i + 1 < d.nrecords → ∃ next, d.recordOffsets[i + 1]? = some next ∧ PDB.getRecord d i =
        some (deviceRead d.device off ((((next : Int) - (off : Int)) % 2 ^ 32).toNat))) := by
  have h1 : i < d.recordOffsets.length := by omega
  refine ⟨d.recordOffsets[i], List.getElem?_eq_getElem h1, ?_, ?_⟩
  · intro hl
    have h2 : ¬ ((i : Int) ≥ (d.nrecords : Int)) := by omega
    have h3 : ((i : Int) == (d.nrecords : Int) - 1) = true := by
      rw [beq_iff_eq]; omega
    have h0 : ¬ ((i : Int) < 0) := by omega
    simp only [PDB.getRecord, h2, if_false, qlistIndex, Int.toNat_ofNat,
      List.getElem?_eq_getElem h1, h3, if_true, h0]
  · intro hl
    have h4 : i + 1 < d.recordOffsets.length := by omega
    refine ⟨d.recordOffsets[i + 1], List.getElem?_eq_getElem h4, ?_⟩
    have h2 : ¬ ((i : Int) ≥ (d.nrecords : Int)) := by omega
    have h3 : ((i : Int) == (d.nrecords : Int) - 1) = false := by
      rw [beq_eq_false_iff_ne]; omega
    have h5 : ((i : Int) + 1).toNat = i + 1 := by omega
    have h6 : ¬ ((i : Int) + 1 < 0) := by omega
    have h0 : ¬ ((i : Int) < 0) := by omega
    simp only [PDB.getRecord, h2, if_false, qlistIndex, Int.toNat_ofNat,
      List.getElem?_eq_getElem h1, h3, h5, h6, h0, List.getElem?_eq_getElem h4, if_false]
    simp

theorem getRecord_isSome (d : PDBPrivate) (hlen : d.recordOffsets.length = d.nrecords) (i : Nat) :
    ∃ r, PDB.getRecord d (i : Int) = some r := by
  by_cases hi : i < d.nrecords
  · obtain ⟨off, _, hlast, hnext⟩ := getRecord_lt d hlen i hi
    by_cases hl : i + 1 = d.nrecords
    · exact ⟨_, hlast hl⟩
    · obtain ⟨next, _, h⟩ := hnext (by omega)
      exact ⟨_, h⟩
  · refine ⟨[], ?_⟩
    have h2 : ((i : Int) ≥ (d.nrecords : Int)) := by omega
    simp [PDB.getRecord, h2]

theorem pairwise_le_last (l : List Nat) (hp : l.Pairwise (fun a b => a < b)) (i : Nat) (x y : Nat)
    (hx : l[i]? = some x) (hy : l.getLast? = some y) : x ≤ y := by
  rw [List.getLast?_eq_getElem?] at hy
  obtain ⟨h1, rfl⟩ := List.getElem?_eq_some.mp hx
  obtain ⟨h2, rfl⟩ := List.getElem?_eq_some.mp hy
  rw [List.pairwise_iff_getElem] at hp
  by_cases h : i = l.length - 1
  · subst h; exact le_refl _
  · exact le_of_lt (hp i (l.length - 1) h1 h2 (by omega))

theorem pairwise_lt_next (l : List Nat) (hp : l.Pairwise (fun a b => a < b)) (i : Nat) (x y : Nat)
    (hx : l[i]? = some x) (hy : l[i + 1]? = some y) : x < y := by
  obtain ⟨h1, rfl⟩ := List.getElem?_eq_some.mp hx
  obtain ⟨h2, rfl⟩ := List.getElem?_eq_some.mp hy
  rw [List.pairwise_iff_getElem] at hp
  exact hp i (i + 1) h1 h2 (by omega)

theorem deviceRead_exact (dev : QByteArray) (off b : Nat) (hab : off ≤ b) (hb : b ≤ dev.length)
    (hmax : b - off ≤ INT_MAX) :
    deviceRead dev off ((((b : Int) - (off : Int)) % 2 ^ 32).toNat) = (dev.drop off).take (b - off) ∧
    ((dev.drop off).take (b - off)).length = b - off := by
  simp only [INT_MAX] at hmax
  have h1 : (((b : Int) - (off : Int)) % 2 ^ 32).toNat = b - off := by
    norm_num
    omega
  constructor
  · rw [h1, deviceRead]
    congr 1
    simp only [INT_MAX]
    omega
  · simp only [List.length_take, List.length_drop]
    omega

/-- C2, as amended. For every well-formed container and every `i < recordCount`:
if `i` is not the last index and `recordOffsets[i+1] - recordOffsets[i]` is at
most `INT_MAX` (the size limit of a byte array), `getRecord(i)` is exactly the
stream bytes from `recordOffsets[i]` up to, not including, `recordOffsets[i+1]`,
and its length is their difference; if `i` is the last index and
`streamSize - recordOffsets[i]` is at most `INT_MAX`, `getRecord(i)` is the
stream bytes from `recordOffsets[i]` to the end of the stream, and its length is
`streamSize - recordOffsets[i]`. -/
theorem C2_getRecord_bytes {σ Img : Type} (E : Env σ Img) (dev : QByteArray) (u : Uninit)
    (hwf : PDB.WellFormed (PDB.ctor E dev u))
    (i : Nat) (hi : i < (PDB.ctor E dev u).nrecords) :
    ∃ off, (PDB.ctor E dev u).recordOffsets[i]? = some off ∧ off ≤ dev.length ∧
      (i + 1 < (PDB.ctor E dev u).nrecords →
        ∃ next, (PDB.ctor E dev u).recordOffsets[i + 1]? = some next ∧
          off < next ∧ next ≤ dev.length ∧
          (next - off ≤ INT_MAX →
            PDB.getRecord (PDB.ctor E dev u) i = some ((dev.drop off).take (next - off)) ∧
            ((dev.drop off).take (next - off)).length = next - off)) ∧
      (i + 1 = (PDB.ctor E dev u).nrecords → dev.length - off ≤ INT_MAX →
        PDB.getRecord (PDB.ctor E dev u) i = some (dev.drop off) ∧
        (dev.drop off).length = dev.length - off) := by
  obtain ⟨_, hp, hlast⟩ := hwf
  have hlen := ctor_offsets_length E dev u
  obtain ⟨off, hoff, h1, h2⟩ := getRecord_lt _ hlen i hi
  rw [ctor_device] at h1 h2 hlast
  have hne : (PDB.ctor E dev u).recordOffsets.getLast? ≠ none := by
    rw [List.getLast?_eq_getElem?]
    intro hnone
    rw [List.getElem?_eq_none_iff] at hnone
    omega
  obtain ⟨y, hy⟩ := Option.ne_none_iff_exists'.mp hne
  have hyle : y ≤ dev.length := hlast y hy
  have hle := pairwise_le_last _ hp i off y hoff hy
  refine ⟨off, hoff, by omega, ?_, ?_⟩
  · intro hl
    obtain ⟨next, hnext, hrec⟩ := h2 hl
    have hlt := pairwise_lt_next _ hp i off next hoff hnext
    have hle2 := pairwise_le_last _ hp (i + 1) next y hnext hy
    refine ⟨next, hnext, hlt, by omega, ?_⟩
    intro hmax
    obtain ⟨e1, e2⟩ := deviceRead_exact dev off next (le_of_lt hlt) (by omega) hmax
    exact ⟨by rw [hrec, e1], e2⟩
  · intro hl hmax
    obtain ⟨e1, e2⟩ := deviceRead_exact dev off dev.length (by omega) (le_refl _) hmax
    rw [h1 hl, e1]
    constructor
    · rw [List.take_of_length_le]
      simp
    · simp

theorem bigHead_length : bigHead.length = 86 := by decide

theorem bigTail_length : bigTail.length = 2 ^ 32 := by
  rw [bigTail, List.length_replicate]

theorem bigStream_length : bigStream.length = 86 + 2 ^ 32 := by
  rw [bigStream, List.length_append, bigHead_length, bigTail_length]

theorem bigStream_slice (p n : Nat) (h : p + n ≤ 86) :
    (bigStream.drop p).take n = (bigHead.drop p).take n := by
  rw [bigStream, List.drop_append_of_le_length (by rw [bigHead_length]; omega),
    List.take_append_of_le_length (by rw [List.length_drop, bigHead_length]; omega)]

theorem bigStream_count : beValue ((bigStream.drop 0x4C).take 2) = 1 := by
  rw [bigStream_slice _ _ (by decide)]
  decide

theorem bigStream_nrecords : (PDB.ctor sampleEnv bigStream zeroUninit).nrecords = 1 := by
  rw [ctor_nrecords _ _ _ (by rw [bigStream_length]; norm_num), bigStream_count]

theorem bigStream_offsets : (PDB.ctor sampleEnv bigStream zeroUninit).recordOffsets = [86] := by
  rw [ctor_offsets_eq _ _ _ (by rw [bigStream_count, bigStream_length]; norm_num),
    bigStream_count]
  simp only [List.range_succ, List.range_zero, List.nil_append, List.map_cons, List.map_nil,
    Nat.mul_zero, Nat.add_zero]
  rw [bigStream_slice _ _ (by decide)]
  decide

/-- C2, counterexample: a well-formed container (record table present, the one
offset 86 not beyond the stream size) over a stream of `2 ^ 32 + 86` bytes.
The claim gives its last record the length `streamSize - 86 = 2 ^ 32`, but
`getRecord(0)` is empty: the length is computed in a `quint32`, where it wraps
to 0. -/
theorem C2_counterexample :
    PDB.WellFormed (PDB.ctor sampleEnv bigStream zeroUninit) ∧
    (PDB.ctor sampleEnv bigStream zeroUninit).nrecords = 1 ∧
    (PDB.ctor sampleEnv bigStream zeroUninit).recordOffsets = [86] ∧
    bigStream.length - 86 = 2 ^ 32 ∧
    PDB.getRecord (PDB.ctor sampleEnv bigStream zeroUninit) 0 = some [] := by
  have hn := bigStream_nrecords
  have ho := bigStream_offsets
  have hl := bigStream_length
  refine ⟨⟨?_, ?_, ?_⟩, hn, ho, by rw [hl]; norm_num, ?_⟩
  · rw [hn, ctor_device, hl]; norm_num
  · rw [ho]; simp
  · rw [ho, ctor_device, hl]
    intro o ho2
    simp at ho2
    subst ho2
    norm_num
  · obtain ⟨off, hoff, hlast, _⟩ := getRecord_lt _ (ctor_offsets_length _ _ _) 0 (by rw [hn]; decide)
    rw [ho] at hoff
    simp at hoff
    subst hoff
    have := hlast (by rw [hn])
    rw [ctor_device, hl] at this
    simp only [Nat.cast_zero] at this
    rw [this]
    simp [deviceRead]

section
variable {σ Img : Type}

theorem sameCore_refl (d : DocumentPrivate σ) : SameCore d d :=
  ⟨rfl, rfl, rfl, rfl, rfl, rfl, rfl, rfl⟩

theorem sameCore_trans {a b c : DocumentPrivate σ} (h1 : SameCore a b) (h2 : SameCore b c) :
    SameCore a c := by
  obtain ⟨a1, a2, a3, a4, a5, a6, a7, a8⟩ := h1
  obtain ⟨b1, b2, b3, b4, b5, b6, b7, b8⟩ := h2
  exact ⟨b1.trans a1, b2.trans a2, b3.trans a3, b4.trans a4, b5.trans a5, b6.trans a6,
    b7.trans a7, b8.trans a8⟩

theorem exthStore_core (E : Env σ Img) (d : DocumentPrivate σ) (data : QByteArray) (offset : Nat)
    (k : MetaKey) (hk : k ≠ MetaKey.Title) (r : DocumentPrivate σ × Nat)
    (h : exthStore E d data offset k = some r) : SameCore d r.1 := by
  unfold exthStore at h
  split at h
  · exact absurd h (by simp)
  · injection h with h
    subst h
    refine ⟨rfl, rfl, rfl, rfl, rfl, rfl, rfl, ?_⟩
    simp [MetaMap.insert, hk.symm]

theorem exthStep_core (E : Env σ Img) (d : DocumentPrivate σ) (data : QByteArray) (offset : Nat)
    (r : DocumentPrivate σ × Nat) (h : exthStep E d data offset = some r) : SameCore d r.1 := by
  unfold exthStep at h
  split at h
  · exact absurd h (by simp)
  · split_ifs at h
    · exact exthStore_core E d data _ _ (by decide) r h
    · exact exthStore_core E d data _ _ (by decide) r h
    · exact exthStore_core E d data _ _ (by decide) r h
    · exact exthStore_core E d data _ _ (by decide) r h
    · simp only [] at h
      split at h
      · exact absurd h (by simp)
      · injection h with h
        subst h
        exact ⟨rfl, rfl, rfl, rfl, rfl, rfl, rfl, rfl⟩
    · simp only [] at h
      split at h
      · exact absurd h (by simp)
      · injection h with h
        subst h
        exact sameCore_refl d

theorem exthLoop_core (E : Env σ Img) (data : QByteArray) (n : Nat) :
    ∀ (d : DocumentPrivate σ) (offset : Nat) (r : DocumentPrivate σ × Nat),
      exthLoop E data n d offset = some r → SameCore d r.1 := by
  induction n with
  | zero =>
    intro d offset r h
    simp only [exthLoop] at h
    injection h with h
    subst h
    exact sameCore_refl d
  | succ n ih =>
    intro d offset r h
    simp only [exthLoop] at h
    split at h
    · exact absurd h (by simp)
    · rename_i r1 h1
      exact sameCore_trans (exthStep_core E d data offset r1 h1) (ih _ _ _ h)

theorem parseEXTHRecords_core (E : Env σ Img) (d : DocumentPrivate σ) (data : QByteArray)
    (r : DocumentPrivate σ × Option Nat) (h : parseEXTHRecords E d data = some r) :
    SameCore d r.1 := by
  unfold parseEXTHRecords at h
  split at h
  · exact absurd h (by simp)
  · simp only [] at h
    split at h
    · exact absurd h (by simp)
    · split_ifs at h
      · injection h with h
        subst h
        exact sameCore_refl d
      · split at h
        · exact absurd h (by simp)
        · split at h
          · exact absurd h (by simp)
          · rename_i r1 h1
            injection h with h
            subst h
            exact exthLoop_core E data _ _ _ r1 h1

theorem sameCore_base {d d2 : DocumentPrivate σ} (h : SameCore d d2) : SameBase d d2 :=
  ⟨h.1, h.2.1, h.2.2.1, h.2.2.2.1, h.2.2.2.2.2.1⟩

theorem parseFullName_base (E : Env σ Img) (d d1 : DocumentPrivate σ) (data : QByteArray)
    (h : parseFullName E d data = some d1) :
    SameBase d d1 ∧ d1.isUtf = d.isUtf ∧ d1.ntextrecords = d.ntextrecords ∧
      d1.thumbnailIndex = d.thumbnailIndex ∧
      ∀ k, k ≠ MetaKey.Title → d1.metadata k = d.metadata k := by
  unfold parseFullName at h
  split_ifs at h
  · split at h
    · split_ifs at h
      · split at h
        · exact absurd h (by simp)
        · injection h with h
          subst h
          refine ⟨⟨rfl, rfl, rfl, rfl, rfl⟩, rfl, rfl, rfl, ?_⟩
          intro k hk
          simp [MetaMap.insert, hk]
      · injection h with h
        subst h
        exact ⟨⟨rfl, rfl, rfl, rfl, rfl⟩, rfl, rfl, rfl, fun _ _ => rfl⟩
    · exact absurd h (by simp)
  · injection h with h
    subst h
    exact ⟨⟨rfl, rfl, rfl, rfl, rfl⟩, rfl, rfl, rfl, fun _ _ => rfl⟩

theorem parseEXTH_base (E : Env σ Img) (d d2 : DocumentPrivate σ) (data : QByteArray)
    (h : d.parseEXTH E data = some d2) :
    SameBase d d2 ∧ d2.isUtf = d.isUtf ∧ d2.ntextrecords = d.ntextrecords := by
  unfold DocumentPrivate.parseEXTH at h
  split at h
  · exact absurd h (by simp)
  · rename_i d1 h1
    split at h
    · exact absurd h (by simp)
    · rename_i r h2
      injection h with h
      subst h
      obtain ⟨⟨a1, a2, a3, a4, a5⟩, a6, a7, _⟩ := parseFullName_base E d d1 data h1
      obtain ⟨b1, b2, b3, b4, b5, b6, b7, _⟩ := parseEXTHRecords_core E d1 data r h2
      exact ⟨⟨b1.trans a1, b2.trans a2, b3.trans a3, b4.trans a4, b6.trans a5⟩, b5.trans a6,
        b7.trans a7⟩

theorem initEncoding_fields (d d2 : DocumentPrivate σ) (mhead : QByteArray)
    (h : initEncoding d mhead = some d2) :
    SameBase d d2 ∧ d2.metadata = d.metadata ∧ d2.thumbnailIndex = d.thumbnailIndex := by
  unfold initEncoding at h
  simp only [] at h
  split at h
  · exact absurd h (by simp)
  · injection h with h
    subst h
    split_ifs
    · exact ⟨⟨rfl, rfl, rfl, rfl, rfl⟩, rfl, rfl⟩
    · exact ⟨⟨rfl, rfl, rfl, rfl, rfl⟩, rfl, rfl⟩

theorem sameBase_trans {a b c : DocumentPrivate σ} (h1 : SameBase a b) (h2 : SameBase b c) :
    SameBase a c := by
  obtain ⟨a1, a2, a3, a4, a5⟩ := h1
  obtain ⟨b1, b2, b3, b4, b5⟩ := h2
  exact ⟨b1.trans a1, b2.trans a2, b3.trans a3, b4.trans a4, b5.trans a5⟩

theorem initParse_base (E : Env σ Img) (d d3 : DocumentPrivate σ) (mhead : QByteArray)
    (h : initParse E d mhead = some d3) : SameBase d d3 := by
  unfold initParse at h
  split at h
  · exact absurd h (by simp)
  · rename_i d2 h2
    have hb := (initEncoding_fields d d2 mhead h2).1
    split_ifs at h
    · exact sameBase_trans hb (parseEXTH_base E d2 d3 mhead h).1
    · injection h with h
      subst h
      exact hb

end

section
variable {σ Img : Type}

theorem initFlags_fields (E : Env σ Img) (d : DocumentPrivate σ) (mhead : QByteArray) :
    (initFlags E d mhead).pdb = d.pdb ∧
    (initFlags E d mhead).dec = E.create (byteRef mhead 1) d.pdb ∧
    (initFlags E d mhead).valid = d.valid ∧
    (initFlags E d mhead).ntextrecords = d.ntextrecords ∧
    (initFlags E d mhead).metadata = d.metadata ∧
    (initFlags E d mhead).isUtf = d.isUtf ∧
    (initFlags E d mhead).thumbnailIndex = d.thumbnailIndex ∧
    (initFlags E d mhead).firstImageRecord = d.firstImageRecord ∧
    (initFlags E d mhead).drm =
      (d.drm || (byteRef mhead 12 != 0 || byteRef mhead 13 != 0)) := by
  unfold initFlags
  simp only []
  split_ifs with h
  · refine ⟨rfl, rfl, rfl, rfl, rfl, rfl, rfl, rfl, ?_⟩
    have : (byteRef mhead 12 != 0 || byteRef mhead 13 != 0) = true := by
      simpa using h
    simp [this]
  · refine ⟨rfl, rfl, rfl, rfl, rfl, rfl, rfl, rfl, ?_⟩
    have : (byteRef mhead 12 != 0 || byteRef mhead 13 != 0) = false := by
      simpa using h
    simp [this]

/-- The shape of a construction: record 0 is read, and the result is decided by
the strategy lookup. -/
theorem ctor_eq (E : Env σ Img) (dev : QByteArray) (u : Uninit) :
    ∃ mhead, PDB.getRecord (PDB.ctor E dev u) 0 = some mhead ∧
      Document.ctor E dev u =
        match (initFlags E (DocumentPrivate.ctor E dev u) mhead).dec with
        | none => some { initFlags E (DocumentPrivate.ctor E dev u) mhead with valid := false }
        | some s =>
          match initParse E (initFlags E (DocumentPrivate.ctor E dev u) mhead) mhead with
          | none => none
          | some d3 => initFallback E s d3 := by
  obtain ⟨mhead, hm⟩ := getRecord_isSome (PDB.ctor E dev u) (ctor_offsets_length E dev u) 0
  refine ⟨mhead, hm, ?_⟩
  have hm2 : PDB.getRecord (DocumentPrivate.ctor E dev u).pdb 0 = some mhead := hm
  simp only [Document.ctor, DocumentPrivate.init]
  have hv : PDB.isValid (DocumentPrivate.ctor E dev u).pdb = true := rfl
  simp only [hv, Bool.not_true, Bool.false_eq_true, if_false, hm2]
  rfl

theorem parseHtmlHead_fields (E : Env σ Img) (d : DocumentPrivate σ) (data : QString) :
    SameBase d (d.parseHtmlHead E data) ∧ (d.parseHtmlHead E data).isUtf = d.isUtf ∧
      (d.parseHtmlHead E data).ntextrecords = d.ntextrecords ∧
      (d.parseHtmlHead E data).thumbnailIndex = d.thumbnailIndex :=
  ⟨⟨rfl, rfl, rfl, rfl, rfl⟩, rfl, rfl, rfl⟩

theorem initFallback_fields (E : Env σ Img) (s : σ) (d3 d : DocumentPrivate σ)
    (h : initFallback E s d3 = some d) (hs : d3.dec = some s) :
    d.pdb = d3.pdb ∧ d.valid = d3.valid ∧ d.drm = d3.drm ∧ d.isUtf = d3.isUtf ∧
      d.ntextrecords = d3.ntextrecords ∧ d.thumbnailIndex = d3.thumbnailIndex ∧
      d.firstImageRecord = d3.firstImageRecord ∧ ∃ s2, d.dec = some s2 := by
  unfold initFallback at h
  split_ifs at h
  · split at h
    · exact absurd h (by simp)
    · injection h with h
      subst h
      exact ⟨rfl, rfl, rfl, rfl, rfl, rfl, rfl, _, rfl⟩
  · injection h with h
    subst h
    exact ⟨rfl, rfl, rfl, rfl, rfl, rfl, rfl, s, hs⟩

/-- What every constructed document satisfies: its container is the one built
from the stream, and it is valid exactly when it holds a strategy object. -/
theorem ctor_facts (E : Env σ Img) (dev : QByteArray) (u : Uninit) (d : DocumentPrivate σ)
    (h : Document.ctor E dev u = some d) :
    d.pdb = PDB.ctor E dev u ∧ d.firstImageRecord = 0 ∧
      (d.valid = true → ∃ s, d.dec = some s) ∧ (d.valid = false → d.dec = none) := by
  obtain ⟨mhead, _, heq⟩ := ctor_eq E dev u
  rw [h] at heq
  obtain ⟨f1, f2, f3, f4, f5, f6, f7, f8, f9⟩ := initFlags_fields E (DocumentPrivate.ctor E dev u) mhead
  split at heq
  · rename_i hnone
    injection heq with heq
    subst heq
    refine ⟨f1, f8, ?_, ?_⟩
    · intro hv; exact absurd hv (by simp)
    · intro _; exact hnone
  · rename_i s hs
    split at heq
    · exact absurd heq (by simp)
    · rename_i d3 h3
      obtain ⟨b1, b2, b3, b4, b5⟩ := initParse_base E _ d3 mhead h3
      obtain ⟨c1, c2, c3, c4, c5, c6, c7, s2, c8⟩ :=
        initFallback_fields E s d3 d heq.symm (b2.trans hs)
      refine ⟨c1.trans (b1.trans f1), c7.trans (b5.trans f8), fun _ => ⟨s2, c8⟩, ?_⟩
      intro hv
      have : d.valid = true := c2.trans (b3.trans f3)
      rw [this] at hv
      exact absurd hv (by simp)

end

section
variable {σ Img : Type}

theorem decompressSeq_length (E : Env σ Img) (recs : List QByteArray) :
    ∀ s : σ, (decompressSeq E s recs).length = recs.length := by
  induction recs with
  | nil => intro s; rfl
  | cons r rs ih => intro s; simp [decompressSeq, ih]

/-- The loop of `text` when every call leaves the strategy valid: it runs to
its end and has appended the outputs in order. -/
theorem textLoop_valid (E : Env σ Img) (pdb : PDBPrivate)
    (hlen : pdb.recordOffsets.length = pdb.nrecords) (n : Nat) :
    ∀ (i : Nat) (whole : QByteArray) (s : σ),
      (∀ p ∈ decompressSeq E s ((List.range' i n).map
          (fun (j : Nat) => (PDB.getRecord pdb (j : Int)).getD [])), E.isValid p.2 = true) →
      ∃ s2, textLoop E pdb n (i : Int) whole (some s) =
        some (some (whole ++ ((decompressSeq E s ((List.range' i n).map
          (fun (j : Nat) => (PDB.getRecord pdb (j : Int)).getD []))).map Prod.fst).flatten), some s2) := by
  induction n with
  | zero =>
    intro i whole s _
    exact ⟨s, by simp [textLoop, decompressSeq]⟩
  | succ n ih =>
    intro i whole s hv
    obtain ⟨rec, hrec⟩ := getRecord_isSome pdb hlen i
    simp only [List.range'_succ, List.map_cons, hrec, Option.getD_some, decompressSeq,
      List.mem_cons, forall_eq_or_imp] at hv ⊢
    obtain ⟨hv1, hv2⟩ := hv
    obtain ⟨s2, h2⟩ := ih (i + 1) (whole ++ (E.decompress s rec).1) (E.decompress s rec).2 hv2
    refine ⟨s2, ?_⟩
    simp only [textLoop, hrec, hv1, Bool.not_true, Bool.false_eq_true, if_false]
    have hc : ((i : Int) + 1) = ((i + 1 : Nat) : Int) := by push_cast; rfl
    rw [hc, h2]
    simp [List.append_assoc]

/-- The loop of `text` when some call leaves the strategy invalid: it returns
early, with an invalid strategy. -/
theorem textLoop_invalid (E : Env σ Img) (pdb : PDBPrivate)
    (hlen : pdb.recordOffsets.length = pdb.nrecords) (n : Nat) :
    ∀ (i : Nat) (whole : QByteArray) (s : σ),
      (∃ p ∈ decompressSeq E s ((List.range' i n).map
          (fun (j : Nat) => (PDB.getRecord pdb (j : Int)).getD [])), E.isValid p.2 = false) →
      ∃ s2, textLoop E pdb n (i : Int) whole (some s) = some (none, some s2) ∧
        E.isValid s2 = false := by
  induction n with
  | zero =>
    intro i whole s h
    simp [decompressSeq] at h
  | succ n ih =>
    intro i whole s h
    obtain ⟨rec, hrec⟩ := getRecord_isSome pdb hlen i
    simp only [List.range'_succ, List.map_cons, hrec, Option.getD_some, decompressSeq,
      List.mem_cons, exists_eq_or_imp] at h
    by_cases hv : E.isValid (E.decompress s rec).2 = true
    · have h2 : ∃ p ∈ decompressSeq E (E.decompress s rec).2 ((List.range' (i + 1) n).map
          (fun (j : Nat) => (PDB.getRecord pdb (j : Int)).getD [])), E.isValid p.2 = false := by
        rcases h with h | h
        · rw [hv] at h; exact absurd h (by simp)
        · exact h
      obtain ⟨s2, h3, h4⟩ := ih (i + 1) (whole ++ (E.decompress s rec).1) _ h2
      refine ⟨s2, ?_, h4⟩
      simp only [textLoop, hrec, hv, Bool.not_true, Bool.false_eq_true, if_false]
      have hc : ((i : Int) + 1) = ((i + 1 : Nat) : Int) := by push_cast; rfl
      rw [hc, h3]
    · have hv2 : E.isValid (E.decompress s rec).2 = false := by simpa using hv
      refine ⟨(E.decompress s rec).2, ?_, hv2⟩
      simp [textLoop, hrec, hv2]

/-- C1. For every valid document, as constructed from a stream: every record
access `getRecord(i)`, `i >= 0`, is defined, the document holds a strategy
object `s`, and if the strategy reports valid after each of the text records
(`decompressSeq` drives it over `getRecord(1)`, ..., `getRecord(ntextrecords)` in
index order), then `Document::text()` returns the decoding, applied once to the
whole byte sequence (UTF-8 when `isUtf`, latin-1 otherwise), of the
concatenation of the decompressed records, and the document stays valid.
Record 0 is not among the text records, which start at index 1. -/
theorem C1_text_is_decoded_concatenation (E : Env σ Img) (dev : QByteArray) (u : Uninit)
    (d : DocumentPrivate σ) (hd : Document.ctor E dev u = some d)
    (hvalid : Document.isValid d = true) :
    (∀ i : Nat, ∃ r, PDB.getRecord d.pdb (i : Int) = some r) ∧
    ∃ s, d.dec = some s ∧
      ((∀ p ∈ decompressSeq E s (textRecords d.pdb d.ntextrecords), E.isValid p.2 = true) →
        ∃ d2, Document.text E d = some (d.decodeString E
            (((decompressSeq E s (textRecords d.pdb d.ntextrecords)).map Prod.fst).flatten), d2) ∧
          Document.isValid d2 = true) := by
  obtain ⟨hpdb, _, hdec, _⟩ := ctor_facts E dev u d hd
  have hlen : d.pdb.recordOffsets.length = d.pdb.nrecords := by
    rw [hpdb]; exact ctor_offsets_length E dev u
  obtain ⟨s, hs⟩ := hdec hvalid
  refine ⟨getRecord_isSome d.pdb hlen, s, hs, ?_⟩
  intro hok
  obtain ⟨s2, h2⟩ := textLoop_valid E d.pdb hlen d.ntextrecords 1 [] s hok
  refine ⟨{ d with dec := some s2 }, ?_, hvalid⟩
  simp only [Document.text, hs]
  have hc : (1 : Int) = ((1 : Nat) : Int) := rfl
  rw [hc, h2]
  simp [textRecords]

/-- C5. For every document over a constructed container that holds a strategy
object `s`: if the strategy reports invalid after decompressing text record
`k + 1` (the entry `k` of the run over the text records `1..ntextrecords`), then
`Document::text()` returns the null (empty) string, not a partial
concatenation, and `isValid()` is false afterwards. -/
theorem C5_text_aborts_on_invalid (E : Env σ Img) (dev : QByteArray) (u : Uninit)
    (d : DocumentPrivate σ) (s : σ) (hpdb : d.pdb = PDB.ctor E dev u) (hs : d.dec = some s)
    (k : Nat)
    (hbad : ((decompressSeq E s (textRecords d.pdb d.ntextrecords))[k]?).map
      (fun p => E.isValid p.2) = some false) :
    ∃ d2, Document.text E d = some ("", d2) ∧ Document.isValid d2 = false := by
  have hlen : d.pdb.recordOffsets.length = d.pdb.nrecords := by
    rw [hpdb]; exact ctor_offsets_length E dev u
  have hmem : ∃ p ∈ decompressSeq E s ((List.range' 1 d.ntextrecords).map
      (fun (j : Nat) => (PDB.getRecord d.pdb (j : Int)).getD [])), E.isValid p.2 = false := by
    cases hp : (decompressSeq E s (textRecords d.pdb d.ntextrecords))[k]? with
    | none => rw [hp] at hbad; exact absurd hbad (by simp)
    | some p =>
      rw [hp] at hbad
      simp only [Option.map_some', Option.some.injEq] at hbad
      exact ⟨p, List.getElem?_mem hp, hbad⟩
  obtain ⟨s2, h2, _⟩ := textLoop_invalid E d.pdb hlen d.ntextrecords 1 [] s hmem
  refine ⟨{ d with dec := some s2, valid := false }, ?_, rfl⟩
  simp only [Document.text, hs]
  have hc : (1 : Int) = ((1 : Nat) : Int) := rfl
  rw [hc, h2]

end

theorem toNat_ofNat_mod (x : Nat) : (UInt8.ofNat (x % 256)).toNat = x % 256 :=
  UInt8.toNat_ofNat_of_lt (Nat.mod_lt x (by decide))

theorem be32_length (n : Nat) : (be32 n).length = 4 := rfl

theorem beValue_be32 (n : Nat) (h : n < 2 ^ 32) : beValue (be32 n) = n := by
  simp only [beValue, be32, List.foldl_cons, List.foldl_nil, toNat_ofNat_mod]
  norm_num at h ⊢
  omega

theorem toInt_of_lt (x : Nat) (h : x < 2 ^ 31) : toInt x = (x : Int) := by
  have h1 : x % 2 ^ 32 = x := Nat.mod_eq_of_lt (by norm_num at h ⊢; omega)
  simp only [toInt, h1, h, if_true]

/-- Reading back a 32-bit value written at the end of `pre`. -/
theorem readBELong_append (pre rest : QByteArray) (n : Nat) (hn : n < 2 ^ 32) :
    readBELong (pre ++ be32 n ++ rest) (pre.length : Int) = some n := by
  have h1 : ¬ (((pre.length : Int) < 0) ∨
      (pre.length : Int) + 4 > ((pre ++ be32 n ++ rest).length : Int)) := by
    simp only [List.length_append, be32_length]
    push_cast
    omega
  simp only [readBELong, h1, if_false, Int.toNat_ofNat]
  rw [List.append_assoc, List.drop_left, List.take_left' (be32_length n), beValue_be32 n hn]

/-- Cutting out a slice that is known to be there. -/
theorem mid_append (pre p rest : QByteArray) (hsize : (pre ++ p ++ rest).length ≤ INT_MAX) :
    mid (pre ++ p ++ rest) (pre.length : Int) (p.length : Int) = some p := by
  by_cases hend : (pre.length : Int) ≥ ((pre ++ p ++ rest).length : Int)
  · have hp : p = [] := by
      simp only [List.length_append] at hend
      push_cast at hend
      apply List.eq_nil_of_length_eq_zero
      omega
    subst hp
    have hd : decide ((pre.length : Int) ≥ ((pre ++ [] ++ rest).length : Int)) = true :=
      decide_eq_true hend
    simp only [mid, hd, Bool.or_true, if_true]
  · have hne : (pre ++ p ++ rest).isEmpty = false := by
      cases hx : (pre ++ p ++ rest) with
      | nil => simp [hx] at hend
      | cons a l => rfl
    have h1 : ¬ ((p.length : Int) < 0) := by omega
    have h2 : ¬ ((pre.length : Int) < 0) := by omega
    have hsz : ((pre ++ p ++ rest).length : Int) ≤ (INT_MAX : Int) := by exact_mod_cast hsize
    have hle : (p.length : Int) + (pre.length : Int) ≤ ((pre ++ p ++ rest).length : Int) := by
      simp only [List.length_append]
      push_cast
      omega
    have h3 : ¬ ((p.length : Int) > (INT_MAX : Int)) := by omega
    have h4 : ¬ ((p.length : Int) + (pre.length : Int) > (INT_MAX : Int)) := by omega
    have h5 : ¬ ((p.length : Int) + (pre.length : Int) > ((pre ++ p ++ rest).length : Int)) := by
      omega
    simp only [mid, hne, hend, Bool.false_eq_true, decide_False, Bool.or_self, if_false, h1, h2, h3,
      h4, h5, Int.toNat_ofNat]
    rw [List.append_assoc, List.drop_left, List.take_left]

section
variable {σ Img : Type}

theorem decodeString_congr (E : Env σ Img) (d d2 : DocumentPrivate σ) (h : d2.isUtf = d.isUtf)
    (bytes : QByteArray) : d2.decodeString E bytes = d.decodeString E bytes := by
  simp only [DocumentPrivate.decodeString, h]

theorem encode_length (r : ExthRecord) : r.encode.length = 8 + r.payload.length := by
  simp only [ExthRecord.encode, List.length_append, be32_length]

theorem encodeRecords_length_ge (rs : List ExthRecord) :
    8 * rs.length ≤ (encodeRecords rs).length := by
  induction rs with
  | nil => simp [encodeRecords]
  | cons r rs ih =>
    simp only [encodeRecords, List.length_append, encode_length, List.length_cons]
    omega

/-- Reading the length and payload of a record whose length field starts right
after `pre`. -/
theorem readEXTHRecord_append (E : Env σ Img) (d : DocumentPrivate σ) (pre p rest : QByteArray)
    (hsize : (pre ++ be32 (p.length + 8) ++ p ++ rest).length ≤ INT_MAX) :
    d.readEXTHRecord E (pre ++ be32 (p.length + 8) ++ p ++ rest) pre.length =
      some (d.decodeString E p, pre.length + 4 + p.length) := by
  have hlen : pre.length + 4 + p.length + rest.length ≤ 2147483647 := by
    simpa only [List.length_append, be32_length, INT_MAX] using hsize
  have h1 : toInt pre.length = (pre.length : Int) := toInt_of_lt _ (by norm_num; omega)
  have h2 : readBELong (pre ++ be32 (p.length + 8) ++ p ++ rest) (pre.length : Int) =
      some (p.length + 8) := by
    rw [List.append_assoc (pre ++ be32 (p.length + 8))]
    exact readBELong_append pre (p ++ rest) (p.length + 8) (by norm_num; omega)
  have h3 : (pre.length + 4) % 2 ^ 32 = pre.length + 4 :=
    Nat.mod_eq_of_lt (by norm_num; omega)
  have h4 : (p.length + 8 + 2 ^ 32 - 8) % 2 ^ 32 = p.length := by
    norm_num
    omega
  have h5 : toInt (pre.length + 4) = ((pre ++ be32 (p.length + 8)).length : Int) := by
    rw [toInt_of_lt _ (by norm_num; omega)]
    simp only [List.length_append, be32_length]
  have h6 : toInt p.length = (p.length : Int) := toInt_of_lt _ (by norm_num; omega)
  have h7 : (pre.length + 4 + p.length) % 2 ^ 32 = pre.length + 4 + p.length :=
    Nat.mod_eq_of_lt (by norm_num; omega)
  simp only [DocumentPrivate.readEXTHRecord, h1, h2, h3, h4, h5, h6, h7,
    mid_append (pre ++ be32 (p.length + 8)) p rest hsize]

/-- One pass of the loop body over a record other than the thumbnail record. -/
theorem exthStep_append (E : Env σ Img) (d : DocumentPrivate σ) (pre rest : QByteArray)
    (r : ExthRecord) (ht : r.type < 2 ^ 32) (h202 : r.type ≠ 202)
    (hsize : (pre ++ r.encode ++ rest).length ≤ INT_MAX) :
    exthStep E d (pre ++ r.encode ++ rest) pre.length =
      some (storeRecord E d r, pre.length + r.encode.length) := by
  have hlen : pre.length + (8 + r.payload.length) + rest.length ≤ 2147483647 := by
    simpa only [List.length_append, encode_length, INT_MAX] using hsize
  have hdata : pre ++ r.encode ++ rest =
      (pre ++ be32 r.type) ++ be32 (r.payload.length + 8) ++ r.payload ++ rest := by
    simp only [ExthRecord.encode, List.append_assoc]
  have h1 : toInt pre.length = (pre.length : Int) := toInt_of_lt _ (by norm_num; omega)
  have h2 : readBELong (pre ++ r.encode ++ rest) (pre.length : Int) = some r.type := by
    have : pre ++ r.encode ++ rest =
        pre ++ be32 r.type ++ (be32 (r.payload.length + 8) ++ r.payload ++ rest) := by
      simp only [ExthRecord.encode, List.append_assoc]
    rw [this]
    exact readBELong_append pre _ r.type ht
  have h3 : (pre.length + 4) % 2 ^ 32 = (pre ++ be32 r.type).length := by
    rw [Nat.mod_eq_of_lt (by norm_num; omega)]
    simp only [List.length_append, be32_length]
  have hrec := fun (d0 : DocumentPrivate σ) =>
    readEXTHRecord_append E d0 (pre ++ be32 r.type) r.payload rest (by rw [← hdata]; exact hsize)
  have hcur : (pre ++ be32 r.type).length + 4 + r.payload.length = pre.length + r.encode.length := by
    simp only [List.length_append, be32_length, encode_length]
    omega
  simp only [exthStep, h1, h2, h3]
  rw [hdata]
  simp only [exthStore, hrec, hcur, storeRecord]
  split_ifs <;> rfl

theorem exthLoop_append (E : Env σ Img) (rs : List ExthRecord) :
    ∀ (d : DocumentPrivate σ) (pre rest : QByteArray),
      (∀ r ∈ rs, r.type < 2 ^ 32 ∧ r.type ≠ 202) →
      (pre ++ encodeRecords rs ++ rest).length ≤ INT_MAX →
      exthLoop E (pre ++ encodeRecords rs ++ rest) rs.length d pre.length =
        some (storeRecords E d rs, pre.length + (encodeRecords rs).length) := by
  induction rs with
  | nil =>
    intro d pre rest _ _
    simp [exthLoop, storeRecords, encodeRecords]
  | cons r rs ih =>
    intro d pre rest ht hsize
    have hdata : pre ++ encodeRecords (r :: rs) ++ rest =
        pre ++ r.encode ++ (encodeRecords rs ++ rest) := by
      simp only [encodeRecords, List.append_assoc]
    have hdata2 : pre ++ encodeRecords (r :: rs) ++ rest =
        (pre ++ r.encode) ++ encodeRecords rs ++ rest := by
      simp only [encodeRecords, List.append_assoc]
    have hr := ht r (List.mem_cons_self r rs)
    have hstep := exthStep_append E d pre (encodeRecords rs ++ rest) r hr.1 hr.2
      (by rw [← hdata]; exact hsize)
    have hloop := ih (storeRecord E d r) (pre ++ r.encode) rest
      (fun x hx => ht x (List.mem_cons_of_mem r hx)) (by rw [← hdata2]; exact hsize)
    simp only [List.length_cons, exthLoop]
    rw [hdata, hstep]
    simp only []
    rw [← hdata, hdata2]
    rw [List.length_append] at hloop
    rw [hloop]
    simp only [storeRecords, encodeRecords, List.length_append, Nat.add_assoc]

end

section
variable {σ Img : Type}

theorem storeRecord_fields (E : Env σ Img) (d : DocumentPrivate σ) (r : ExthRecord) :
    (storeRecord E d r).isUtf = d.isUtf ∧ (storeRecord E d r).thumbnailIndex = d.thumbnailIndex ∧
      (storeRecord E d r).metadata MetaKey.Title = d.metadata MetaKey.Title := by
  unfold storeRecord
  split_ifs <;> exact ⟨rfl, rfl, by simp [MetaMap.insert]⟩

theorem storeRecord_metadata (E : Env σ Img) (d : DocumentPrivate σ) (r : ExthRecord)
    (k : MetaKey) (t : Nat) (hk : exthTypeOf k = some t) :
    (storeRecord E d r).metadata k =
      if r.type = t then some (d.decodeString E r.payload) else d.metadata k := by
  unfold storeRecord
  cases k with
  | Title => exact absurd hk (by simp [exthTypeOf])
  | Author =>
    simp only [exthTypeOf, Option.some.injEq] at hk
    subst hk
    split_ifs <;> simp_all [MetaMap.insert]
  | Copyright =>
    simp only [exthTypeOf, Option.some.injEq] at hk
    subst hk
    split_ifs <;> simp_all [MetaMap.insert]
  | Subject =>
    simp only [exthTypeOf, Option.some.injEq] at hk
    subst hk
    split_ifs <;> simp_all [MetaMap.insert]
  | Description =>
    simp only [exthTypeOf, Option.some.injEq] at hk
    subst hk
    split_ifs <;> simp_all [MetaMap.insert]

theorem storeRecords_fields (E : Env σ Img) (rs : List ExthRecord) :
    ∀ d : DocumentPrivate σ, (storeRecords E d rs).isUtf = d.isUtf ∧
      (storeRecords E d rs).thumbnailIndex = d.thumbnailIndex ∧
      (storeRecords E d rs).metadata MetaKey.Title = d.metadata MetaKey.Title := by
  induction rs with
  | nil => intro d; exact ⟨rfl, rfl, rfl⟩
  | cons r rs ih =>
    intro d
    obtain ⟨a1, a2, a3⟩ := storeRecord_fields E d r
    obtain ⟨b1, b2, b3⟩ := ih (storeRecord E d r)
    exact ⟨b1.trans a1, b2.trans a2, b3.trans a3⟩

/-- After the records are applied, a key holds the decoded payload of the last
record of its type, or what it held before when there is none. -/
theorem storeRecords_metadata (E : Env σ Img) (rs : List ExthRecord) (k : MetaKey) (t : Nat)
    (hk : exthTypeOf k = some t) :
    ∀ d : DocumentPrivate σ, (storeRecords E d rs).metadata k =
      match lastPayload t rs with
      | some p => some (d.decodeString E p)
      | none => d.metadata k := by
  induction rs with
  | nil => intro d; rfl
  | cons r rs ih =>
    intro d
    simp only [storeRecords, lastPayload]
    rw [ih (storeRecord E d r)]
    cases hl : lastPayload t rs with
    | some p =>
      simp only []
      rw [decodeString_congr E d _ (storeRecord_fields E d r).1]
    | none =>
      simp only []
      rw [storeRecord_metadata E d r k t hk]
      split_ifs <;> rfl

/-- The EXTH part of `parseEXTH` (from line 206) on a record that carries a
block of encoded records without a record of type 202 at the offset its
pointer names: the loop consumes every record and ends with the records
applied in order. -/
theorem parseEXTHRecords_block (E : Env σ Img) (d : DocumentPrivate σ) (pre hl post : QByteArray)
    (rs : List ExthRecord) (v : Nat)
    (hsize : (pre ++ exthBlock hl rs ++ post).length ≤ INT_MAX)
    (hv : readBELong (pre ++ exthBlock hl rs ++ post) 20 = some v)
    (hoff : v + 16 = pre.length) (hhl : hl.length = 4)
    (htypes : ∀ r ∈ rs, r.type < 2 ^ 32 ∧ r.type ≠ 202) :
    ∃ cursor, parseEXTHRecords E d (pre ++ exthBlock hl rs ++ post) =
      some (storeRecords E d rs, some cursor) := by
  have hlen0 : pre.length + (4 + 4 + 4 + (encodeRecords rs).length) + post.length ≤ 2147483647 := by
    simpa only [List.length_append, exthBlock, be32_length, hhl, INT_MAX, exthTag,
      List.length_cons, List.length_nil] using hsize
  have hcount := encodeRecords_length_ge rs
  have hoffs : (v + 16) % 2 ^ 32 = pre.length := by
    rw [hoff]; exact Nat.mod_eq_of_lt (by norm_num; omega)
  have hpre : toInt pre.length = (pre.length : Int) := toInt_of_lt _ (by norm_num; omega)
  have hd1 : pre ++ exthBlock hl rs ++ post =
      pre ++ exthTag ++ (hl ++ be32 rs.length ++ encodeRecords rs ++ post) := by
    simp only [exthBlock, List.append_assoc]
  have htag : mid (pre ++ exthBlock hl rs ++ post) (pre.length : Int) 4 = some exthTag := by
    rw [hd1]
    exact mid_append pre exthTag _ (by rw [← hd1]; exact hsize)
  have hd2 : pre ++ exthBlock hl rs ++ post =
      (pre ++ exthTag ++ hl) ++ be32 rs.length ++ (encodeRecords rs ++ post) := by
    simp only [exthBlock, List.append_assoc]
  have hl8 : (pre ++ exthTag ++ hl).length = pre.length + 8 := by
    simp only [List.length_append, hhl, exthTag, List.length_cons, List.length_nil]
  have h8 : toInt ((pre.length + 8) % 2 ^ 32) = ((pre ++ exthTag ++ hl).length : Int) := by
    rw [Nat.mod_eq_of_lt (by norm_num; omega), toInt_of_lt _ (by norm_num; omega), hl8]
  have hrecords : readBELong (pre ++ exthBlock hl rs ++ post)
      ((pre ++ exthTag ++ hl).length : Int) = some rs.length := by
    rw [hd2]
    exact readBELong_append _ _ rs.length (by norm_num; omega)
  have hd3 : pre ++ exthBlock hl rs ++ post =
      (pre ++ exthTag ++ hl ++ be32 rs.length) ++ encodeRecords rs ++ post := by
    simp only [exthBlock, List.append_assoc]
  have hl12 : (pre ++ exthTag ++ hl ++ be32 rs.length).length = pre.length + 12 := by
    simp only [List.length_append, hhl, exthTag, List.length_cons, List.length_nil, be32_length]
  have h12 : (pre.length + 12) % 2 ^ 32 = (pre ++ exthTag ++ hl ++ be32 rs.length).length := by
    rw [Nat.mod_eq_of_lt (by norm_num; omega), hl12]
  have hloop := exthLoop_append E rs d (pre ++ exthTag ++ hl ++ be32 rs.length) post htypes
    (by rw [← hd3]; exact hsize)
  rw [← hd3] at hloop
  refine ⟨(pre ++ exthTag ++ hl ++ be32 rs.length).length + (encodeRecords rs).length, ?_⟩
  unfold parseEXTHRecords
  simp only [hv, hoffs, hpre]
  rw [htag]
  simp only [ne_eq, not_true_eq_false, if_false, h8]
  rw [hrecords]
  simp only [h12]
  rw [hloop]

end

section
variable {σ Img : Type}

/-- A valid constructed document went through the whole of `init`: the strategy
lookup succeeded, the header was parsed, and line 161 produced the document. -/
theorem ctor_valid_eq (E : Env σ Img) (dev : QByteArray) (u : Uninit) (d : DocumentPrivate σ)
    (hd : Document.ctor E dev u = some d) (hv : d.valid = true) :
    ∃ mhead s d3, PDB.getRecord (PDB.ctor E dev u) 0 = some mhead ∧
      E.create (byteRef mhead 1) (PDB.ctor E dev u) = some s ∧
      initParse E (initFlags E (DocumentPrivate.ctor E dev u) mhead) mhead = some d3 ∧
      initFallback E s d3 = some d ∧ d3.dec = some s ∧ d3.pdb = PDB.ctor E dev u := by
  obtain ⟨mhead, hm, heq⟩ := ctor_eq E dev u
  rw [hd] at heq
  obtain ⟨f1, f2, _⟩ := initFlags_fields E (DocumentPrivate.ctor E dev u) mhead
  split at heq
  · injection heq with heq
    subst heq
    exact absurd hv (by simp)
  · rename_i s hs
    split at heq
    · exact absurd heq (by simp)
    · rename_i d3 h3
      obtain ⟨b1, b2, _⟩ := initParse_base E _ d3 mhead h3
      exact ⟨mhead, s, d3, hm, f2.symm.trans hs, h3, heq.symm, b2.trans hs, b1.trans f1⟩

theorem applyRegExp_other (E : Env σ Img) (r : HeadRegExp) (k j : MetaKey) (data : QString)
    (m : MetaMap) (h : j ≠ k) : applyRegExp E r k data m j = m j := by
  unfold applyRegExp
  cases E.indexIn r data with
  | none => rfl
  | some c => simp [MetaMap.insert, h]

/-- The Title that `parseHtmlHead` leaves: the one already there, else the
capture of the title pattern. -/
theorem parseHtmlHead_title (E : Env σ Img) (d : DocumentPrivate σ) (data : QString) :
    (d.parseHtmlHead E data).metadata MetaKey.Title =
      match d.metadata MetaKey.Title with
      | some v => some v
      | none => E.indexIn HeadRegExp.title data := by
  simp only [DocumentPrivate.parseHtmlHead]
  rw [applyRegExp_other _ _ _ _ _ _ (by decide), applyRegExp_other _ _ _ _ _ _ (by decide),
    applyRegExp_other _ _ _ _ _ _ (by decide), applyRegExp_other _ _ _ _ _ _ (by decide)]
  cases hT : d.metadata MetaKey.Title with
  | some v => simp [MetaMap.contains, hT]
  | none =>
    simp only [MetaMap.contains, hT, Option.isSome_none, Bool.not_false, if_true, applyRegExp]
    cases E.indexIn HeadRegExp.title data <;> simp [MetaMap.insert, hT]

/-- C9, as amended. For every valid DRM-free document, with `d3` the document
after the header and EXTH steps of `init` (where Title is what the full-name
field set, EXTH records leaving it alone, and is unset for a header of at most
176 bytes): if Title is set in `d3`, `metadata()[Title]` is that value, whatever
the markup holds; if Title is not set in `d3`, fewer than two metadata keys are
populated in `d3` and the title pattern matches the decoded
`decompress(getRecord(1))` with first capture `T`, then `metadata()[Title]` is
`T`; and if Title is not set in `d3` and two or more keys are populated, Title
stays unset. -/
theorem C9_title_precedence (E : Env σ Img) (dev : QByteArray) (u : Uninit)
    (d : DocumentPrivate σ) (hd : Document.ctor E dev u = some d)
    (hv : Document.isValid d = true) (hdrm : Document.hasDRM d = false) :
    ∃ mhead s d2 d3 rec1,
      PDB.getRecord (PDB.ctor E dev u) 0 = some mhead ∧
      E.create (byteRef mhead 1) (PDB.ctor E dev u) = some s ∧
      initEncoding (initFlags E (DocumentPrivate.ctor E dev u) mhead) mhead = some d2 ∧
      initParse E (initFlags E (DocumentPrivate.ctor E dev u) mhead) mhead = some d3 ∧
      PDB.getRecord (PDB.ctor E dev u) 1 = some rec1 ∧
      (mhead.length > 176 →
        ∃ dn, parseFullName E d2 mhead = some dn ∧
          d3.metadata MetaKey.Title = dn.metadata MetaKey.Title) ∧
      (mhead.length ≤ 176 → d3.metadata MetaKey.Title = none) ∧
      (∀ v, d3.metadata MetaKey.Title = some v → Document.metadata d MetaKey.Title = some v) ∧
      (d3.metadata MetaKey.Title = none → MetaMap.size d3.metadata < 2 →
        ∀ T, E.indexIn HeadRegExp.title (d3.decodeString E (E.decompress s rec1).1) = some T →
          Document.metadata d MetaKey.Title = some T) ∧
      (d3.metadata MetaKey.Title = none → ¬ MetaMap.size d3.metadata < 2 →
        Document.metadata d MetaKey.Title = none) := by
  obtain ⟨mhead, s, d3, hm, hs, h3, hf, hdec, hpdb⟩ := ctor_valid_eq E dev u d hd hv
  obtain ⟨rec1, hr1⟩ := getRecord_isSome (PDB.ctor E dev u) (ctor_offsets_length E dev u) 1
  have hr1b : PDB.getRecord d3.pdb 1 = some rec1 := by rw [hpdb]; exact hr1
  have h3b := h3
  unfold initParse at h3b
  split at h3b
  · exact absurd h3b (by simp)
  rename_i d2 h2
  have hmeta2 : d2.metadata = MetaMap.empty :=
    (initEncoding_fields _ d2 mhead h2).2.1.trans (initFlags_fields E _ mhead).2.2.2.2.1
  have hdrm3 : d3.drm = false := by
    have := (initFallback_fields E s d3 d hf hdec).2.2.1
    simp only [Document.hasDRM] at hdrm
    rw [← this]; exact hdrm
  -- the effect of line 161 on Title
  have hfinal : d.metadata MetaKey.Title =
      if MetaMap.size d3.metadata < 2 then
        (match d3.metadata MetaKey.Title with
          | some v => some v
          | none => E.indexIn HeadRegExp.title (d3.decodeString E (E.decompress s rec1).1))
      else d3.metadata MetaKey.Title := by
    have hf2 := hf
    unfold initFallback at hf2
    by_cases hc : MetaMap.size d3.metadata < 2
    · simp only [hc, decide_True, hdrm3, Bool.not_false, Bool.and_self, if_true, hr1b] at hf2
      injection hf2 with hf2
      rw [← hf2, parseHtmlHead_title]
      simp only [if_true, hc]
      rfl
    · simp only [hc, decide_False, Bool.false_and, Bool.false_eq_true, if_false] at hf2
      injection hf2 with hf2
      rw [← hf2]
      simp only [hc, if_false]
  refine ⟨mhead, s, d2, d3, rec1, hm, hs, h2, h3, hr1, ?_, ?_, ?_, ?_, ?_⟩
  · intro hlen
    simp only [hlen, if_true] at h3b
    unfold DocumentPrivate.parseEXTH at h3b
    split at h3b
    · exact absurd h3b (by simp)
    · rename_i dn hn
      split at h3b
      · exact absurd h3b (by simp)
      · rename_i r hr
        injection h3b with h3b
        refine ⟨dn, hn, ?_⟩
        rw [← h3b]
        exact (parseEXTHRecords_core E dn mhead r hr).2.2.2.2.2.2.2
  · intro hlen
    have : ¬ mhead.length > 176 := by omega
    simp only [this, if_false] at h3b
    injection h3b with h3b
    rw [← h3b, hmeta2]
    rfl
  · intro v hT
    simp only [Document.metadata]
    rw [hfinal, hT]
    split_ifs <;> rfl
  · intro hT hsz T hidx
    simp only [Document.metadata]
    rw [hfinal, hT]
    simp only [hsz, if_true, hidx]
  · intro hT hsz
    simp only [Document.metadata]
    rw [hfinal]
    simp only [hsz, if_false, hT]

/-- C10. Construction of a document with a matching strategy, in an environment
that counts the calls of `decompress`: with `d3` the document after the header
and EXTH steps and `n` the number of calls counted at the end of construction,
`n` is at most 1, and `n = 1` exactly when fewer than two metadata keys are
populated in `d3` and DRM is not set; when `n = 1` the document is `d3` after
`parseHtmlHead` on the decoded `decompress(getRecord(1))`; when `n = 0` the
document is `d3`, with the strategy object as created; and whenever `hasDRM()`
is true, `n = 0` and `metadata()` is the metadata of `d3`. -/
theorem C10_fallback_gate (E : Env σ Img) (dev : QByteArray) (u : Uninit)
    (d : DocumentPrivate (σ × Nat)) (hd : Document.ctor E.counting dev u = some d)
    (hv : Document.isValid d = true) :
    ∃ mhead d3 rec1 s0 n,
      PDB.getRecord (PDB.ctor E.counting dev u) 0 = some mhead ∧
      E.create (byteRef mhead 1) (PDB.ctor E.counting dev u) = some s0 ∧
      initParse E.counting (initFlags E.counting (DocumentPrivate.ctor E.counting dev u) mhead)
        mhead = some d3 ∧
      PDB.getRecord (PDB.ctor E.counting dev u) 1 = some rec1 ∧
      (∃ s, d.dec = some (s, n)) ∧ n ≤ 1 ∧
      (n = 1 ↔ (MetaMap.size d3.metadata < 2 ∧ d3.drm = false)) ∧
      (n = 1 → d = ({ d3 with dec := some ((E.decompress s0 rec1).2, 1) }).parseHtmlHead E.counting
          (d3.decodeString E.counting (E.decompress s0 rec1).1)) ∧
      (n = 0 → d = d3 ∧ d.dec = some (s0, 0)) ∧
      (Document.hasDRM d = true → n = 0 ∧ Document.metadata d = d3.metadata) := by
  obtain ⟨mhead, s1, d3, hm, hs, h3, hf, hdec, hpdb⟩ := ctor_valid_eq E.counting dev u d hd hv
  obtain ⟨rec1, hr1⟩ :=
    getRecord_isSome (PDB.ctor E.counting dev u) (ctor_offsets_length E.counting dev u) 1
  have hr1b : PDB.getRecord d3.pdb 1 = some rec1 := by rw [hpdb]; exact hr1
  have hmap : ∀ o : Option σ, o.map (fun x => (x, 0)) = some s1 → o = some s1.1 ∧ s1.2 = 0 := by
    intro o h
    cases o with
    | none => exact absurd h (by simp)
    | some x =>
      simp only [Option.map_some', Option.some.injEq] at h
      rw [← h]
      exact ⟨rfl, rfl⟩
  obtain ⟨hcreate, hzero⟩ := hmap _ hs
  obtain ⟨sa, sb⟩ := s1
  simp only at hzero hcreate
  subst hzero
  unfold initFallback at hf
  by_cases hc : MetaMap.size d3.metadata < 2 ∧ d3.drm = false
  · have hcb : (decide (MetaMap.size d3.metadata < 2) && !d3.drm) = true := by
      simp [hc.1, hc.2]
    simp only [hcb, if_true, hr1b] at hf
    injection hf with hf
    refine ⟨mhead, d3, rec1, sa, 1, hm, hcreate, h3, hr1, ⟨(E.decompress sa rec1).2, ?_⟩,
      le_refl _, ?_, ?_, ?_, ?_⟩
    · rw [← hf]; rfl
    · simp [hc]
    · intro _
      rw [← hf]
      rfl
    · intro h; exact absurd h (by decide)
    · intro hdrm
      have : d.drm = d3.drm := by rw [← hf]; rfl
      simp only [Document.hasDRM] at hdrm
      rw [this, hc.2] at hdrm
      exact absurd hdrm (by simp)
  · have hcb : (decide (MetaMap.size d3.metadata < 2) && !d3.drm) = false := by
      by_cases h1 : MetaMap.size d3.metadata < 2
      · have : d3.drm = true := by
          cases hx : d3.drm with
          | true => rfl
          | false => exact absurd ⟨h1, hx⟩ hc
        simp [this]
      · simp [h1]
    simp only [hcb, Bool.false_eq_true, if_false] at hf
    injection hf with hf
    subst hf
    refine ⟨mhead, d3, rec1, sa, 0, hm, hcreate, h3, hr1, ⟨sa, hdec⟩, by decide, ?_, ?_, ?_, ?_⟩
    · constructor
      · intro h; exact absurd h (by decide)
      · intro h; exact absurd h hc
    · intro h; exact absurd h (by decide)
    · intro _; exact ⟨rfl, hdec⟩
    · intro _; exact ⟨rfl, rfl⟩

end

theorem ctor_of_isSome {σ Img : Type} (E : Env σ Img) (dev : QByteArray) (u : Uninit)
    (h : (Document.ctor E dev u).isSome = true) :
    Document.ctor E dev u = some (Document.ctorD E dev u) := by
  unfold Document.ctorD
  cases hc : Document.ctor E dev u with
  | none => rw [hc] at h; exact absurd h (by simp)
  | some d => rfl

/-- C1, witness: the scenario of the specification. With the no-op strategy, one
text record and record 1 holding `Hello`, `text()` is `Hello`. -/
theorem C1_witness :
    Document.ctor sampleEnv helloStream zeroUninit =
      some (Document.ctorD sampleEnv helloStream zeroUninit) ∧
    Document.isValid (Document.ctorD sampleEnv helloStream zeroUninit) = true ∧
    (Document.text sampleEnv (Document.ctorD sampleEnv helloStream zeroUninit)).map Prod.fst =
      some "Hello" := by
  have hd := ctor_of_isSome sampleEnv helloStream zeroUninit (by decide)
  have hv : Document.isValid (Document.ctorD sampleEnv helloStream zeroUninit) = true := by decide
  obtain ⟨_, s, hs, h⟩ := C1_text_is_decoded_concatenation sampleEnv helloStream zeroUninit _ hd hv
  have hs2 : (Document.ctorD sampleEnv helloStream zeroUninit).dec = some ⟨false, true, 1⟩ := by
    decide
  rw [hs2] at hs
  injection hs with hs
  subst hs
  obtain ⟨d2, ht, _⟩ := h (by decide)
  refine ⟨hd, hv, ?_⟩
  rw [ht]
  simp only [Option.map_some']
  decide

/-- C2, witness: the three-record sample stream is well-formed, and its records 1
and 2 are the bytes between the offsets. -/
theorem C2_witness :
    PDB.WellFormed (PDB.ctor sampleEnv helloStream zeroUninit) ∧
    1 < (PDB.ctor sampleEnv helloStream zeroUninit).nrecords ∧
    PDB.getRecord (PDB.ctor sampleEnv helloStream zeroUninit) (1 : Nat) = some (ascii "Hello") ∧
    PDB.getRecord (PDB.ctor sampleEnv helloStream zeroUninit) (2 : Nat) = some samplePng ∧
    ∃ off, (PDB.ctor sampleEnv helloStream zeroUninit).recordOffsets[1]? = some off ∧
      off ≤ helloStream.length ∧
      (1 + 1 < (PDB.ctor sampleEnv helloStream zeroUninit).nrecords →
        ∃ next, (PDB.ctor sampleEnv helloStream zeroUninit).recordOffsets[1 + 1]? = some next ∧
          off < next ∧ next ≤ helloStream.length ∧
          (next - off ≤ INT_MAX →
            PDB.getRecord (PDB.ctor sampleEnv helloStream zeroUninit) (1 : Nat) =
              some ((helloStream.drop off).take (next - off)) ∧
            ((helloStream.drop off).take (next - off)).length = next - off)) ∧
      (1 + 1 = (PDB.ctor sampleEnv helloStream zeroUninit).nrecords →
        helloStream.length - off ≤ INT_MAX →
        PDB.getRecord (PDB.ctor sampleEnv helloStream zeroUninit) (1 : Nat) =
          some (helloStream.drop off) ∧
        (helloStream.drop off).length = helloStream.length - off) :=
  ⟨by decide, by decide, by decide, by decide,
    C2_getRecord_bytes sampleEnv helloStream zeroUninit (by decide) 1 (by decide)⟩

/-- C3, witness: index 3 of the three-record sample container, with the offset
table and the stream emptied. -/
theorem C3_witness :
    (3 : Int) ≥ PDB.recordCount (PDB.ctor sampleEnv helloStream zeroUninit) ∧
    PDB.getRecord { PDB.ctor sampleEnv helloStream zeroUninit with
      recordOffsets := [], device := [] } 3 = some [] :=
  ⟨by decide, C3_getRecord_beyond (PDB.ctor sampleEnv helloStream zeroUninit) [] [] 3 (by decide)⟩

/-- C4, witness: the sample stream declares three records, at offsets 102, 134
and 139. -/
theorem C4_witness :
    0x4E + 8 * beValue ((helloStream.drop 0x4C).take 2) ≤ helloStream.length ∧
    PDB.recordCount (PDB.ctor sampleEnv helloStream zeroUninit) = 3 ∧
    (PDB.ctor sampleEnv helloStream zeroUninit).recordOffsets.length = 3 ∧
    (PDB.ctor sampleEnv helloStream zeroUninit).recordOffsets[1]? = some 134 :=
  ⟨by decide,
    (C4_record_table sampleEnv helloStream zeroUninit (by decide)).1.trans (by decide),
    (C4_record_table sampleEnv helloStream zeroUninit (by decide)).2.1.trans (by decide),
    ((C4_record_table sampleEnv helloStream zeroUninit (by decide)).2.2.1 1 (by decide)).trans
      (by decide)⟩

/-- C5, witness: two text records, the second makes the sample strategy fail;
`text()` is empty and the document invalid. -/
theorem C5_witness :
    (Document.ctorD sampleEnv fragileStream zeroUninit).pdb =
      PDB.ctor sampleEnv fragileStream zeroUninit ∧
    (Document.ctorD sampleEnv fragileStream zeroUninit).dec = some ⟨true, true, 1⟩ ∧
    ((decompressSeq sampleEnv ⟨true, true, 1⟩
      (textRecords (Document.ctorD sampleEnv fragileStream zeroUninit).pdb
        (Document.ctorD sampleEnv fragileStream zeroUninit).ntextrecords))[1]?).map
      (fun p => sampleEnv.isValid p.2) = some false ∧
    ∃ d2, Document.text sampleEnv (Document.ctorD sampleEnv fragileStream zeroUninit) =
      some ("", d2) ∧ Document.isValid d2 = false :=
  ⟨(ctor_facts sampleEnv fragileStream zeroUninit _
      (ctor_of_isSome sampleEnv fragileStream zeroUninit (by decide))).1,
    by decide, by decide,
    C5_text_aborts_on_invalid sampleEnv fragileStream zeroUninit _ ⟨true, true, 1⟩
      (ctor_facts sampleEnv fragileStream zeroUninit _
        (ctor_of_isSome sampleEnv fragileStream zeroUninit (by decide))).1
      (by decide) 1 (by decide)⟩

/-- C6, the code at the failing input. The header declares compression code 0,
for which there is no strategy. The constructed document is invalid and holds
no strategy object, and `ntextrecords` is whatever the uninitialised member
held: with the value 1, `Document::text()` has no result (it enters the loop
and calls through the null strategy pointer); only with the value 0 does it
return the empty text. -/
theorem C6_text_on_unknown_compression :
    (Document.ctor sampleEnv unknownCodeStream oneUninit).map
      (fun d => (Document.isValid d, d.dec, d.ntextrecords)) = some (false, none, 1) ∧
    (Document.ctor sampleEnv unknownCodeStream oneUninit).map
      (fun d => (Document.text sampleEnv d).map Prod.fst) = some none ∧
    (Document.ctor sampleEnv unknownCodeStream zeroUninit).map
      (fun d => (Document.text sampleEnv d).map Prod.fst) = some (some "") := by
  decide

/-- C8, the code at the failing input. The header of the stream holds one EXTH
record of type 202 with total length 12 and payload 1. After construction
`thumbnailIndex` is 12, the record's length field, not the payload value 1, so
`thumbnail()` resolves record `2 + 12`, which does not exist, and decodes no
image, where record `firstImageRecord + 1 = 3` holds one. -/
theorem C8_thumbnail_reads_length_field :
    PDB.getRecord (PDB.ctor sampleEnv thumbStream zeroUninit) 0 = some thumbHead ∧
    (Document.ctor sampleEnv thumbStream zeroUninit).map
      (fun d => (Document.isValid d, d.thumbnailIndex)) = some (true, 12) ∧
    (Document.ctor sampleEnv thumbStream zeroUninit).map
      (fun d => (Document.thumbnail sampleEnv d).map
        (fun r => (r.1, r.2.firstImageRecord))) = some (some (none, 2)) ∧
    (PDB.getRecord (PDB.ctor sampleEnv thumbStream zeroUninit) (2 + 1)).map sampleEnv.fromData =
      some (some samplePng2) := by
  decide

/-- C9, counterexample: a valid DRM-free document whose full-name field did not
set Title and whose decoded first text record contains a `dc:title` element
with text `T`, yet `metadata()` has no Title: the EXTH block supplied two keys,
so the markup fallback did not run. -/
theorem C9_counterexample :
    (Document.ctor sampleEnv titleStream zeroUninit).map
      (fun d => (Document.isValid d, Document.hasDRM d, Document.metadata d MetaKey.Title)) =
        some (true, false, none) ∧
    PDB.getRecord (PDB.ctor sampleEnv titleStream zeroUninit) 0 = some titleHead ∧
    (parseFullName sampleEnv (DocumentPrivate.ctor sampleEnv titleStream zeroUninit) titleHead).map
      (fun d => d.metadata MetaKey.Title) = some none ∧
    (PDB.getRecord (PDB.ctor sampleEnv titleStream zeroUninit) 1).map
      (fun r => sampleEnv.indexIn HeadRegExp.title
        (sampleEnv.fromLatin1 (sampleEnv.decompress ⟨false, true, 0⟩ r).1)) = some (some "T") := by
  decide

/-- C9, witness: a DRM-free document without EXTH region whose first text record
holds a `dc:title` element with text `T`; its Title is `T`. -/
theorem C9_witness :
    Document.ctor sampleEnv markupStream zeroUninit =
      some (Document.ctorD sampleEnv markupStream zeroUninit) ∧
    Document.isValid (Document.ctorD sampleEnv markupStream zeroUninit) = true ∧
    Document.hasDRM (Document.ctorD sampleEnv markupStream zeroUninit) = false ∧
    Document.metadata (Document.ctorD sampleEnv markupStream zeroUninit) MetaKey.Title =
      some "T" ∧
    ∃ mhead s d2 d3 rec1,
      PDB.getRecord (PDB.ctor sampleEnv markupStream zeroUninit) 0 = some mhead ∧
      sampleEnv.create (byteRef mhead 1) (PDB.ctor sampleEnv markupStream zeroUninit) = some s ∧
      initEncoding (initFlags sampleEnv (DocumentPrivate.ctor sampleEnv markupStream zeroUninit)
        mhead) mhead = some d2 ∧
      initParse sampleEnv (initFlags sampleEnv
        (DocumentPrivate.ctor sampleEnv markupStream zeroUninit) mhead) mhead = some d3 ∧
      PDB.getRecord (PDB.ctor sampleEnv markupStream zeroUninit) 1 = some rec1 ∧
      (mhead.length > 176 →
        ∃ dn, parseFullName sampleEnv d2 mhead = some dn ∧
          d3.metadata MetaKey.Title = dn.metadata MetaKey.Title) ∧
      (mhead.length ≤ 176 → d3.metadata MetaKey.Title = none) ∧
      (∀ v, d3.metadata MetaKey.Title = some v →
        Document.metadata (Document.ctorD sampleEnv markupStream zeroUninit) MetaKey.Title =
          some v) ∧
      (d3.metadata MetaKey.Title = none → MetaMap.size d3.metadata < 2 →
        ∀ T, sampleEnv.indexIn HeadRegExp.title
            (d3.decodeString sampleEnv (sampleEnv.decompress s rec1).1) = some T →
          Document.metadata (Document.ctorD sampleEnv markupStream zeroUninit) MetaKey.Title =
            some T) ∧
      (d3.metadata MetaKey.Title = none → ¬ MetaMap.size d3.metadata < 2 →
        Document.metadata (Document.ctorD sampleEnv markupStream zeroUninit) MetaKey.Title =
          none) :=
  ⟨ctor_of_isSome sampleEnv markupStream zeroUninit (by decide), by decide, by decide, by decide,
    C9_title_precedence sampleEnv markupStream zeroUninit _
      (ctor_of_isSome sampleEnv markupStream zeroUninit (by decide)) (by decide) (by decide)⟩

/-- C10, witness: with both DRM bytes set and a first text record holding a
`dc:title` element, no call of `decompress` is counted and the metadata stays
as the header left it; the same stream contents without DRM count one call. -/
theorem C10_witness :
    Document.ctor sampleEnv.counting drmStream zeroUninit =
      some (Document.ctorD sampleEnv.counting drmStream zeroUninit) ∧
    Document.isValid (Document.ctorD sampleEnv.counting drmStream zeroUninit) = true ∧
    Document.hasDRM (Document.ctorD sampleEnv.counting drmStream zeroUninit) = true ∧
    (Document.ctorD sampleEnv.counting drmStream zeroUninit).dec =
      some (⟨false, true, 0⟩, 0) ∧
    (Document.ctorD sampleEnv.counting markupStream zeroUninit).dec =
      some (⟨false, true, 1⟩, 1) ∧
    ∃ mhead d3 rec1 s0 n,
      PDB.getRecord (PDB.ctor sampleEnv.counting drmStream zeroUninit) 0 = some mhead ∧
      sampleEnv.create (byteRef mhead 1) (PDB.ctor sampleEnv.counting drmStream zeroUninit) =
        some s0 ∧
      initParse sampleEnv.counting (initFlags sampleEnv.counting
        (DocumentPrivate.ctor sampleEnv.counting drmStream zeroUninit) mhead) mhead = some d3 ∧
      PDB.getRecord (PDB.ctor sampleEnv.counting drmStream zeroUninit) 1 = some rec1 ∧
      (∃ s, (Document.ctorD sampleEnv.counting drmStream zeroUninit).dec = some (s, n)) ∧ n ≤ 1 ∧
      (n = 1 ↔ (MetaMap.size d3.metadata < 2 ∧ d3.drm = false)) ∧
      (n = 1 → Document.ctorD sampleEnv.counting drmStream zeroUninit =
        ({ d3 with dec := some ((sampleEnv.decompress s0 rec1).2, 1) }).parseHtmlHead
          sampleEnv.counting (d3.decodeString sampleEnv.counting (sampleEnv.decompress s0 rec1).1)) ∧
      (n = 0 → Document.ctorD sampleEnv.counting drmStream zeroUninit = d3 ∧
        (Document.ctorD sampleEnv.counting drmStream zeroUninit).dec = some (s0, 0)) ∧
      (Document.hasDRM (Document.ctorD sampleEnv.counting drmStream zeroUninit) = true →
        n = 0 ∧ Document.metadata (Document.ctorD sampleEnv.counting drmStream zeroUninit) =
          d3.metadata) :=
  ⟨ctor_of_isSome sampleEnv.counting drmStream zeroUninit (by decide), by decide, by decide,
    by decide, by decide,
    C10_fallback_gate sampleEnv drmStream zeroUninit _
      (ctor_of_isSome sampleEnv.counting drmStream zeroUninit (by decide)) (by decide)⟩

section
variable {σ Img : Type}

/-- The DRM flag of a constructed document is the one set at line 148. -/
theorem ctor_drm (E : Env σ Img) (dev : QByteArray) (u : Uninit) (d : DocumentPrivate σ)
    (mhead : QByteArray) (hd : Document.ctor E dev u = some d)
    (hm : PDB.getRecord (PDB.ctor E dev u) 0 = some mhead) :
    d.drm = (byteRef mhead 12 != 0 || byteRef mhead 13 != 0) := by
  obtain ⟨mhead2, hm2, heq⟩ := ctor_eq E dev u
  rw [hm] at hm2
  injection hm2 with hm2
  subst hm2
  rw [hd] at heq
  obtain ⟨_, _, _, _, _, _, _, _, f9⟩ := initFlags_fields E (DocumentPrivate.ctor E dev u) mhead
  have hfalse : (DocumentPrivate.ctor E dev u).drm = false := rfl
  rw [hfalse, Bool.false_or] at f9
  split at heq
  · injection heq with heq
    subst heq
    exact f9
  · rename_i s hs
    split at heq
    · exact absurd heq (by simp)
    · rename_i d3 h3
      obtain ⟨_, b2, _, b4, _⟩ := initParse_base E _ d3 mhead h3
      obtain ⟨_, _, c3, _⟩ := initFallback_fields E s d3 d heq.symm (b2.trans hs)
      rw [c3, b4]
      exact f9

theorem byteRef_of_getElem (a : QByteArray) (i : Nat) (b : UInt8) (h : a[i]? = some b) :
    byteRef a i = b := by
  simp [byteRef, List.getD, h]

theorem drm_flag_iff (b12 b13 : UInt8) :
    ((b12 != 0 || b13 != 0) = true) ↔ (b12 ≠ 0 ∨ b13 ≠ 0) := by
  simp

/-- C11. For every stream whose record 0 holds bytes 12 and 13: the DRM flag that
line 148 of `init` leaves is true exactly when at least one of the two bytes is
non-zero, and for every document that the construction yields, `hasDRM()` is
true exactly when at least one of the two bytes is non-zero. -/
theorem C11_drm_either_byte (E : Env σ Img) (dev : QByteArray) (u : Uninit)
    (mhead : QByteArray) (b12 b13 : UInt8)
    (hm : PDB.getRecord (PDB.ctor E dev u) 0 = some mhead)
    (h12 : mhead[12]? = some b12) (h13 : mhead[13]? = some b13) :
    ((initFlags E (DocumentPrivate.ctor E dev u) mhead).drm = true ↔ (b12 ≠ 0 ∨ b13 ≠ 0)) ∧
    ∀ d, Document.ctor E dev u = some d → (Document.hasDRM d = true ↔ (b12 ≠ 0 ∨ b13 ≠ 0)) := by
  have e12 := byteRef_of_getElem mhead 12 b12 h12
  have e13 := byteRef_of_getElem mhead 13 b13 h13
  constructor
  · have f9 := (initFlags_fields E (DocumentPrivate.ctor E dev u) mhead).2.2.2.2.2.2.2.2
    have hfalse : (DocumentPrivate.ctor E dev u).drm = false := rfl
    rw [hfalse, Bool.false_or, e12, e13] at f9
    rw [f9]
    exact drm_flag_iff b12 b13
  · intro d hd
    have h := ctor_drm E dev u d mhead hd hm
    rw [e12, e13] at h
    simp only [Document.hasDRM, h]
    exact drm_flag_iff b12 b13

/-- C19, as amended. For every constructed document whose record 0 holds bytes 12
and 13: `hasDRM()` is true when both bytes are non-zero, and also when only
byte 12 or only byte 13 is; it is false exactly when both bytes are zero. -/
theorem C19_drm_not_both (E : Env σ Img) (dev : QByteArray) (u : Uninit)
    (d : DocumentPrivate σ) (mhead : QByteArray) (b12 b13 : UInt8)
    (hd : Document.ctor E dev u = some d)
    (hm : PDB.getRecord (PDB.ctor E dev u) 0 = some mhead)
    (h12 : mhead[12]? = some b12) (h13 : mhead[13]? = some b13) :
    (b12 ≠ 0 ∧ b13 ≠ 0 → Document.hasDRM d = true) ∧
    (b12 ≠ 0 → Document.hasDRM d = true) ∧ (b13 ≠ 0 → Document.hasDRM d = true) ∧
    (Document.hasDRM d = false ↔ (b12 = 0 ∧ b13 = 0)) := by
  have h := ctor_drm E dev u d mhead hd hm
  rw [byteRef_of_getElem mhead 12 b12 h12, byteRef_of_getElem mhead 13 b13 h13] at h
  simp only [Document.hasDRM, h]
  refine ⟨?_, ?_, ?_, ?_⟩
  · intro hb; simp [hb.1]
  · intro hb; simp [hb]
  · intro hb; simp [hb]
  · simp

/-- The text record count of a valid constructed document is the 16-bit value of
bytes 8 and 9 of record 0, which is at least 32 bytes long. -/
theorem ctor_ntextrecords (E : Env σ Img) (dev : QByteArray) (u : Uninit)
    (d : DocumentPrivate σ) (mhead : QByteArray) (hd : Document.ctor E dev u = some d)
    (hv : d.valid = true) (hm : PDB.getRecord (PDB.ctor E dev u) 0 = some mhead) :
    32 ≤ mhead.length ∧
    d.ntextrecords = 256 * (byteRef mhead 8).toNat + (byteRef mhead 9).toNat := by
  obtain ⟨mhead2, s, d3, hm2, hs, h3, hf, hdec, hpdb⟩ := ctor_valid_eq E dev u d hd hv
  rw [hm] at hm2
  injection hm2 with hm2
  subst hm2
  have hn := (initFallback_fields E s d3 d hf hdec).2.2.2.2.1
  unfold initParse at h3
  split at h3
  · exact absurd h3 (by simp)
  rename_i d2 h2
  have hn3 : d3.ntextrecords = d2.ntextrecords := by
    split_ifs at h3
    · exact (parseEXTH_base E d2 d3 mhead h3).2.2
    · injection h3 with h3
      rw [h3]
  unfold initEncoding at h2
  simp only [] at h2
  split at h2
  · exact absurd h2 (by simp)
  rename_i enc henc
  have hlen : 32 ≤ mhead.length := by
    unfold readBELong at henc
    split_ifs at henc with hc
    have : ¬ ((28 : Int) + 4 > (mhead.length : Int)) := fun h => hc (Or.inr h)
    omega
  have h8 : (byteRef mhead 8).toNat < 256 := (byteRef mhead 8).toNat_lt
  have h9 : (byteRef mhead 9).toNat < 256 := (byteRef mhead 9).toNat_lt
  have hn2 : d2.ntextrecords =
      ((byteRef mhead 8).toNat * 256 % 2 ^ 16 + (byteRef mhead 9).toNat) % 2 ^ 16 := by
    injection h2 with h2
    rw [← h2]
    split_ifs <;> rfl
  refine ⟨hlen, ?_⟩
  rw [hn, hn3, hn2]
  norm_num
  omega

/-- C12. For every valid document: record 0 holds bytes 8 and 9, the text record
count is `256*b8 + b9`, and `imageCount()` is the integer difference
`recordCount - (256*b8 + b9)`; no clamping is applied, the difference is an
integer and may be negative. -/
theorem C12_imageCount (E : Env σ Img) (dev : QByteArray) (u : Uninit)
    (d : DocumentPrivate σ) (mhead : QByteArray) (hd : Document.ctor E dev u = some d)
    (hv : Document.isValid d = true)
    (hm : PDB.getRecord (PDB.ctor E dev u) 0 = some mhead) :
    ∃ b8 b9 : UInt8, mhead[8]? = some b8 ∧ mhead[9]? = some b9 ∧
      d.ntextrecords = 256 * b8.toNat + b9.toNat ∧
      Document.imageCount d =
        PDB.recordCount (PDB.ctor E dev u) - ((256 * b8.toNat + b9.toNat : Nat) : Int) := by
  obtain ⟨hlen, hn⟩ := ctor_ntextrecords E dev u d mhead hd hv hm
  have hpdb := (ctor_facts E dev u d hd).1
  have h8 : 8 < mhead.length := by omega
  have h9 : 9 < mhead.length := by omega
  refine ⟨mhead[8], mhead[9], List.getElem?_eq_getElem h8, List.getElem?_eq_getElem h9, ?_, ?_⟩
  · rw [hn, byteRef_of_getElem mhead 8 _ (List.getElem?_eq_getElem h8),
      byteRef_of_getElem mhead 9 _ (List.getElem?_eq_getElem h9)]
  · simp only [Document.imageCount, hpdb]
    rw [hn, byteRef_of_getElem mhead 8 _ (List.getElem?_eq_getElem h8),
      byteRef_of_getElem mhead 9 _ (List.getElem?_eq_getElem h9)]

/-- The container flag `valid` is set on entry of `PDBPrivate::init` and never
cleared, so the test at
lines 144-145 never fires: a document is invalid after construction only when
the strategy lookup fails. -/
theorem container_valid_document_iff (E : Env σ Img) (dev : QByteArray) (u : Uninit) :
    PDB.isValid (PDB.ctor E dev u) = true ∧
    ∀ d mhead, Document.ctor E dev u = some d →
      PDB.getRecord (PDB.ctor E dev u) 0 = some mhead →
      (Document.isValid d = false ↔ E.create (byteRef mhead 1) (PDB.ctor E dev u) = none) := by
  refine ⟨rfl, ?_⟩
  intro d mhead hd hm
  obtain ⟨mhead2, hm2, heq⟩ := ctor_eq E dev u
  rw [hm] at hm2
  injection hm2 with hm2
  subst hm2
  rw [hd] at heq
  obtain ⟨f1, f2, f3, _⟩ := initFlags_fields E (DocumentPrivate.ctor E dev u) mhead
  have f2b : (initFlags E (DocumentPrivate.ctor E dev u) mhead).dec =
      E.create (byteRef mhead 1) (PDB.ctor E dev u) := f2
  split at heq
  · rename_i hnone
    injection heq with heq
    subst heq
    rw [← f2b, hnone]
    simp [Document.isValid]
  · rename_i s hs
    split at heq
    · exact absurd heq (by simp)
    · rename_i d3 h3
      obtain ⟨_, b2, b3, _⟩ := initParse_base E _ d3 mhead h3
      obtain ⟨_, c2, _⟩ := initFallback_fields E s d3 d heq.symm (b2.trans hs)
      have hvalid : d.valid = true := by
        rw [c2, b3, f3]
        rfl
      rw [← f2b, hs]
      simp [Document.isValid, hvalid]

end

theorem deviceRead_length_le (dev : QByteArray) (pos n : Nat) :
    (deviceRead dev pos n).length ≤ INT_MAX := by
  simp only [deviceRead, List.length_take]
  omega

/-- A record never exceeds the size limit of a byte array. -/
theorem getRecord_length_le (d : PDBPrivate) (i : Int) (r : QByteArray)
    (h : PDB.getRecord d i = some r) : r.length ≤ INT_MAX := by
  unfold PDB.getRecord at h
  split_ifs at h
  · injection h with h
    rw [← h]
    simp
  · split at h
    · exact absurd h (by simp)
    · simp only [] at h
      split_ifs at h
      · injection h with h
        rw [← h]
        exact deviceRead_length_le _ _ _
      · split at h
        · exact absurd h (by simp)
        · injection h with h
          rw [← h]
          exact deviceRead_length_le _ _ _

/-- A slice that lies within the array, cut out with `mid`. -/
theorem mid_slice (a : QByteArray) (pos len : Nat) (h : pos + len ≤ a.length)
    (hsize : a.length ≤ INT_MAX) :
    mid a (pos : Int) (len : Int) = some ((a.drop pos).take len) := by
  have hsplit : a = a.take pos ++ (a.drop pos).take len ++ (a.drop pos).drop len := by
    rw [List.append_assoc, List.take_append_drop, List.take_append_drop]
  have hl1 : (a.take pos).length = pos := by
    rw [List.length_take]; omega
  have hl2 : ((a.drop pos).take len).length = len := by
    rw [List.length_take, List.length_drop]; omega
  have hm := mid_append (a.take pos) ((a.drop pos).take len) ((a.drop pos).drop len)
    (by rw [← hsplit]; exact hsize)
  rw [← hsplit, hl1, hl2] at hm
  exact hm

section
variable {σ Img : Type}

/-- C18. For every header record longer than 176 bytes in which the four bytes
that `mid` yields at offset `readBE32(data,20)+16` are not the tag `EXTH` (beyond
the record they are the empty array): the EXTH part of `parseEXTH` (from line
206) returns at once, without a cursor and with the document untouched; hence,
for every document on which the full-name block is defined, the call of
`parseEXTH` at line 158 is defined and ends with the document the full-name
block left, in which Author, Description, Subject and Copyright are as before
the parse, `thumbnailIndex` is as before (0 in `init`), and the validity is
unchanged. -/
theorem C18_no_exth_tag (E : Env σ Img) (d1 : DocumentPrivate σ) (data tag : QByteArray)
    (v : Nat) (hlen : data.length > 176)
    (hv : readBELong data 20 = some v)
    (hmid : mid data (toInt ((v + 16) % 2 ^ 32)) 4 = some tag) (htag : tag ≠ exthTag) :
    parseEXTHRecords E d1 data = some (d1, none) ∧
    ((data.length : Int) ≤ toInt ((v + 16) % 2 ^ 32) → tag = []) ∧
    ∀ d : DocumentPrivate σ, parseFullName E d data = some d1 →
      (if data.length > 176 then d.parseEXTH E data else some d) = some d1 ∧
      d1.metadata MetaKey.Author = d.metadata MetaKey.Author ∧
      d1.metadata MetaKey.Description = d.metadata MetaKey.Description ∧
      d1.metadata MetaKey.Subject = d.metadata MetaKey.Subject ∧
      d1.metadata MetaKey.Copyright = d.metadata MetaKey.Copyright ∧
      d1.thumbnailIndex = d.thumbnailIndex ∧ d1.valid = d.valid := by
  have hrec : parseEXTHRecords E d1 data = some (d1, none) := by
    unfold parseEXTHRecords
    simp only [hv, hmid, ne_eq, htag, not_false_eq_true, if_true]
  refine ⟨hrec, ?_, ?_⟩
  · intro hbeyond
    unfold mid at hmid
    have hd : decide (toInt ((v + 16) % 2 ^ 32) ≥ (data.length : Int)) = true :=
      decide_eq_true hbeyond
    simp only [hd, Bool.or_true, if_true, Option.some.injEq] at hmid
    exact hmid.symm
  · intro d hname
    obtain ⟨⟨_, _, b3, _, _⟩, _, _, b8, b9⟩ := parseFullName_base E d d1 data hname
    refine ⟨?_, b9 _ (by decide), b9 _ (by decide), b9 _ (by decide), b9 _ (by decide), b8, b3⟩
    simp only [hlen, if_true, DocumentPrivate.parseEXTH, hname, hrec]

end

section
variable {σ Img : Type}

/-- The full-name block on a header whose name range ends before the end of the
record: Title becomes the decoded bytes of the range. -/
theorem parseFullName_inside (E : Env σ Img) (d : DocumentPrivate σ) (data : QByteArray)
    (nameoffset namelen : Nat) (hlen : data.length ≥ 92) (hsize : data.length ≤ INT_MAX)
    (ho : readBELong data 84 = some nameoffset) (hl : readBELong data 88 = some namelen)
    (hin : nameoffset + namelen < data.length) :
    parseFullName E d data = some { d with metadata :=
      (MetaMap.insert d.metadata MetaKey.Title
        (d.decodeString E ((data.drop nameoffset).take namelen))) } := by
  simp only [INT_MAX] at hsize
  have h1 : (nameoffset + namelen) % 2 ^ 32 < data.length % 2 ^ 32 := by
    rw [Nat.mod_eq_of_lt (by norm_num; omega), Nat.mod_eq_of_lt (by norm_num; omega)]
    exact hin
  have h2 : toInt nameoffset = (nameoffset : Int) := toInt_of_lt _ (by norm_num; omega)
  have h3 : toInt namelen = (namelen : Int) := toInt_of_lt _ (by norm_num; omega)
  have h4 := mid_slice data nameoffset namelen (by omega) (by simp only [INT_MAX]; exact hsize)
  simp only [parseFullName, hlen, if_true, ho, hl, h1, h2, h3, h4]

/-- Line 161 keeps a Title that is set. -/
theorem initFallback_title_kept (E : Env σ Img) (s : σ) (d3 d : DocumentPrivate σ) (v : QString)
    (hf : initFallback E s d3 = some d) (hT : d3.metadata MetaKey.Title = some v) :
    d.metadata MetaKey.Title = some v := by
  unfold initFallback at hf
  split_ifs at hf
  · split at hf
    · exact absurd hf (by simp)
    · injection hf with hf
      rw [← hf, parseHtmlHead_title]
      simp only [hT]
  · injection hf with hf
    rw [← hf, hT]

/-- C16, as amended. For every valid document whose record 0 is longer than 176
bytes: if the sum of the offset at position 84 and the length at position 88 is
less than the size of record 0, then the full-name block sets Title to the
decoded bytes `data[nameoffset .. nameoffset+namelen)` before any EXTH record is
processed (no other key is set and the thumbnail index is 0 at that point), and
after construction `metadata()[Title]` is that value. -/
theorem C16_full_name_title (E : Env σ Img) (dev : QByteArray) (u : Uninit)
    (d : DocumentPrivate σ) (mhead : QByteArray) (nameoffset namelen : Nat)
    (hd : Document.ctor E dev u = some d) (hv : Document.isValid d = true)
    (hm : PDB.getRecord (PDB.ctor E dev u) 0 = some mhead) (hlen : mhead.length > 176)
    (ho : readBELong mhead 84 = some nameoffset) (hl : readBELong mhead 88 = some namelen)
    (hin : nameoffset + namelen < mhead.length) :
    (∃ d2 dn, initEncoding (initFlags E (DocumentPrivate.ctor E dev u) mhead) mhead = some d2 ∧
      parseFullName E d2 mhead = some dn ∧
      dn.metadata MetaKey.Title =
        some (d.decodeString E ((mhead.drop nameoffset).take namelen)) ∧
      (∀ k, k ≠ MetaKey.Title → dn.metadata k = none) ∧ dn.thumbnailIndex = 0) ∧
    Document.metadata d MetaKey.Title =
      some (d.decodeString E ((mhead.drop nameoffset).take namelen)) := by
  obtain ⟨mhead2, s, d3, hm2, hs, h3, hf, hdec, hpdb⟩ := ctor_valid_eq E dev u d hd hv
  rw [hm] at hm2
  injection hm2 with hm2
  subst hm2
  have hsize := getRecord_length_le _ _ _ hm
  have hutf : d.isUtf = d3.isUtf := (initFallback_fields E s d3 d hf hdec).2.2.2.1
  unfold initParse at h3
  split at h3
  · exact absurd h3 (by simp)
  rename_i d2 h2
  simp only [hlen, if_true] at h3
  have hname := parseFullName_inside E d2 mhead nameoffset namelen (by omega) hsize ho hl hin
  have h3b := h3
  unfold DocumentPrivate.parseEXTH at h3b
  rw [hname] at h3b
  simp only [] at h3b
  split at h3b
  · exact absurd h3b (by simp)
  rename_i r hr
  injection h3b with h3b
  obtain ⟨_, _, _, _, c5, _, _, c8⟩ := parseEXTHRecords_core E _ mhead r hr
  rw [h3b] at c5 c8
  simp only at c5 c8
  have hdecode : d.decodeString E = d2.decodeString E := by
    funext bytes
    exact decodeString_congr E d2 d (by rw [hutf, c5]) bytes
  have hmeta2 : d2.metadata = MetaMap.empty :=
    (initEncoding_fields _ d2 mhead h2).2.1.trans (initFlags_fields E _ mhead).2.2.2.2.1
  have hthumb2 : d2.thumbnailIndex = 0 :=
    (initEncoding_fields _ d2 mhead h2).2.2.trans (initFlags_fields E _ mhead).2.2.2.2.2.2.1
  have hT3 : d3.metadata MetaKey.Title =
      some (d.decodeString E ((mhead.drop nameoffset).take namelen)) := by
    rw [c8, hdecode]
    simp [MetaMap.insert]
  refine ⟨⟨d2, _, h2, hname, ?_, ?_, hthumb2⟩, ?_⟩
  · rw [hdecode]
    simp [MetaMap.insert]
  · intro k hk
    simp only [MetaMap.insert, hk, if_false, hmeta2]
    rfl
  · exact initFallback_title_kept E s d3 d _ hf hT3

end

theorem beValue_foldl_lt (bs : QByteArray) :
    ∀ acc : Nat, bs.foldl (fun a b => a * 256 + b.toNat) acc + 1 ≤ (acc + 1) * 256 ^ bs.length := by
  induction bs with
  | nil => intro acc; simp
  | cons b bs ih =>
    intro acc
    have hb : b.toNat < 256 := b.toNat_lt
    have h := ih (acc * 256 + b.toNat)
    simp only [List.foldl_cons, List.length_cons, pow_succ]
    calc bs.foldl (fun a b => a * 256 + b.toNat) (acc * 256 + b.toNat) + 1
        ≤ (acc * 256 + b.toNat + 1) * 256 ^ bs.length := h
      _ ≤ ((acc + 1) * 256) * 256 ^ bs.length := by
          apply Nat.mul_le_mul_right
          omega
      _ = (acc + 1) * (256 ^ bs.length * 256) := by ring

/-- The big-endian value of at most `n` bytes is below `256 ^ n`. -/
theorem beValue_take_lt (bs : QByteArray) (n : Nat) : beValue (bs.take n) < 256 ^ n := by
  have h := beValue_foldl_lt (bs.take n) 0
  have hlen : (bs.take n).length ≤ n := by
    rw [List.length_take]; omega
  have hpow : 256 ^ (bs.take n).length ≤ 256 ^ n := Nat.pow_le_pow_right (by decide) hlen
  simp only [beValue]
  omega

theorem ctor_nrecords_lt {σ Img : Type} (E : Env σ Img) (dev : QByteArray) (u : Uninit) :
    (PDB.ctor E dev u).nrecords < 65536 := by
  have h := beValue_take_lt (deviceReadInto dev 0x4c u.word 2).1 2
  simpa [PDB.ctor, PDBPrivate.init] using h

theorem readOffsets_lt (dev : QByteArray) (n : Nat) :
    ∀ (pos : Nat) (dword : QByteArray) (acc : List Nat), (∀ o ∈ acc, o < 2 ^ 32) →
      ∀ o ∈ readOffsets dev n pos dword acc, o < 2 ^ 32 := by
  induction n with
  | zero => intro pos dword acc h; simpa [readOffsets] using h
  | succ n ih =>
    intro pos dword acc h
    simp only [readOffsets]
    apply ih
    intro o ho
    rw [List.mem_append] at ho
    rcases ho with ho | ho
    · exact h o ho
    · simp only [List.mem_singleton] at ho
      rw [ho]
      have := beValue_take_lt (deviceReadInto dev pos dword 4).1 4
      norm_num at this ⊢
      exact this

theorem ctor_offsets_lt {σ Img : Type} (E : Env σ Img) (dev : QByteArray) (u : Uninit) :
    ∀ o ∈ (PDB.ctor E dev u).recordOffsets, o < 2 ^ 32 := by
  simp only [PDB.ctor, PDBPrivate.init]
  exact readOffsets_lt dev _ _ _ [] (by simp)

/-- In a well-formed container every record but the last is defined and holds
at least one byte. -/
theorem getRecord_nonempty {σ Img : Type} (E : Env σ Img) (dev : QByteArray) (u : Uninit)
    (hwf : PDB.WellFormed (PDB.ctor E dev u)) (j : Nat)
    (hj : j + 1 < (PDB.ctor E dev u).nrecords) :
    ∃ rec, PDB.getRecord (PDB.ctor E dev u) j = some rec ∧ rec ≠ [] := by
  obtain ⟨_, hp, hlast⟩ := hwf
  have hlen := ctor_offsets_length E dev u
  obtain ⟨off, hoff, _, h2⟩ := getRecord_lt _ hlen j (by omega)
  obtain ⟨next, hnext, hrec⟩ := h2 hj
  rw [ctor_device] at hrec hlast
  have hne : (PDB.ctor E dev u).recordOffsets.getLast? ≠ none := by
    rw [List.getLast?_eq_getElem?]
    intro hnone
    rw [List.getElem?_eq_none_iff] at hnone
    omega
  obtain ⟨y, hy⟩ := Option.ne_none_iff_exists'.mp hne
  have hyle : y ≤ dev.length := hlast y hy
  have hlt := pairwise_lt_next _ hp j off next hoff hnext
  have hle := pairwise_le_last _ hp (j + 1) next y hnext hy
  have hnext32 : next < 2 ^ 32 := ctor_offsets_lt E dev u next (List.getElem?_mem hnext)
  refine ⟨_, hrec, ?_⟩
  intro hempty
  have hl := congrArg List.length hempty
  have h1 : (((next : Int) - (off : Int)) % 2 ^ 32).toNat = next - off := by
    norm_num at hnext32 ⊢
    omega
  simp only [deviceRead, h1, List.length_take, List.length_drop, INT_MAX, List.length_nil] at hl
  omega

section
variable {σ Img : Type}

/-- The recording loop returns the same record index as the loop itself. -/
theorem findFirstImageScan_fst (E : Env σ Img) (pdb : PDBPrivate) (fuel : Nat) :
    ∀ fir : Nat, (findFirstImageScan E pdb fuel fir).map Prod.fst =
      findFirstImageLoop E pdb fuel fir := by
  induction fuel with
  | zero => intro fir; rfl
  | succ fuel ih =>
    intro fir
    simp only [findFirstImageScan, findFirstImageLoop]
    split_ifs with hc
    · cases hrec : PDB.getRecord pdb (fir : Int) with
      | none => rfl
      | some rec =>
        simp only []
        split_ifs
        · rfl
        · rfl
        · rw [← ih]
          simp only [Option.map_map]
          rfl
    · rfl

/-- The scan from `fir` in a container whose records before the last are
non-empty: it ends, whatever fuel beyond the number of records left it is
given, at an index not below `fir`; it hands the image reader only records from
`fir` on; and it ends at the first record the reader accepts, if there is one. -/
theorem findFirstImageScan_spec (E : Env σ Img) (pdb : PDBPrivate)
    (hlen : pdb.recordOffsets.length = pdb.nrecords) (hn : pdb.nrecords < 65536)
    (hne : ∀ j : Nat, j + 1 < pdb.nrecords →
      ∃ rec, PDB.getRecord pdb (j : Int) = some rec ∧ rec ≠ [])
    (m : Nat) :
    ∀ fir : Nat, pdb.nrecords - fir ≤ m →
      ∃ r trace, (∀ fuel, m < fuel → findFirstImageScan E pdb fuel fir = some (r, trace)) ∧
        fir ≤ r ∧ (∀ j ∈ trace, fir ≤ j ∧ j < pdb.nrecords) ∧
        (∀ (j : Nat) (rec : QByteArray), fir ≤ j → j < pdb.nrecords →
          PDB.getRecord pdb (j : Int) = some rec → E.canRead rec = true →
          (∀ (k : Nat) (rec2 : QByteArray), fir ≤ k → k < j →
            PDB.getRecord pdb (k : Int) = some rec2 → E.canRead rec2 = false) →
          r = j) := by
  induction m with
  | zero =>
    intro fir hm
    have hge : ¬ ((fir : Int) < PDB.recordCount pdb) := by
      simp only [PDB.recordCount]; omega
    refine ⟨fir, [], ?_, le_refl _, by simp, ?_⟩
    · intro fuel hf
      obtain ⟨f, rfl⟩ : ∃ f, fuel = f + 1 := ⟨fuel - 1, by omega⟩
      simp only [findFirstImageScan, hge, if_false]
    · intro j rec hj1 hj2
      omega
  | succ m ih =>
    intro fir hm
    by_cases hc : (fir : Int) < PDB.recordCount pdb
    · have hlt : fir < pdb.nrecords := by
        simp only [PDB.recordCount] at hc; omega
      obtain ⟨rec, hrec⟩ := getRecord_isSome pdb hlen fir
      by_cases hempty : rec.isEmpty = true
      · refine ⟨fir, [], ?_, le_refl _, by simp, ?_⟩
        · intro fuel hf
          obtain ⟨f, rfl⟩ : ∃ f, fuel = f + 1 := ⟨fuel - 1, by omega⟩
          simp only [findFirstImageScan, hc, if_true, hrec, hempty]
        · intro j rec2 hj1 hj2 _ _ _
          by_contra hne2
          obtain ⟨rec3, hrec3, hne3⟩ := hne fir (by omega)
          rw [hrec] at hrec3
          injection hrec3 with hrec3
          subst hrec3
          exact hne3 (List.isEmpty_iff.mp hempty)
      · by_cases hcan : E.canRead rec = true
        · refine ⟨fir, [fir], ?_, le_refl _, ?_, ?_⟩
          · intro fuel hf
            obtain ⟨f, rfl⟩ : ∃ f, fuel = f + 1 := ⟨fuel - 1, by omega⟩
            simp only [findFirstImageScan, hc, if_true, hrec, hempty, hcan, Bool.false_eq_true,
              if_false]
          · intro j hj
            simp only [List.mem_singleton] at hj
            omega
          · intro j rec2 hj1 hj2 _ _ hmin
            by_contra hne2
            have := hmin fir rec (le_refl _) (by omega) hrec
            rw [hcan] at this
            exact absurd this (by simp)
        · have hmod : (fir + 1) % 2 ^ 16 = fir + 1 := Nat.mod_eq_of_lt (by norm_num; omega)
          obtain ⟨r, trace, hrun, hle, htrace, hmin⟩ := ih (fir + 1) (by omega)
          refine ⟨r, fir :: trace, ?_, by omega, ?_, ?_⟩
          · intro fuel hf
            obtain ⟨f, rfl⟩ : ∃ f, fuel = f + 1 := ⟨fuel - 1, by omega⟩
            simp only [findFirstImageScan, hc, if_true, hrec, hempty, hcan, Bool.false_eq_true,
              if_false, hmod, hrun f (by omega), Option.map_some']
          · intro j hj
            rw [List.mem_cons] at hj
            rcases hj with hj | hj
            · omega
            · have := htrace j hj
              omega
          · intro j rec2 hj1 hj2 hrec2 hcan2 hprev
            have hjne : j ≠ fir := by
              intro heq
              subst heq
              rw [hrec] at hrec2
              injection hrec2 with hrec2
              subst hrec2
              exact hcan hcan2
            exact hmin j rec2 (by omega) hj2 hrec2 hcan2
              (fun k rec3 hk1 hk2 => hprev k rec3 (by omega) hk2)
    · refine ⟨fir, [], ?_, le_refl _, by simp, ?_⟩
      · intro fuel hf
        obtain ⟨f, rfl⟩ : ∃ f, fuel = f + 1 := ⟨fuel - 1, by omega⟩
        simp only [findFirstImageScan, hc, if_false]
      · intro j rec hj1 hj2
        simp only [PDB.recordCount] at hc
        omega

/-- C13, as amended. For every document over a well-formed constructed container
whose text record count is below 65535 (so that `textRecordCount + 1` fits the
16-bit `firstImageRecord`), and every image reader: `findFirstImage` is defined
and ends, with the same result for every amount of fuel above the record count;
the records it hands to the image reader all have an index from
`textRecordCount + 1` on; the result is not below `textRecordCount + 1`; and if
some index `j` with `textRecordCount + 1 <= j < recordCount` holds a record the
reader accepts and no smaller index from `textRecordCount + 1` on does,
`firstImageRecord` is left equal to `j`. -/
theorem C13_findFirstImage (E : Env σ Img) (dev : QByteArray) (u : Uninit)
    (d : DocumentPrivate σ) (hpdb : d.pdb = PDB.ctor E dev u) (hwf : PDB.WellFormed d.pdb)
    (hn : d.ntextrecords < 65535) :
    ∃ fir trace,
      d.findFirstImage E = some { d with firstImageRecord := fir } ∧
      (∀ fuel, d.pdb.nrecords < fuel →
        findFirstImageScan E d.pdb fuel (d.ntextrecords + 1) = some (fir, trace) ∧
        findFirstImageLoop E d.pdb fuel (d.ntextrecords + 1) = some fir) ∧
      (∀ j ∈ trace, d.ntextrecords + 1 ≤ j ∧ j < d.pdb.nrecords) ∧
      d.ntextrecords + 1 ≤ fir ∧
      (∀ (j : Nat) (rec : QByteArray), d.ntextrecords + 1 ≤ j → j < d.pdb.nrecords →
        PDB.getRecord d.pdb (j : Int) = some rec → E.canRead rec = true →
        (∀ (k : Nat) (rec2 : QByteArray), d.ntextrecords + 1 ≤ k → k < j →
          PDB.getRecord d.pdb (k : Int) = some rec2 → E.canRead rec2 = false) →
        fir = j) := by
  have hlen : d.pdb.recordOffsets.length = d.pdb.nrecords := by
    rw [hpdb]; exact ctor_offsets_length E dev u
  have hnr : d.pdb.nrecords < 65536 := by
    rw [hpdb]; exact ctor_nrecords_lt E dev u
  have hne : ∀ j : Nat, j + 1 < d.pdb.nrecords →
      ∃ rec, PDB.getRecord d.pdb (j : Int) = some rec ∧ rec ≠ [] := by
    intro j hj
    rw [hpdb] at hj hwf ⊢
    exact getRecord_nonempty E dev u hwf j hj
  obtain ⟨fir, trace, hrun, hle, htrace, hmin⟩ :=
    findFirstImageScan_spec E d.pdb hlen hnr hne d.pdb.nrecords (d.ntextrecords + 1) (by omega)
  have hloop : ∀ fuel, d.pdb.nrecords < fuel →
      findFirstImageLoop E d.pdb fuel (d.ntextrecords + 1) = some fir := by
    intro fuel hf
    rw [← findFirstImageScan_fst, hrun fuel hf]
    rfl
  have hmod : (d.ntextrecords + 1) % 2 ^ 16 = d.ntextrecords + 1 :=
    Nat.mod_eq_of_lt (by norm_num; omega)
  refine ⟨fir, trace, ?_, fun fuel hf => ⟨hrun fuel hf, hloop fuel hf⟩, htrace, hle, hmin⟩
  simp only [DocumentPrivate.findFirstImage, hmod, hloop (d.pdb.nrecords + 1) (by omega)]

end

section
variable {σ Img : Type}

/-- The scan never ends below the index it starts from. -/
theorem findFirstImageLoop_ge (E : Env σ Img) (pdb : PDBPrivate) (hn : pdb.nrecords < 65536)
    (fuel : Nat) :
    ∀ fir r : Nat, findFirstImageLoop E pdb fuel fir = some r → fir ≤ r := by
  induction fuel with
  | zero => intro fir r h; exact absurd h (by simp [findFirstImageLoop])
  | succ fuel ih =>
    intro fir r h
    simp only [findFirstImageLoop] at h
    split_ifs at h with hc
    · split at h
      · exact absurd h (by simp)
      · split_ifs at h
        · injection h with h; omega
        · injection h with h; omega
        · have hlt : fir < pdb.nrecords := by
            simp only [PDB.recordCount] at hc; omega
          have hmod : (fir + 1) % 2 ^ 16 = fir + 1 := Nat.mod_eq_of_lt (by norm_num; omega)
          rw [hmod] at h
          have := ih _ _ h
          omega
    · injection h with h; omega

/-- The first line of the accessors: what it leaves. -/
theorem resolveFirstImage_spec (E : Env σ Img) (d d1 : DocumentPrivate σ)
    (hnr : d.pdb.nrecords < 65536) (hn : d.ntextrecords < 65535)
    (h : resolveFirstImage E d = some d1) :
    d1.firstImageRecord ≠ 0 ∧ d1.pdb = d.pdb ∧ d1.ntextrecords = d.ntextrecords ∧
      d1.thumbnailIndex = d.thumbnailIndex := by
  unfold resolveFirstImage at h
  split_ifs at h with h0
  · unfold DocumentPrivate.findFirstImage at h
    split at h
    · exact absurd h (by simp)
    · rename_i r hr
      injection h with h
      subst h
      have hmod : (d.ntextrecords + 1) % 2 ^ 16 = d.ntextrecords + 1 :=
        Nat.mod_eq_of_lt (by norm_num; omega)
      rw [hmod] at hr
      have := findFirstImageLoop_ge E d.pdb hnr _ _ _ hr
      refine ⟨?_, rfl, rfl, rfl⟩
      simp only
      omega
  · injection h with h
    subst h
    exact ⟨h0, rfl, rfl, rfl⟩

/-- An accessor call leaves the document that its first line produced. -/
theorem run_resolve (E : Env σ Img) (d d1 : DocumentPrivate σ) (c : ImageCall) (img : Img)
    (h : c.run E d = some (img, d1)) : resolveFirstImage E d = some d1 := by
  cases c with
  | getImage i =>
    simp only [ImageCall.run, Document.getImage] at h
    split at h
    · exact absurd h (by simp)
    · rename_i d2 h2
      split at h
      · exact absurd h (by simp)
      · split at h
        · exact absurd h (by simp)
        · injection h with h
          injection h with _ h
          rw [h2, h]
  | thumbnail =>
    simp only [ImageCall.run, Document.thumbnail] at h
    split at h
    · exact absurd h (by simp)
    · rename_i d2 h2
      split at h
      · exact absurd h (by simp)
      · split at h
        · exact absurd h (by simp)
        · injection h with h
          injection h with _ h
          rw [h2, h]

/-- Once `firstImageRecord` is not 0, the first line of the accessors does
nothing, whatever the environment. -/
theorem resolveFirstImage_resolved (E : Env σ Img) (d : DocumentPrivate σ)
    (h : d.firstImageRecord ≠ 0) : resolveFirstImage E d = some d := by
  simp only [resolveFirstImage, h, if_false]

/-- Calls on a document whose `firstImageRecord` is not 0 neither change it nor
run the scan. -/
theorem runCalls_resolved (E : Env σ Img) (d : DocumentPrivate σ)
    (h : d.firstImageRecord ≠ 0) (cs : List ImageCall) :
    ∀ (dn : DocumentPrivate σ) (n : Nat), runCalls E d cs = some (dn, n) → dn = d ∧ n = 0 := by
  induction cs with
  | nil =>
    intro dn n hr
    simp only [runCalls, Option.some.injEq, Prod.mk.injEq] at hr
    exact ⟨hr.1.symm, hr.2.symm⟩
  | cons c cs ih =>
    intro dn n hr
    simp only [runCalls] at hr
    split at hr
    · exact absurd hr (by simp)
    · rename_i r hc
      have hres := run_resolve E d r.2 c r.1 hc
      rw [resolveFirstImage_resolved E d h] at hres
      injection hres with hres
      rw [← hres] at hr
      cases hq : runCalls E d cs with
      | none => rw [hq] at hr; exact absurd hr (by simp)
      | some q =>
        rw [hq] at hr
        simp only [Option.map_some', Option.some.injEq, Prod.mk.injEq] at hr
        obtain ⟨e1, e2⟩ := ih q.1 q.2 hq
        have hs : scansOf d = 0 := by simp [scansOf, h]
        rw [hs, e2] at hr
        exact ⟨hr.1.symm.trans e1, hr.2.symm⟩

/-- C14, as amended. For every document over a constructed container whose text
record count is below 65535, and every sequence of `getImage` and `thumbnail`
calls on it that is defined: the first call leaves `firstImageRecord` different
from 0; the document at the end of the sequence is the one the first call left,
so every later call sees the same `firstImageRecord`; the later calls run no
scan, so the number of scans of the whole sequence is that of the first call
and at most one; and on the document the first call left, the first line of the
accessors returns it unchanged in every environment. -/
theorem C14_scan_at_most_once (E : Env σ Img) (dev : QByteArray) (u : Uninit)
    (d : DocumentPrivate σ) (hpdb : d.pdb = PDB.ctor E dev u) (hn : d.ntextrecords < 65535)
    (c : ImageCall) (cs : List ImageCall) (dn : DocumentPrivate σ) (n : Nat)
    (h : runCalls E d (c :: cs) = some (dn, n)) :
    ∃ img d1, c.run E d = some (img, d1) ∧ d1.firstImageRecord ≠ 0 ∧
      dn = d1 ∧ n = scansOf d ∧ n ≤ 1 ∧
      runCalls E d1 cs = some (d1, 0) ∧
      ∀ E2 : Env σ Img, resolveFirstImage E2 d1 = some d1 := by
  have hnr : d.pdb.nrecords < 65536 := by
    rw [hpdb]; exact ctor_nrecords_lt E dev u
  simp only [runCalls] at h
  split at h
  · exact absurd h (by simp)
  rename_i r hc
  obtain ⟨img, d1⟩ := r
  have hres := run_resolve E d d1 c img hc
  obtain ⟨h0, _, _, _⟩ := resolveFirstImage_spec E d d1 hnr hn hres
  cases hq : runCalls E d1 cs with
  | none =>
    simp only at h
    rw [hq] at h
    exact absurd h (by simp)
  | some q =>
    simp only at h
    rw [hq] at h
    simp only [Option.map_some', Option.some.injEq, Prod.mk.injEq] at h
    obtain ⟨e1, e2⟩ := runCalls_resolved E d1 h0 cs q.1 q.2 hq
    have hscan : scansOf d ≤ 1 := by
      unfold scansOf
      split_ifs <;> omega
    refine ⟨img, d1, hc, h0, h.1.symm.trans e1, ?_, ?_, ?_,
      fun E2 => resolveFirstImage_resolved E2 d1 h0⟩
    · rw [← h.2, e2]; rfl
    · rw [← h.2, e2]; exact hscan
    · rw [hq]
      obtain ⟨q1, q2⟩ := q
      simp only at e1 e2
      rw [e1, e2]

end

theorem eq_some_getD {α : Type} (o : Option α) (x : α) (h : o.isSome = true) :
    o = some (o.getD x) := by
  cases o with
  | none => exact absurd h (by simp)
  | some a => rfl

/-- C11, witness: a header whose first DRM byte is 1 and second is 0; `hasDRM()`
is true. -/
theorem C11_witness :
    PDB.getRecord (PDB.ctor sampleEnv halfDrmStream zeroUninit) 0 = some (sampleHead 1 1 1 0) ∧
    (sampleHead 1 1 1 0)[12]? = some 1 ∧ (sampleHead 1 1 1 0)[13]? = some 0 ∧
    Document.ctor sampleEnv halfDrmStream zeroUninit =
      some (Document.ctorD sampleEnv halfDrmStream zeroUninit) ∧
    ((initFlags sampleEnv (DocumentPrivate.ctor sampleEnv halfDrmStream zeroUninit)
      (sampleHead 1 1 1 0)).drm = true ↔ ((1 : UInt8) ≠ 0 ∨ (0 : UInt8) ≠ 0)) ∧
    (Document.hasDRM (Document.ctorD sampleEnv halfDrmStream zeroUninit) = true ↔
      ((1 : UInt8) ≠ 0 ∨ (0 : UInt8) ≠ 0)) :=
  ⟨by decide, by decide, by decide, ctor_of_isSome sampleEnv halfDrmStream zeroUninit (by decide),
    (C11_drm_either_byte sampleEnv halfDrmStream zeroUninit (sampleHead 1 1 1 0) 1 0
      (by decide) (by decide) (by decide)).1,
    (C11_drm_either_byte sampleEnv halfDrmStream zeroUninit (sampleHead 1 1 1 0) 1 0
      (by decide) (by decide) (by decide)).2 _
      (ctor_of_isSome sampleEnv halfDrmStream zeroUninit (by decide))⟩

/-- C12, witness: the scenario of the specification, three records and one text
record; `imageCount()` is 2. -/
theorem C12_witness :
    Document.ctor sampleEnv helloStream zeroUninit =
      some (Document.ctorD sampleEnv helloStream zeroUninit) ∧
    Document.isValid (Document.ctorD sampleEnv helloStream zeroUninit) = true ∧
    PDB.getRecord (PDB.ctor sampleEnv helloStream zeroUninit) 0 = some (sampleHead 1 1 0 0) ∧
    PDB.recordCount (PDB.ctor sampleEnv helloStream zeroUninit) = 3 ∧
    Document.imageCount (Document.ctorD sampleEnv helloStream zeroUninit) = 2 ∧
    ∃ b8 b9 : UInt8, (sampleHead 1 1 0 0)[8]? = some b8 ∧ (sampleHead 1 1 0 0)[9]? = some b9 ∧
      (Document.ctorD sampleEnv helloStream zeroUninit).ntextrecords =
        256 * b8.toNat + b9.toNat ∧
      Document.imageCount (Document.ctorD sampleEnv helloStream zeroUninit) =
        PDB.recordCount (PDB.ctor sampleEnv helloStream zeroUninit) -
          ((256 * b8.toNat + b9.toNat : Nat) : Int) :=
  ⟨ctor_of_isSome sampleEnv helloStream zeroUninit (by decide), by decide, by decide, by decide,
    by decide,
    C12_imageCount sampleEnv helloStream zeroUninit _ (sampleHead 1 1 0 0)
      (ctor_of_isSome sampleEnv helloStream zeroUninit (by decide)) (by decide) (by decide)⟩

/-- C13, counterexample: a valid document over a well-formed container of two
records whose header declares 65535 text records. The sum `ntextrecords+1` is
stored in the 16-bit `firstImageRecord`, where it is 0: the scan starts at
record 0, hands records 0 and 1 to the image reader, and leaves
`firstImageRecord` at 1, an index not above the text record count. -/
theorem C13_counterexample :
    (Document.ctor sampleEnv wrapStream zeroUninit).map
      (fun d => (Document.isValid d, d.ntextrecords)) = some (true, 65535) ∧
    PDB.WellFormed (PDB.ctor sampleEnv wrapStream zeroUninit) ∧
    (PDB.ctor sampleEnv wrapStream zeroUninit).nrecords = 2 ∧
    findFirstImageScan sampleEnv (PDB.ctor sampleEnv wrapStream zeroUninit) (2 + 1)
      ((65535 + 1) % 2 ^ 16) = some (1, [0, 1]) ∧
    (Document.ctor sampleEnv wrapStream zeroUninit).map
      (fun d => (d.findFirstImage sampleEnv).map (fun x => x.firstImageRecord)) =
        some (some 1) := by
  decide

/-- C13, witness: the three-record sample document; the scan starts at record 2,
which is an image, and leaves `firstImageRecord` at 2. -/
theorem C13_witness :
    (Document.ctorD sampleEnv helloStream zeroUninit).pdb =
      PDB.ctor sampleEnv helloStream zeroUninit ∧
    PDB.WellFormed (Document.ctorD sampleEnv helloStream zeroUninit).pdb ∧
    (Document.ctorD sampleEnv helloStream zeroUninit).ntextrecords < 65535 ∧
    ((Document.ctorD sampleEnv helloStream zeroUninit).findFirstImage sampleEnv).map
      (fun x => x.firstImageRecord) = some 2 ∧
    ∃ fir trace,
      (Document.ctorD sampleEnv helloStream zeroUninit).findFirstImage sampleEnv =
        some { Document.ctorD sampleEnv helloStream zeroUninit with firstImageRecord := fir } ∧
      (∀ fuel, (Document.ctorD sampleEnv helloStream zeroUninit).pdb.nrecords < fuel →
        findFirstImageScan sampleEnv (Document.ctorD sampleEnv helloStream zeroUninit).pdb fuel
          ((Document.ctorD sampleEnv helloStream zeroUninit).ntextrecords + 1) =
            some (fir, trace) ∧
        findFirstImageLoop sampleEnv (Document.ctorD sampleEnv helloStream zeroUninit).pdb fuel
          ((Document.ctorD sampleEnv helloStream zeroUninit).ntextrecords + 1) = some fir) ∧
      (∀ j ∈ trace, (Document.ctorD sampleEnv helloStream zeroUninit).ntextrecords + 1 ≤ j ∧
        j < (Document.ctorD sampleEnv helloStream zeroUninit).pdb.nrecords) ∧
      (Document.ctorD sampleEnv helloStream zeroUninit).ntextrecords + 1 ≤ fir ∧
      (∀ (j : Nat) (rec : QByteArray),
        (Document.ctorD sampleEnv helloStream zeroUninit).ntextrecords + 1 ≤ j →
        j < (Document.ctorD sampleEnv helloStream zeroUninit).pdb.nrecords →
        PDB.getRecord (Document.ctorD sampleEnv helloStream zeroUninit).pdb (j : Int) =
          some rec →
        sampleEnv.canRead rec = true →
        (∀ (k : Nat) (rec2 : QByteArray),
          (Document.ctorD sampleEnv helloStream zeroUninit).ntextrecords + 1 ≤ k → k < j →
          PDB.getRecord (Document.ctorD sampleEnv helloStream zeroUninit).pdb (k : Int) =
            some rec2 →
          sampleEnv.canRead rec2 = false) →
        fir = j) :=
  ⟨(ctor_facts sampleEnv helloStream zeroUninit _
      (ctor_of_isSome sampleEnv helloStream zeroUninit (by decide))).1,
    by decide, by decide, by decide,
    C13_findFirstImage sampleEnv helloStream zeroUninit _
      (ctor_facts sampleEnv helloStream zeroUninit _
        (ctor_of_isSome sampleEnv helloStream zeroUninit (by decide))).1
      (by decide) (by decide)⟩

/-- C14, counterexample: a valid document whose header declares 65535 text
records, with an image reader that accepts every record. The first `getImage`
call scans from record 0 and leaves `firstImageRecord` at 0, the value that
means not yet computed, so the second call runs the scan again: two scans in
two calls. -/
theorem C14_counterexample :
    (Document.ctor greedyEnv wrapStream zeroUninit).map
      (fun d => (Document.isValid d, d.ntextrecords, d.firstImageRecord)) =
        some (true, 65535, 0) ∧
    (Document.ctor greedyEnv wrapStream zeroUninit).map
      (fun d => (ImageCall.run greedyEnv d (ImageCall.getImage 2)).map
        (fun r => (r.2.firstImageRecord, scansOf r.2))) = some (some (0, 1)) ∧
    (Document.ctor greedyEnv wrapStream zeroUninit).map
      (fun d => (runCalls greedyEnv d [ImageCall.getImage 2, ImageCall.getImage 2]).map
        Prod.snd) = some (some 2) := by
  decide

/-- C14, witness: `getImage(0)`, `thumbnail()`, `getImage(1)` on the sample
document: one scan, and `firstImageRecord` is 2 throughout. -/
theorem C14_witness :
    (Document.ctorD sampleEnv helloStream zeroUninit).pdb =
      PDB.ctor sampleEnv helloStream zeroUninit ∧
    (Document.ctorD sampleEnv helloStream zeroUninit).ntextrecords < 65535 ∧
    (runCalls sampleEnv (Document.ctorD sampleEnv helloStream zeroUninit)
      [ImageCall.getImage 0, ImageCall.thumbnail, ImageCall.getImage 1]).map
        (fun r => (r.1.firstImageRecord, r.2)) = some (2, 1) ∧
    ∃ img d1,
      (ImageCall.getImage 0).run sampleEnv (Document.ctorD sampleEnv helloStream zeroUninit) =
        some (img, d1) ∧
      d1.firstImageRecord ≠ 0 ∧
      ((runCalls sampleEnv (Document.ctorD sampleEnv helloStream zeroUninit)
        [ImageCall.getImage 0, ImageCall.thumbnail, ImageCall.getImage 1]).getD
          (Document.ctorD sampleEnv helloStream zeroUninit, 0)).1 = d1 ∧
      ((runCalls sampleEnv (Document.ctorD sampleEnv helloStream zeroUninit)
        [ImageCall.getImage 0, ImageCall.thumbnail, ImageCall.getImage 1]).getD
          (Document.ctorD sampleEnv helloStream zeroUninit, 0)).2 =
        scansOf (Document.ctorD sampleEnv helloStream zeroUninit) ∧
      ((runCalls sampleEnv (Document.ctorD sampleEnv helloStream zeroUninit)
        [ImageCall.getImage 0, ImageCall.thumbnail, ImageCall.getImage 1]).getD
          (Document.ctorD sampleEnv helloStream zeroUninit, 0)).2 ≤ 1 ∧
      runCalls sampleEnv d1 [ImageCall.thumbnail, ImageCall.getImage 1] = some (d1, 0) ∧
      ∀ E2 : Env SampleDec (Option QByteArray), resolveFirstImage E2 d1 = some d1 :=
  ⟨(ctor_facts sampleEnv helloStream zeroUninit _
      (ctor_of_isSome sampleEnv helloStream zeroUninit (by decide))).1,
    by decide, by decide,
    C14_scan_at_most_once sampleEnv helloStream zeroUninit _
      (ctor_facts sampleEnv helloStream zeroUninit _
        (ctor_of_isSome sampleEnv helloStream zeroUninit (by decide))).1
      (by decide) (ImageCall.getImage 0) [ImageCall.thumbnail, ImageCall.getImage 1] _ _
      (eq_some_getD (runCalls sampleEnv (Document.ctorD sampleEnv helloStream zeroUninit)
        [ImageCall.getImage 0, ImageCall.thumbnail, ImageCall.getImage 1])
        (Document.ctorD sampleEnv helloStream zeroUninit, 0) (by decide))⟩

/-- C15, the code at the failing input. The header declares no text record and
record 1 is an image. The scan leaves `firstImageRecord` at 1, and `getImage(0)`
reads record `1 + 0`, the image, and then record `1 + 0 - 2 = -1`: the guard of
`getRecord` lets a negative index through, and the offset table is indexed at
-1, outside `[0, recordCount)`. Neither `getImage(0)` nor `thumbnail()` has a
defined result. -/
theorem C15_getImage_reads_before_table :
    (Document.ctor sampleEnv noTextStream zeroUninit).map
      (fun d => (Document.isValid d, d.ntextrecords,
        (resolveFirstImage sampleEnv d).map (fun x => x.firstImageRecord))) =
          some (true, 0, some 1) ∧
    PDB.getRecord (PDB.ctor sampleEnv noTextStream zeroUninit) (1 + 0) = some samplePng ∧
    qlistIndex (PDB.ctor sampleEnv noTextStream zeroUninit).recordOffsets (1 + 0 - 2) = none ∧
    PDB.getRecord (PDB.ctor sampleEnv noTextStream zeroUninit) (1 + 0 - 2) = none ∧
    (Document.ctor sampleEnv noTextStream zeroUninit).map
      (fun d => (Document.getImage sampleEnv d 0).isSome) = some false ∧
    (Document.ctor sampleEnv noTextStream zeroUninit).map
      (fun d => (Document.thumbnail sampleEnv d).isSome) = some false := by
  decide

/-- C16, counterexample: two valid documents whose full-name range lies within
record 0 and whose Title is not set. In the first, record 0 has 100 bytes (at
least 92, not more than 176) and the range is bytes 92 to 95: the header
metadata is parsed only for records longer than 176 bytes. In the second,
record 0 has 184 bytes and the range is its last four bytes: the test
`nameoffset + namelen < size` is strict. -/
theorem C16_counterexample :
    (Document.ctor sampleEnv shortNameStream zeroUninit).map
      (fun d => (Document.isValid d, Document.metadata d MetaKey.Title)) = some (true, none) ∧
    PDB.getRecord (PDB.ctor sampleEnv shortNameStream zeroUninit) 0 = some nameHead ∧
    nameHead.length = 100 ∧
    readBELong nameHead 84 = some 92 ∧ readBELong nameHead 88 = some 4 ∧
    sampleEnv.fromLatin1 ((nameHead.drop 92).take 4) = "Name" ∧
    (Document.ctor sampleEnv edgeNameStream zeroUninit).map
      (fun d => (Document.isValid d, Document.metadata d MetaKey.Title)) = some (true, none) ∧
    PDB.getRecord (PDB.ctor sampleEnv edgeNameStream zeroUninit) 0 = some edgeNameHead ∧
    edgeNameHead.length = 184 ∧
    readBELong edgeNameHead 84 = some 180 ∧ readBELong edgeNameHead 88 = some 4 ∧
    sampleEnv.fromLatin1 ((edgeNameHead.drop 180).take 4) = "Name" := by
  decide

/-- C16, witness: a header record of 192 bytes whose full-name field points at the
bytes `Name`; the Title is `Name`. -/
theorem C16_witness :
    Document.ctor sampleEnv fullNameStream zeroUninit =
      some (Document.ctorD sampleEnv fullNameStream zeroUninit) ∧
    Document.isValid (Document.ctorD sampleEnv fullNameStream zeroUninit) = true ∧
    PDB.getRecord (PDB.ctor sampleEnv fullNameStream zeroUninit) 0 = some fullNameHead ∧
    fullNameHead.length > 176 ∧
    readBELong fullNameHead 84 = some 92 ∧ readBELong fullNameHead 88 = some 4 ∧
    92 + 4 < fullNameHead.length ∧
    Document.metadata (Document.ctorD sampleEnv fullNameStream zeroUninit) MetaKey.Title =
      some "Name" :=
  ⟨ctor_of_isSome sampleEnv fullNameStream zeroUninit (by decide), by decide, by decide,
    by decide, by decide, by decide, by decide,
    (C16_full_name_title sampleEnv fullNameStream zeroUninit _ fullNameHead 92 4
      (ctor_of_isSome sampleEnv fullNameStream zeroUninit (by decide)) (by decide) (by decide)
      (by decide) (by decide) (by decide) (by decide)).2.trans (by decide)⟩

/-- C17, the code at the failing input. The container built from the empty
stream reports valid, and its record count is whatever the uninitialised local
`word` held (0, or 3 with three offsets 0 from the uninitialised `dword`): no
read is checked. The containers of a stream of 77 bytes and of a stream of 123
bytes that declares 100 records, shorter than its record table, report valid
too, and the document built on the last one is valid. -/
theorem C17_malformed_container_reported_valid :
    PDB.isValid (PDB.ctor sampleEnv [] zeroUninit) = true ∧
    (PDB.ctor sampleEnv [] zeroUninit).nrecords = 0 ∧
    PDB.isValid (PDB.ctor sampleEnv [] staleUninit) = true ∧
    (PDB.ctor sampleEnv [] staleUninit).nrecords = 3 ∧
    (PDB.ctor sampleEnv [] staleUninit).recordOffsets = [0, 0, 0] ∧
    PDB.isValid (PDB.ctor sampleEnv (List.replicate 0x4D 0) zeroUninit) = true ∧
    truncatedStream.length = 123 ∧
    (PDB.ctor sampleEnv truncatedStream zeroUninit).nrecords = 100 ∧
    truncatedStream.length <
      0x4E + 8 * (PDB.ctor sampleEnv truncatedStream zeroUninit).nrecords ∧
    PDB.isValid (PDB.ctor sampleEnv truncatedStream zeroUninit) = true ∧
    (Document.ctor sampleEnv truncatedStream zeroUninit).map Document.isValid = some true := by
  refine ⟨by decide, by decide, by decide, by decide, by decide, by decide, by decide, by decide,
    by decide, by decide, by decide⟩

/-- C18, witness: a header record of 180 bytes whose EXTH offset is 180, right
beyond the record. -/
theorem C18_witness :
    (exthHeadFixed 1 1 0 0 0 0).length > 176 ∧
    readBELong (exthHeadFixed 1 1 0 0 0 0) 20 = some 164 ∧
    mid (exthHeadFixed 1 1 0 0 0 0) (toInt ((164 + 16) % 2 ^ 32)) 4 = some [] ∧
    ([] : QByteArray) ≠ exthTag ∧
    ((DocumentPrivate.ctor sampleEnv [] zeroUninit).parseEXTH sampleEnv
      (exthHeadFixed 1 1 0 0 0 0)).map
        (fun x => (x.metadata MetaKey.Author, x.thumbnailIndex, x.valid)) =
          some (none, 0, true) ∧
    parseEXTHRecords sampleEnv (DocumentPrivate.ctor sampleEnv [] zeroUninit)
      (exthHeadFixed 1 1 0 0 0 0) = some (DocumentPrivate.ctor sampleEnv [] zeroUninit, none) :=
  ⟨by decide, by decide, by decide, by decide, by decide,
    (C18_no_exth_tag sampleEnv (DocumentPrivate.ctor sampleEnv [] zeroUninit)
      (exthHeadFixed 1 1 0 0 0 0) [] 164 (by decide) (by decide) (by decide) (by decide)).1⟩

/-- C19, counterexample: a header whose first DRM byte is 1 and second is 0;
`hasDRM()` is true although the two bytes are not both non-zero. -/
theorem C19_counterexample :
    (Document.ctor sampleEnv halfDrmStream zeroUninit).map Document.hasDRM = some true ∧
    PDB.getRecord (PDB.ctor sampleEnv halfDrmStream zeroUninit) 0 = some (sampleHead 1 1 1 0) ∧
    (sampleHead 1 1 1 0).length = 32 ∧
    (sampleHead 1 1 1 0)[12]? = some 1 ∧ (sampleHead 1 1 1 0)[13]? = some 0 := by
  decide

/-- C19, witness: first DRM byte 1, second 0; `hasDRM()` is true. -/
theorem C19_witness :
    Document.ctor sampleEnv halfDrmStream zeroUninit =
      some (Document.ctorD sampleEnv halfDrmStream zeroUninit) ∧
    PDB.getRecord (PDB.ctor sampleEnv halfDrmStream zeroUninit) 0 = some (sampleHead 1 1 1 0) ∧
    (sampleHead 1 1 1 0)[12]? = some 1 ∧ (sampleHead 1 1 1 0)[13]? = some 0 ∧
    ((1 : UInt8) ≠ 0 → Document.hasDRM (Document.ctorD sampleEnv halfDrmStream zeroUninit) = true) ∧
    (Document.hasDRM (Document.ctorD sampleEnv halfDrmStream zeroUninit) = false ↔
      ((1 : UInt8) = 0 ∧ (0 : UInt8) = 0)) :=
  ⟨ctor_of_isSome sampleEnv halfDrmStream zeroUninit (by decide), by decide, by decide,
    by decide,
    (C19_drm_not_both sampleEnv halfDrmStream zeroUninit _ (sampleHead 1 1 1 0) 1 0
      (ctor_of_isSome sampleEnv halfDrmStream zeroUninit (by decide)) (by decide) (by decide)
      (by decide)).2.1,
    (C19_drm_not_both sampleEnv halfDrmStream zeroUninit _ (sampleHead 1 1 1 0) 1 0
      (ctor_of_isSome sampleEnv halfDrmStream zeroUninit (by decide)) (by decide) (by decide)
      (by decide)).2.2.2⟩

/-- C20, the code at the failing input. A block with the single record
(202, length 12, payload 1) ends at `180 + 12 + 12 = 204`, but the cursor after
the loop is 200. In a block with that record followed by (100, length 12,
`Jane`), which ends at 216, the record of type 202 advances the cursor by 8, the
second type code read is the payload value 1 and not 100, the cursor ends at
300, and Author is not set. -/
theorem C20_cursor_drifts_after_thumbnail_record :
    thumbHead = exthHeadFixed 1 1 0 0 0 0 ++
      exthBlock (be32 24) [{ type := 202, payload := be32 1 }] ∧
    (exthHeadFixed 1 1 0 0 0 0).length + 12 +
      (encodeRecords [{ type := 202, payload := be32 1 }]).length = 204 ∧
    (parseEXTHRecords sampleEnv (DocumentPrivate.ctor sampleEnv [] zeroUninit) thumbHead).map
      Prod.snd = some (some 200) ∧
    driftHead = exthHeadFixed 1 1 0 0 0 0 ++ exthBlock (be32 36)
      [{ type := 202, payload := be32 1 }, { type := 100, payload := ascii "Jane" }] ∧
    (exthHeadFixed 1 1 0 0 0 0).length + 12 + (encodeRecords
      [{ type := 202, payload := be32 1 }, { type := 100, payload := ascii "Jane" }]).length =
        216 ∧
    readBELong driftHead (180 + 12 + 12) = some 100 ∧
    readBELong driftHead (180 + 12 + 8) = some 1 ∧
    (exthStep sampleEnv (DocumentPrivate.ctor sampleEnv [] zeroUninit) driftHead (180 + 12)).map
      Prod.snd = some (180 + 12 + 8) ∧
    (parseEXTHRecords sampleEnv (DocumentPrivate.ctor sampleEnv [] zeroUninit) driftHead).map
      (fun r => (r.1.metadata MetaKey.Author, r.2)) = some (none, some 300) := by
  decide

/-- C21, as amended. For every stream whose record-0 compression code has no
matching strategy, the construction is defined and leaves the document invalid
and without strategy object; `isUtf` is false, `thumbnailIndex` is 0,
`metadata()` is empty and `firstImageRecord` is 0, as initialised, whatever the
remaining bytes of record 0 are; `ntextrecords` is not assigned; and `hasDRM()`
is true exactly when byte 12 or byte 13 of record 0 is non-zero, since these two
bytes are examined before the strategy test. -/
theorem C21_no_strategy_frame {σ Img : Type} (E : Env σ Img) (dev : QByteArray) (u : Uninit)
    (mhead : QByteArray)
    (hm : PDB.getRecord (PDB.ctor E dev u) 0 = some mhead)
    (hnone : E.create (byteRef mhead 1) (PDB.ctor E dev u) = none) :
    ∃ d, Document.ctor E dev u = some d ∧
      Document.isValid d = false ∧ d.dec = none ∧
      d.isUtf = false ∧ d.thumbnailIndex = 0 ∧ Document.metadata d = MetaMap.empty ∧
      d.firstImageRecord = 0 ∧ d.ntextrecords = u.ntextrecords % 2 ^ 16 ∧
      d.pdb = PDB.ctor E dev u ∧
      (Document.hasDRM d = true ↔ (byteRef mhead 12 ≠ 0 ∨ byteRef mhead 13 ≠ 0)) := by
  obtain ⟨mhead2, hm2, heq⟩ := ctor_eq E dev u
  rw [hm] at hm2
  injection hm2 with hm2
  subst hm2
  obtain ⟨f1, f2, _, f4, f5, f6, f7, f8, f9⟩ :=
    initFlags_fields E (DocumentPrivate.ctor E dev u) mhead
  have hpdb : (DocumentPrivate.ctor E dev u).pdb = PDB.ctor E dev u := rfl
  rw [hpdb] at f1 f2
  rw [hnone] at f2
  rw [f2] at heq
  refine ⟨_, heq, rfl, f2, f6, f7, f5, f8, f4, f1, ?_⟩
  have hfalse : (DocumentPrivate.ctor E dev u).drm = false := rfl
  rw [hfalse, Bool.false_or] at f9
  show (initFlags E (DocumentPrivate.ctor E dev u) mhead).drm = true ↔ _
  rw [f9]
  simp

/-- C21, counterexample: the header declares compression code 0, for which there
is no strategy, and its first DRM byte is 1. The constructed document is
invalid and `hasDRM()` is true: line 148 sets the flag before line 149 tests
the strategy pointer. -/
theorem C21_counterexample :
    ∃ mhead d, PDB.getRecord (PDB.ctor sampleEnv lockedUnknownStream zeroUninit) 0 = some mhead ∧
      sampleEnv.create (byteRef mhead 1) (PDB.ctor sampleEnv lockedUnknownStream zeroUninit) = none ∧
      Document.ctor sampleEnv lockedUnknownStream zeroUninit = some d ∧
      Document.isValid d = false ∧ Document.hasDRM d = true :=
  ⟨sampleHead 0 1 1 0,
    Document.ctorD sampleEnv lockedUnknownStream zeroUninit, by decide, by decide,
    ctor_of_isSome sampleEnv lockedUnknownStream zeroUninit (by decide), by decide, by decide⟩

/-- C21, witness: the header declares compression code 0 and both DRM bytes are
zero; the document is invalid and every field is as initialised. -/
theorem C21_witness :
    PDB.getRecord (PDB.ctor sampleEnv unknownCodeStream oneUninit) 0 = some (sampleHead 0 1 0 0) ∧
    sampleEnv.create (byteRef (sampleHead 0 1 0 0) 1)
      (PDB.ctor sampleEnv unknownCodeStream oneUninit) = none ∧
    ∃ d, Document.ctor sampleEnv unknownCodeStream oneUninit = some d ∧
      Document.isValid d = false ∧ d.dec = none ∧
      d.isUtf = false ∧ d.thumbnailIndex = 0 ∧ Document.metadata d = MetaMap.empty ∧
      d.firstImageRecord = 0 ∧ d.ntextrecords = oneUninit.ntextrecords % 2 ^ 16 ∧
      d.pdb = PDB.ctor sampleEnv unknownCodeStream oneUninit ∧
      (Document.hasDRM d = true ↔
        (byteRef (sampleHead 0 1 0 0) 12 ≠ 0 ∨ byteRef (sampleHead 0 1 0 0) 13 ≠ 0)) :=
  ⟨by decide, by decide,
    C21_no_strategy_frame sampleEnv unknownCodeStream oneUninit (sampleHead 0 1 0 0)
      (by decide) (by decide)⟩

/-- C22, the code at the failing input. Record 0 has 192 bytes, the full-name
offset is `0xFFFFFFFF` and the length 2: over unbounded integers the range ends
at `2 ^ 32 + 1`, far outside the record, but the 32-bit sum wraps to 1, the test
`(nameoffset + namelen) < size` accepts it, `mid(-1, 2)` yields the first byte of
the record, and the valid document has the Title `M`, the decoding of one byte
at offset 0 and not of two bytes at the declared offset. -/
theorem C22_wrapped_name_range_accepted :
    PDB.getRecord (PDB.ctor sampleEnv wrapNameStream zeroUninit) 0 = some wrapNameHead ∧
    wrapNameHead.length = 192 ∧
    readBELong wrapNameHead 84 = some 0xFFFFFFFF ∧
    readBELong wrapNameHead 88 = some 2 ∧
    ¬ (0xFFFFFFFF + 2 ≤ wrapNameHead.length) ∧
    (0xFFFFFFFF + 2) % 2 ^ 32 < wrapNameHead.length ∧
    mid wrapNameHead (toInt 0xFFFFFFFF) (toInt 2) = some (wrapNameHead.take 1) ∧
    Document.ctor sampleEnv wrapNameStream zeroUninit =
      some (Document.ctorD sampleEnv wrapNameStream zeroUninit) ∧
    Document.isValid (Document.ctorD sampleEnv wrapNameStream zeroUninit) = true ∧
    Document.metadata (Document.ctorD sampleEnv wrapNameStream zeroUninit) MetaKey.Title =
      some "M" := by
  refine ⟨by decide, by decide, by decide, by decide, by decide, by decide, by decide,
    ctor_of_isSome sampleEnv wrapNameStream zeroUninit (by decide), by decide, by decide⟩

theorem specRecordLength_next (d : PDBPrivate) (i off next : Nat) (hi : i + 1 < d.nrecords)
    (hoff : d.recordOffsets[i]? = some off) (hnext : d.recordOffsets[i + 1]? = some next) :
    specRecordLength d i = next - off := by
  simp [specRecordLength, hi, List.getD_eq_getElem?_getD, hoff, hnext]

theorem specRecordLength_last (d : PDBPrivate) (i off : Nat) (hi : ¬ (i + 1 < d.nrecords))
    (hoff : d.recordOffsets[i]? = some off) :
    specRecordLength d i = d.device.length - off := by
  simp [specRecordLength, hi, List.getD_eq_getElem?_getD, hoff]

/-- In a container with increasing offsets inside the stream, a record whose
length fits a byte array is the stream slice of that length at its offset, and
the next record starts where it ends. -/
theorem getRecord_slice (d : PDBPrivate) (hlen : d.recordOffsets.length = d.nrecords)
    (hp : d.recordOffsets.Pairwise (fun a b => a < b))
    (hlast : ∀ o ∈ d.recordOffsets.getLast?, o ≤ d.device.length)
    (i : Nat) (hi : i < d.nrecords) (hmax : specRecordLength d i ≤ INT_MAX) :
    ∃ off, d.recordOffsets[i]? = some off ∧ off + specRecordLength d i ≤ d.device.length ∧
      PDB.getRecord d (i : Int) = some ((d.device.drop off).take (specRecordLength d i)) ∧
      (i + 1 < d.nrecords → 0 < specRecordLength d i ∧
        d.recordOffsets[i + 1]? = some (off + specRecordLength d i)) ∧
      (i + 1 = d.nrecords → off + specRecordLength d i = d.device.length) := by
  obtain ⟨off, hoff, h1, h2⟩ := getRecord_lt d hlen i hi
  have hne : d.recordOffsets.getLast? ≠ none := by
    rw [List.getLast?_eq_getElem?]
    intro hnone
    rw [List.getElem?_eq_none_iff] at hnone
    omega
  obtain ⟨y, hy⟩ := Option.ne_none_iff_exists'.mp hne
  have hyle : y ≤ d.device.length := hlast y hy
  have hle := pairwise_le_last _ hp i off y hoff hy
  refine ⟨off, hoff, ?_⟩
  by_cases hl : i + 1 < d.nrecords
  · obtain ⟨next, hnext, hrec⟩ := h2 hl
    have hlt := pairwise_lt_next _ hp i off next hoff hnext
    have hle2 := pairwise_le_last _ hp (i + 1) next y hnext hy
    have hs := specRecordLength_next d i off next hl hoff hnext
    rw [hs] at hmax ⊢
    obtain ⟨e1, _⟩ := deviceRead_exact d.device off next (le_of_lt hlt) (by omega) hmax
    refine ⟨by omega, by rw [hrec, e1], ?_, ?_⟩
    · intro _
      refine ⟨by omega, ?_⟩
      rw [hnext]
      congr 1
      omega
    · intro h; omega
  · have hl2 : i + 1 = d.nrecords := by omega
    have hs := specRecordLength_last d i off hl hoff
    rw [hs] at hmax ⊢
    obtain ⟨e1, _⟩ := deviceRead_exact d.device off d.device.length (by omega) (le_refl _) hmax
    refine ⟨by omega, by rw [h1 hl2, e1], ?_, ?_⟩
    · intro h; omega
    · intro _; omega

/-- The records from index `i` to the last one, concatenated, are the stream
from the offset of record `i` to its end. -/
theorem recordsFrom_tail (d : PDBPrivate) (hlen : d.recordOffsets.length = d.nrecords)
    (hp : d.recordOffsets.Pairwise (fun a b => a < b))
    (hlast : ∀ o ∈ d.recordOffsets.getLast?, o ≤ d.device.length)
    (hmax : ∀ i, i < d.nrecords → specRecordLength d i ≤ INT_MAX) :
    ∀ n i, i + (n + 1) = d.nrecords →
      ∃ off, d.recordOffsets[i]? = some off ∧
        recordsFrom d i (n + 1) = some (d.device.drop off) := by
  intro n
  induction n with
  | zero =>
    intro i hi
    obtain ⟨off, hoff, hin, hrec, _, hend⟩ :=
      getRecord_slice d hlen hp hlast i (by omega) (hmax i (by omega))
    refine ⟨off, hoff, ?_⟩
    have hk : specRecordLength d i = d.device.length - off := by
      have := hend (by omega)
      omega
    simp only [recordsFrom, hrec, List.append_nil]
    rw [hk, List.take_of_length_le (by simp)]
  | succ n ih =>
    intro i hi
    obtain ⟨off, hoff, hin, hrec, hnext, _⟩ :=
      getRecord_slice d hlen hp hlast i (by omega) (hmax i (by omega))
    obtain ⟨_, hnx⟩ := hnext (by omega)
    obtain ⟨off2, hoff2, hrest⟩ := ih (i + 1) (by omega)
    rw [hnx] at hoff2
    injection hoff2 with hoff2
    subst hoff2
    refine ⟨off, hoff, ?_⟩
    rw [recordsFrom, hrec, hrest]
    simp only []
    rw [← List.drop_drop, List.take_append_drop]

/-- C23, as amended. For every well-formed container with `recordCount >= 1` in
which every record length (`recordOffsets[i+1] - recordOffsets[i]`, for the last
record `streamSize - recordOffsets[last]`) is at most `INT_MAX`, the size limit
of a byte array: the concatenation of `getRecord(0)`, ...,
`getRecord(recordCount-1)` in index order is exactly the stream from
`recordOffsets[0]` to its end; and record `i` is the stream slice of that
length at `recordOffsets[i]`, the next record starts where it ends, and the last
record ends at the end of the stream (contiguous, no overlap, full cover). -/
theorem C23_records_tile_tail {σ Img : Type} (E : Env σ Img) (dev : QByteArray) (u : Uninit)
    (hwf : PDB.WellFormed (PDB.ctor E dev u))
    (hn : 1 ≤ (PDB.ctor E dev u).nrecords)
    (hmax : ∀ i, i < (PDB.ctor E dev u).nrecords →
      specRecordLength (PDB.ctor E dev u) i ≤ INT_MAX) :
    (∃ first, (PDB.ctor E dev u).recordOffsets[0]? = some first ∧ first ≤ dev.length ∧
      allRecords (PDB.ctor E dev u) = some (dev.drop first)) ∧
    ∀ i, i < (PDB.ctor E dev u).nrecords →
      ∃ off, (PDB.ctor E dev u).recordOffsets[i]? = some off ∧
        PDB.getRecord (PDB.ctor E dev u) (i : Int) =
          some ((dev.drop off).take (specRecordLength (PDB.ctor E dev u) i)) ∧
        ((dev.drop off).take (specRecordLength (PDB.ctor E dev u) i)).length =
          specRecordLength (PDB.ctor E dev u) i ∧
        (i + 1 < (PDB.ctor E dev u).nrecords →
          (PDB.ctor E dev u).recordOffsets[i + 1]? =
            some (off + specRecordLength (PDB.ctor E dev u) i)) ∧
        (i + 1 = (PDB.ctor E dev u).nrecords →
          off + specRecordLength (PDB.ctor E dev u) i = dev.length) := by
  obtain ⟨_, hp, hlast⟩ := hwf
  have hlen := ctor_offsets_length E dev u
  have hdev := ctor_device E dev u
  constructor
  · obtain ⟨n, hn2⟩ : ∃ n, (PDB.ctor E dev u).nrecords = n + 1 := ⟨_, (Nat.sub_add_cancel hn).symm⟩
    obtain ⟨first, hfirst, hall⟩ :=
      recordsFrom_tail _ hlen hp hlast hmax n 0 (by omega)
    obtain ⟨off, hoff, hin, _⟩ :=
      getRecord_slice _ hlen hp hlast 0 (by omega) (hmax 0 (by omega))
    rw [hfirst] at hoff
    injection hoff with hoff
    subst hoff
    rw [hdev] at hin hall
    refine ⟨first, hfirst, by omega, ?_⟩
    rw [allRecords, hn2, hall]
  · intro i hi
    obtain ⟨off, hoff, hin, hrec, hnext, hend⟩ :=
      getRecord_slice _ hlen hp hlast i hi (hmax i hi)
    rw [hdev] at hin hrec hend
    refine ⟨off, hoff, hrec, ?_, fun h => (hnext h).2, hend⟩
    rw [List.length_take, List.length_drop]
    omega

theorem bigStream_wellFormed : PDB.WellFormed (PDB.ctor sampleEnv bigStream zeroUninit) := by
  have hn := bigStream_nrecords
  have ho := bigStream_offsets
  have hl := bigStream_length
  refine ⟨?_, ?_, ?_⟩
  · rw [hn, ctor_device, hl]; norm_num
  · rw [ho]; simp
  · rw [ho, ctor_device, hl]
    intro o ho2
    simp at ho2
    subst ho2
    norm_num

theorem bigStream_record : PDB.getRecord (PDB.ctor sampleEnv bigStream zeroUninit) 0 = some [] := by
  have hn := bigStream_nrecords
  have ho := bigStream_offsets
  have hl := bigStream_length
  obtain ⟨off, hoff, hlast, _⟩ := getRecord_lt _ (ctor_offsets_length _ _ _) 0 (by rw [hn]; decide)
  rw [ho] at hoff
  simp at hoff
  subst hoff
  have := hlast (by rw [hn])
  rw [ctor_device, hl] at this
  simp only [Nat.cast_zero] at this
  rw [this]
  simp [deviceRead]

/-- C23, counterexample: a well-formed container with one record at offset 86 over
a stream of `2 ^ 32 + 86` bytes. The concatenation of its records is empty,
while the stream holds `2 ^ 32` bytes from offset 86 on: the length of the
record is computed in a `quint32`, where it wraps to 0. -/
theorem C23_counterexample :
    PDB.WellFormed (PDB.ctor sampleEnv bigStream zeroUninit) ∧
    1 ≤ (PDB.ctor sampleEnv bigStream zeroUninit).nrecords ∧
    (PDB.ctor sampleEnv bigStream zeroUninit).recordOffsets[0]? = some 86 ∧
    allRecords (PDB.ctor sampleEnv bigStream zeroUninit) = some [] ∧
    (bigStream.drop 86).length = 2 ^ 32 ∧
    allRecords (PDB.ctor sampleEnv bigStream zeroUninit) ≠ some (bigStream.drop 86) := by
  have hn := bigStream_nrecords
  have ho := bigStream_offsets
  have hl : (bigStream.drop 86).length = 2 ^ 32 := by
    rw [List.length_drop, bigStream_length]
    norm_num
  have hall : allRecords (PDB.ctor sampleEnv bigStream zeroUninit) = some [] := by
    rw [allRecords, hn]
    simp only [recordsFrom, Nat.cast_zero, bigStream_record, List.append_nil]
  refine ⟨bigStream_wellFormed, by rw [hn], by rw [ho]; rfl, hall, hl, ?_⟩
  rw [hall]
  intro h
  injection h with h
  rw [← h] at hl
  simp at hl

/-- C23, witness: the three records of the sample stream, at offsets 102, 134
and 139 of 144 bytes, concatenate to the stream from offset 102 on. -/
theorem C23_witness :
    PDB.WellFormed (PDB.ctor sampleEnv helloStream zeroUninit) ∧
    (PDB.ctor sampleEnv helloStream zeroUninit).nrecords = 3 ∧
    (PDB.ctor sampleEnv helloStream zeroUninit).recordOffsets = [102, 134, 139] ∧
    helloStream.length = 144 ∧
    allRecords (PDB.ctor sampleEnv helloStream zeroUninit) = some (helloStream.drop 102) ∧
    PDB.getRecord (PDB.ctor sampleEnv helloStream zeroUninit) 1 = some (ascii "Hello") := by
  have h := C23_records_tile_tail sampleEnv helloStream zeroUninit (by decide) (by decide)
    (by decide)
  have ho : (PDB.ctor sampleEnv helloStream zeroUninit).recordOffsets = [102, 134, 139] := by
    decide
  obtain ⟨⟨first, hfirst, _, hall⟩, _⟩ := h
  rw [ho] at hfirst
  simp at hfirst
  subst hfirst
  exact ⟨by decide, by decide, ho, by decide, hall, by decide⟩

section
variable {σ Img : Type}

/-- Whether the full-name block is defined depends on the record only. -/
theorem parseFullName_defined (E : Env σ Img) (d d2 : DocumentPrivate σ) (data : QByteArray)
    (h : (parseFullName E d data).isSome = true) : (parseFullName E d2 data).isSome = true := by
  unfold parseFullName at h ⊢
  split_ifs with h92
  · rw [if_pos h92] at h
    cases h84 : readBELong data 84 with
    | none => rw [h84] at h; simp at h
    | some no =>
      cases h88 : readBELong data 88 with
      | none => rw [h84, h88] at h; simp at h
      | some nl =>
        rw [h84, h88] at h
        simp only [] at h ⊢
        split_ifs with ht
        · rw [if_pos ht] at h
          cases hm : mid data (toInt no) (toInt nl) with
          | none => rw [hm] at h; simp at h
          | some bytes => rfl
        · rfl
  · rfl

/-- C7. For every constructed document whose record 0 is longer than 176 bytes
and is `pre ++ exthBlock hl rs ++ post`, a record that carries a well-formed EXTH
block (the tag at `readBE32(data,20)+16`, each record with its type, its total
length `8 + payload length`, and its payload, all inside the record) whose
records have a type other than 202, and on which the full-name block of
`parseEXTH` is defined: the header parse of `init` (lines 153-158: text record
count, encoding, and `parseEXTH` behind the test `size > 176`) is defined, the
metadata is empty when `parseEXTH` is entered, and right after it Author,
Description, Subject and Copyright are mapped to the decoded payload (UTF-8
when `isUtf`, that is when the encoding at offset 28 is 65001, latin-1
otherwise) of the last record of type 100, 103, 105 and 109, and have no value
when no record of the type occurs; the thumbnail index is still 0; and, when a
strategy exists, the construction continues from this state with the markup
fallback of line 161. -/
theorem C7_exth_metadata (E : Env σ Img) (dev : QByteArray) (u : Uninit)
    (pre hl post : QByteArray) (rs : List ExthRecord) (v : Nat)
    (hrec : PDB.getRecord (PDB.ctor E dev u) 0 = some (pre ++ exthBlock hl rs ++ post))
    (hlong : 176 < (pre ++ exthBlock hl rs ++ post).length)
    (hv : readBELong (pre ++ exthBlock hl rs ++ post) 20 = some v)
    (hoff : v + 16 = pre.length) (hhl : hl.length = 4)
    (htypes : ∀ r ∈ rs, r.type < 2 ^ 32 ∧ r.type ≠ 202)
    (hname : (parseFullName E (DocumentPrivate.ctor E dev u)
      (pre ++ exthBlock hl rs ++ post)).isSome = true) :
    ∃ d2 d3,
      initEncoding (initFlags E (DocumentPrivate.ctor E dev u) (pre ++ exthBlock hl rs ++ post))
        (pre ++ exthBlock hl rs ++ post) = some d2 ∧
      d2.metadata = MetaMap.empty ∧
      d2.parseEXTH E (pre ++ exthBlock hl rs ++ post) = some d3 ∧
      initParse E (initFlags E (DocumentPrivate.ctor E dev u) (pre ++ exthBlock hl rs ++ post))
        (pre ++ exthBlock hl rs ++ post) = some d3 ∧
      (∀ s, E.create (byteRef (pre ++ exthBlock hl rs ++ post) 1) (PDB.ctor E dev u) = some s →
        Document.ctor E dev u = initFallback E s d3) ∧
      (d3.isUtf = true ↔ readBELong (pre ++ exthBlock hl rs ++ post) 28 = some 65001) ∧
      (∀ p, d3.decodeString E p = if d3.isUtf then E.fromUtf8 p else E.fromLatin1 p) ∧
      d3.metadata MetaKey.Author = (lastPayload 100 rs).map (d3.decodeString E) ∧
      d3.metadata MetaKey.Description = (lastPayload 103 rs).map (d3.decodeString E) ∧
      d3.metadata MetaKey.Subject = (lastPayload 105 rs).map (d3.decodeString E) ∧
      d3.metadata MetaKey.Copyright = (lastPayload 109 rs).map (d3.decodeString E) ∧
      d3.thumbnailIndex = 0 := by
  have hsize := getRecord_length_le _ _ _ hrec
  generalize hdata : pre ++ exthBlock hl rs ++ post = data at hrec hlong hv hname hsize ⊢
  obtain ⟨_, f2, _, _, f5, f6, f7, _, _⟩ := initFlags_fields E (DocumentPrivate.ctor E dev u) data
  have hmeta0 : (DocumentPrivate.ctor E dev u).metadata = MetaMap.empty := rfl
  have hutf0 : (DocumentPrivate.ctor E dev u).isUtf = false := rfl
  have hthumb0 : (DocumentPrivate.ctor E dev u).thumbnailIndex = 0 := rfl
  have hpdb : (DocumentPrivate.ctor E dev u).pdb = PDB.ctor E dev u := rfl
  rw [hmeta0] at f5
  rw [hutf0] at f6
  rw [hthumb0] at f7
  rw [hpdb] at f2
  -- the encoding
  obtain ⟨enc, h28⟩ : ∃ enc, readBELong data 28 = some enc := by
    unfold readBELong
    rw [if_neg (by omega)]
    exact ⟨_, rfl⟩
  obtain ⟨d2, hd2, hutf2⟩ : ∃ d2, initEncoding (initFlags E (DocumentPrivate.ctor E dev u) data)
      data = some d2 ∧ (d2.isUtf = true ↔ enc = 65001) := by
    unfold initEncoding
    simp only [h28]
    by_cases he : enc = 65001
    · rw [if_pos he]
      exact ⟨_, rfl, by simp [he]⟩
    · rw [if_neg he]
      refine ⟨_, rfl, ?_⟩
      simp only [he, iff_false]
      rw [f6]
      simp
  obtain ⟨_, g2, g3⟩ := initEncoding_fields _ d2 data hd2
  rw [f5] at g2
  rw [f7] at g3
  -- the full-name block
  have hn2 := parseFullName_defined E _ d2 data hname
  obtain ⟨d1, hd1⟩ := Option.isSome_iff_exists.mp hn2
  obtain ⟨_, n2, _, n4, n5⟩ := parseFullName_base E d2 d1 data hd1
  have hnone : ∀ k, k ≠ MetaKey.Title → d1.metadata k = none := by
    intro k hk
    rw [n5 k hk, g2]
    rfl
  -- the records
  subst hdata
  obtain ⟨cursor, hblock⟩ :=
    parseEXTHRecords_block E d1 pre hl post rs v hsize hv hoff hhl htypes
  obtain ⟨s1, s2, _⟩ := storeRecords_fields E rs d1
  have hparse : d2.parseEXTH E (pre ++ exthBlock hl rs ++ post) = some (storeRecords E d1 rs) := by
    unfold DocumentPrivate.parseEXTH
    rw [hd1]
    simp only []
    rw [hblock]
  have hdec : ∀ p, (storeRecords E d1 rs).decodeString E p = d1.decodeString E p :=
    fun p => decodeString_congr E d1 _ s1 p
  have hkey : ∀ (k : MetaKey) (t : Nat), exthTypeOf k = some t → k ≠ MetaKey.Title →
      (storeRecords E d1 rs).metadata k =
        (lastPayload t rs).map ((storeRecords E d1 rs).decodeString E) := by
    intro k t hk hne
    rw [storeRecords_metadata E rs k t hk d1]
    cases lastPayload t rs with
    | none => simp [hnone k hne]
    | some p => simp [hdec]
  refine ⟨d2, storeRecords E d1 rs, hd2, g2, hparse, ?_, ?_, ?_, fun p => rfl,
    hkey _ 100 rfl (by decide), hkey _ 103 rfl (by decide), hkey _ 105 rfl (by decide),
    hkey _ 109 rfl (by decide), ?_⟩
  · unfold initParse
    rw [hd2]
    simp only []
    rw [if_pos hlong, hparse]
  · intro s hs
    obtain ⟨mhead2, hm2, heq⟩ := ctor_eq E dev u
    rw [hrec] at hm2
    injection hm2 with hm2
    subst hm2
    rw [hs] at f2
    rw [heq, f2]
    simp only []
    have hinit : initParse E (initFlags E (DocumentPrivate.ctor E dev u)
        (pre ++ exthBlock hl rs ++ post)) (pre ++ exthBlock hl rs ++ post) =
          some (storeRecords E d1 rs) := by
      unfold initParse
      rw [hd2]
      simp only []
      rw [if_pos hlong, hparse]
    rw [hinit]
  · rw [s1, n2, hutf2]
    rw [h28]
    simp
  · rw [s2, n4, g3]

end

/-- C7, witness: the scenario of the specification. The header of the stream
carries one record of type 100 with payload `Jane Doe`: right after EXTH parsing
Author is `Jane Doe` and the other three keys have no value, and the constructed
document has `metadata()[Author] = Jane Doe`. -/
theorem C7_witness :
    PDB.getRecord (PDB.ctor sampleEnv janeStream zeroUninit) 0 =
      some (exthHeadFixed 1 1 0 0 0 0 ++
        exthBlock (be32 28) [{ type := 100, payload := ascii "Jane Doe" }] ++ []) ∧
    janeHead.length = 208 ∧
    readBELong janeHead 20 = some 164 ∧
    (Document.ctor sampleEnv janeStream zeroUninit).map
      (fun d => (Document.isValid d, Document.metadata d MetaKey.Author,
        Document.metadata d MetaKey.Subject)) = some (true, some "Jane Doe", none) ∧
    ∃ d3, initParse sampleEnv
        (initFlags sampleEnv (DocumentPrivate.ctor sampleEnv janeStream zeroUninit) janeHead)
        janeHead = some d3 ∧
      d3.metadata MetaKey.Author = some "Jane Doe" ∧ d3.metadata MetaKey.Subject = none ∧
      d3.metadata MetaKey.Description = none ∧ d3.metadata MetaKey.Copyright = none := by
  refine ⟨by decide, by decide, by decide, by decide, ?_⟩
  obtain ⟨_, d3, _, _, _, h, _, hutf, hdec, hA, hD, hS, hC, _⟩ :=
    C7_exth_metadata sampleEnv janeStream zeroUninit
      (exthHeadFixed 1 1 0 0 0 0) (be32 28) []
      [{ type := 100, payload := ascii "Jane Doe" }] 164 (by decide) (by decide) (by decide)
      (by decide) (by decide) (by decide) (by decide)
  have hu : d3.isUtf = false := by
    have hne : ¬ (d3.isUtf = true) := by
      rw [hutf]
      decide
    simpa using hne
  refine ⟨d3, h, ?_, ?_, ?_, ?_⟩
  · have hl : lastPayload 100 [{ type := 100, payload := ascii "Jane Doe" }] =
        some (ascii "Jane Doe") := by decide
    rw [hA, hl, Option.map_some', hdec, hu]
    decide
  · rw [hS]; rfl
  · rw [hD]; rfl
  · rw [hC]; rfl

end Mobipocket
